import Mathlib

/-!
# RPCEmu: I2C bus, PCF8583 real-time clock and CMOS RAM (src/cmos.c)

A shallow embedding of `cmos.c`.  The C globals (`cmosram`, `i2c_devices`,
`pcf_s`, `pcf8583_s`, `spd_s`, `spd_i2c_s`, `spd_data`, `serdes_s`, `i2cclock`,
`i2cdata`) are the fields of one record, `Machine`, and every C function is a
function on that record.  C `int`, `unsigned`, `uint8_t` and `uint16_t` values
are natural numbers; a store into a narrower C type is written with an explicit
`% 256`, `% 65536` or `% 4294967296`.
-/

namespace RPCEmu

/-! ## Host time -/

/-- Broken-down time, `struct tm` of the C library.  The fields that the
library keeps in a non-negative range are natural numbers; `tm_year` (years
since 1900) and `tm_isdst` (negative when unknown) are integers. -/
structure Tm where
  tm_sec : Nat
  tm_min : Nat
  tm_hour : Nat
  tm_mday : Nat
  tm_mon : Nat
  tm_year : Int
  tm_wday : Nat
  tm_isdst : Int

/-- The macro `BIN2BCD(val)`: `((val / 10) << 4) | (val % 10)`. -/
def BIN2BCD (val : Nat) : Nat := ((val / 10) <<< 4) ||| (val % 10)

/-! ## Constants of cmos.c -/

/-- Return value of the start and write operations: acknowledged. -/
abbrev I2C_ACK : Nat := 0
/-- Return value of the start and write operations: not acknowledged. -/
abbrev I2C_NACK : Nat := 1
/-- Return value of the read operations. -/
abbrev I2C_DONE : Nat := 3
/-- Direction passed to a start operation: read. -/
abbrev I2C_READ : Nat := 5
/-- Direction passed to a start operation: write. -/
abbrev I2C_WRITE : Nat := 6

/-- PCF8583 phase: the next written byte is the register address. -/
abbrev PCF_STATE_ADDR : Nat := 0
/-- PCF8583 phase: the next written byte is data. -/
abbrev PCF_STATE_DATA : Nat := 2

/-- Bit of the data pin in `oldpinstate`. -/
abbrev I2C_SDA : Nat := 1
/-- Bit of the clock pin in `oldpinstate`. -/
abbrev I2C_SCL : Nat := 2

abbrev I2C_STATE_IDLE : Nat := 0
abbrev I2C_STATE_ADDR : Nat := 1
abbrev I2C_STATE_ACK_READ : Nat := 2
abbrev I2C_STATE_ACK_READ_ADDR : Nat := 3
abbrev I2C_STATE_ACK_WRITE : Nat := 4
abbrev I2C_STATE_NACK_WRITE : Nat := 5
abbrev I2C_STATE_READ : Nat := 6
abbrev I2C_STATE_WRITE : Nat := 7
abbrev I2C_STATE_WAIT : Nat := 8

/-- The constants of `cmos.h` and `rpcemu.h` that `cmos.c` uses.  Neither
header is among the sources, so their values are parameters of the model:
the two device bits of the `i2c_devices` bitfield and the three machine models
that have a PS/2 mouse. -/
structure Headers where
  I2C_PCF8583 : Nat
  I2C_SPD_DIMM0 : Nat
  Model_A7000 : Nat
  Model_A7000plus : Nat
  Model_Phoebe : Nat

/-! ## Data model -/

/-- The two operation tables, `pcf8583_ops` and `spd_ops`.  A table is an
`I2C_SlaveOps` record of function pointers in C; here it is a tag, and the
functions `I2C_SlaveOps.start` .. `I2C_SlaveOps.read_ack` below dispatch on
it. -/
inductive I2C_SlaveOps where
  | pcf8583_ops
  | spd_ops
deriving DecidableEq, Repr

/-- An `I2C_Slave` record: the operation table (a null pointer until `reseti2c`
installs it) and the 7-bit bus address.  The `dev` pointer is not a field: each
operation table works on its own device record (`pcf` or `spd`). -/
structure I2C_Slave where
  devops : Option I2C_SlaveOps
  address : Nat
deriving DecidableEq, Repr

/-- The two `I2C_Slave` objects of the file; a non-null `I2C_Slave *` is one of
them. -/
inductive SlaveRef where
  | pcf8583
  | spd_i2c
deriving DecidableEq, Repr

/-- State of the Philips RTC chip (`PCF8583`): `reg_address` is a `uint16_t`,
`state` an `int`.  The embedded `i2c_slave` member is never used by the code
and is left out. -/
structure PCF8583 where
  reg_address : Nat
  state : Nat
deriving DecidableEq, Repr

/-- State of the SPD chip (`SPD`): `reg_address` is a `uint8_t`. -/
structure SPD where
  reg_address : Nat
deriving DecidableEq, Repr

/-- The I2C state machine record `I2C_SerDes`. -/
structure I2C_SerDes where
  active_slave : Option SlaveRef
  slave_was_accessed : Nat
  address : Nat
  inbuf : Nat
  outbuf : Nat
  bitcount : Nat
  state : Nat
  oldpinstate : Nat
deriving DecidableEq, Repr

/-- Diagnostics that the code prints when it meets a state it calls a bug. -/
inductive Bug where
  | emulator_bug
  | bitcount_le_0
  | unknown_result (result : Nat)
  | no_handler (state : Nat)
deriving DecidableEq, Repr

/-- Observable steps, recorded in order of occurrence: each entry into an
operation of a responder, each call of `savecmos`, and each bug diagnostic. -/
inductive Effect where
  | start (ops : I2C_SlaveOps) (i2c_addr operation : Nat)
  | stop (ops : I2C_SlaveOps)
  | write (ops : I2C_SlaveOps) (data : Nat)
  | read (ops : I2C_SlaveOps)
  | read_ack (ops : I2C_SlaveOps) (ack : Nat)
  | savecmos
  | bug (b : Bug)
deriving DecidableEq, Repr

/-- Ways in which a call ends the process instead of returning. -/
inductive Fault where
  | exit (code : Nat)
  | fatal
  | null_deref
deriving DecidableEq, Repr

/-- All mutable state of cmos.c, and the host's file cmos.ram.  `cmosram` maps
an address to a byte (the array has 256 entries; the code only uses addresses
below 256).  `cmos_file` is the content of the file cmos.ram, absent when it
cannot be opened for reading.  `effects` is the record of observable steps so
far.  `host_fopen_w k` tells whether the host lets `fopen(fn, "wb")` succeed in
the call of `savecmos` that follows `k` earlier calls. -/
structure Machine where
  i2cclock : Nat
  i2cdata : Nat
  cmosram : Nat → Nat
  i2c_devices : Nat
  pcf : PCF8583
  pcf8583 : I2C_Slave
  spd_data : List Nat
  spd : SPD
  spd_i2c : I2C_Slave
  serdes : I2C_SerDes
  cmos_file : Option (List Nat)
  effects : List Effect
  host_fopen_w : Nat → Bool

/-- The initialiser of the static array `spd_data[128]`: thirty-two given
bytes, the rest zero. -/
def spd_data_init : List Nat :=
  [128, 8, 4, 12, 10, 1, 64, 0,
   0, 1, 1, 0, 0, 8, 0, 0,
   0xf, 2, 0x7f, 0x7f, 0x7f, 0x00, 0x3f, 0x10,
   0x10, 0x10, 0x10, 1, 1, 1, 1, 0x20] ++ List.replicate 96 0

/-- Assignment `cmosram[a] = v` of an `unsigned char`. -/
def ram_set (ram : Nat → Nat) (a v : Nat) : Nat → Nat :=
  fun x => if x = a then v % 256 else ram x

/-- The slave record a `SlaveRef` points to. -/
def Machine.slave (m : Machine) : SlaveRef → I2C_Slave
  | .pcf8583 => m.pcf8583
  | .spd_i2c => m.spd_i2c

/-! ## The CMOS RAM -/

/-- A value of C `int` arithmetic: the 32-bit two's-complement integer
congruent to `x` modulo 2^32. -/
def int_wrap (x : Int) : Int := (x + 2147483648) % 4294967296 - 2147483648

/-- The function `cmos_update_settings`: `t` is the result of `gmtime`, `tloc`
of `localtime`, `model` is `machine.model`.  The year expressions are C `int`
arithmetic (the sum wrapping to 32 bits, division truncating towards zero),
stored into an `unsigned char`. -/
def cmos_update_settings (hd : Headers) (t tloc : Tm) (model : Nat) (m : Machine) : Machine :=
  let ram := m.cmosram
  let ram := ram_set ram 0xc0 (Int.toNat ((Int.tmod (int_wrap (t.tm_year + 1900)) 100) % 256))
  let ram := ram_set ram 0xc1 (Int.toNat ((Int.tdiv (int_wrap (t.tm_year + 1900)) 100) % 256))
  let ram :=
    if tloc.tm_isdst ≥ 0 then
      if tloc.tm_isdst > 0 then
        ram_set ram 0x2c (ram 0x2c ||| (1 <<< 7))
      else
        ram_set ram 0x2c (ram 0x2c &&& (4294967295 - (1 <<< 7)))
    else ram
  let ram :=
    if model = hd.Model_A7000 ∨ model = hd.Model_A7000plus ∨ model = hd.Model_Phoebe then
      ram_set ram 0x5d 3
    else
      ram_set ram 0x5d 0
  { m with cmosram := ram }

/-- The address read in round `i` of the loop of `cmos_update_checksum`. -/
def checksum_offset (i : Nat) : Nat :=
  let offset := i + 0x40
  if offset > 255 then offset - 240 else offset

/-- The loop of `cmos_update_checksum`, rounds `i`, `i + 1`, .. `238`, on the
`unsigned` accumulator `checksum`; `fuel` bounds the number of rounds. -/
def checksum_loop (ram : Nat → Nat) : Nat → Nat → Nat → Nat
  | 0, _, checksum => checksum
  | fuel + 1, i, checksum =>
    if i < 239 then
      checksum_loop ram fuel (i + 1) ((checksum + ram (checksum_offset i)) % 4294967296)
    else checksum

/-- The function `cmos_update_checksum`. -/
def cmos_update_checksum (m : Machine) : Machine :=
  let checksum := checksum_loop m.cmosram 239 0 0
  { m with cmosram := ram_set m.cmosram 0x3f (((checksum + 1) % 4294967296) &&& 0xff) }

/-- The function `cmos_init`.  `m.cmos_file` is the content of cmos.ram, or
absent when `fopen` fails; `fread` delivers 256 bytes exactly when the file
holds that many. -/
def cmos_init (m : Machine) : Except Fault Machine :=
  match m.cmos_file with
  | some bytes =>
    if bytes.length < 256 then .error .fatal
    else .ok { m with cmosram := fun a => if a < 256 then bytes.getD a 0 % 256 else m.cmosram a }
  | none =>
    .ok { m with cmosram := fun a => if a < 256 then 0 else m.cmosram a }

/-- The function `cmos_reset`. -/
def cmos_reset (hd : Headers) (t tloc : Tm) (model : Nat) (m : Machine) : Machine :=
  let m := cmos_update_settings hd t tloc model m
  let m := cmos_update_checksum m
  { m with cmosram := fun a => if a < 16 then 0 else m.cmosram a }

/-- The function `savecmos`.  Whether `fopen(fn, "wb")` succeeds is the host's
answer `host_fopen_w` for this call, the calls so far being those recorded in
`effects`.  When it succeeds the 256 bytes of `cmosram` replace the file
content; when it fails the file is left as it was and the function returns.
The `fwrite` of the 256 bytes to the opened file and the `fclose` are taken to
succeed, so that the bytes reach the file: a failing `fwrite` ends the process
in `fatal`, and no state is returned for it. -/
def savecmos (m : Machine) : Machine :=
  { m with
    cmos_file :=
      if m.host_fopen_w (m.effects.count Effect.savecmos) = true then
        some ((List.range 256).map m.cmosram)
      else m.cmos_file,
    effects := m.effects ++ [Effect.savecmos] }

/-- The function `cmosgettime`; `t` is the result of `gmtime`.  The low two
bits of the year, `(t->tm_year + 1900) & 3` on a two's-complement `int`, are
the remainder in `0 .. 3`. -/
def cmosgettime (t : Tm) (m : Machine) : Machine :=
  let ram := m.cmosram
  let ram := ram_set ram 1 0
  let ram := ram_set ram 2 (BIN2BCD t.tm_sec)
  let ram := ram_set ram 3 (BIN2BCD t.tm_min)
  let ram := ram_set ram 4 (BIN2BCD t.tm_hour)
  let ram := ram_set ram 5 ((Int.toNat ((t.tm_year + 1900) % 4) <<< 6) ||| BIN2BCD t.tm_mday)
  let ram := ram_set ram 6 ((t.tm_wday <<< 5) ||| BIN2BCD (t.tm_mon + 1))
  { m with cmosram := ram }

/-! ## The PCF8583 responder -/

/-- The function `pcf8583_write`; returns the result code and the new state.
`data` is a `uint8_t` parameter. -/
def pcf8583_write (m : Machine) (data : Nat) : Nat × Machine :=
  let data := data % 256
  let m := { m with effects := m.effects ++ [Effect.write .pcf8583_ops data] }
  if m.pcf.state = PCF_STATE_ADDR then
    (I2C_ACK, { m with pcf := { m.pcf with reg_address := data, state := PCF_STATE_DATA } })
  else if m.pcf.state = PCF_STATE_DATA then
    let reg := m.pcf.reg_address
    let m := { m with cmosram := ram_set m.cmosram reg data }
    let m := if reg = 0x3f then savecmos m else m
    (I2C_ACK, { m with pcf := { m.pcf with reg_address := ((reg + 1) &&& 0xff) % 65536 } })
  else
    (I2C_ACK, m)

/-- The function `pcf8583_read`; returns the result code, the byte stored
through `data`, and the new state.  `t` is the host time that `cmosgettime`
obtains when it is called. -/
def pcf8583_read (t : Tm) (m : Machine) : Nat × Nat × Machine :=
  let m := { m with effects := m.effects ++ [Effect.read .pcf8583_ops] }
  let m := if m.pcf.reg_address < 0x10 then cmosgettime t m else m
  let data := m.cmosram m.pcf.reg_address
  (I2C_DONE, data,
    { m with pcf := { m.pcf with reg_address := ((m.pcf.reg_address + 1) &&& 0xff) % 65536 } })

/-- The function `pcf8583_start`. -/
def pcf8583_start (m : Machine) (i2c_addr operation : Nat) : Nat × Machine :=
  let m := { m with effects := m.effects ++ [Effect.start .pcf8583_ops i2c_addr operation] }
  (I2C_ACK, { m with pcf := { m.pcf with state := PCF_STATE_ADDR } })

/-- The function `pcf8583_stop`. -/
def pcf8583_stop (m : Machine) : Machine :=
  let m := { m with effects := m.effects ++ [Effect.stop .pcf8583_ops] }
  { m with pcf := { m.pcf with state := PCF_STATE_ADDR } }

/-! ## The SPD responder -/

/-- The function `spd_write`; `data` is a `uint8_t` parameter. -/
def spd_write (m : Machine) (data : Nat) : Nat × Machine :=
  let data := data % 256
  let m := { m with effects := m.effects ++ [Effect.write .spd_ops data] }
  (I2C_ACK, { m with spd := { m.spd with reg_address := data &&& 0x7f } })

/-- The function `spd_read`; returns the result code, the byte stored through
`data`, and the new state.  An index outside the table reads as 0 here. -/
def spd_read (m : Machine) : Nat × Nat × Machine :=
  let data := m.spd_data.getD m.spd.reg_address 0
  let m := { m with effects := m.effects ++ [Effect.read .spd_ops] }
  (I2C_DONE, data,
    { m with spd := { m.spd with reg_address := ((m.spd.reg_address + 1) &&& 0x7f) % 256 } })

/-- The function `spd_start`. -/
def spd_start (m : Machine) (i2c_addr operation : Nat) : Nat × Machine :=
  (I2C_ACK, { m with effects := m.effects ++ [Effect.start .spd_ops i2c_addr operation] })

/-- The function `spd_stop`. -/
def spd_stop (m : Machine) : Machine :=
  { m with effects := m.effects ++ [Effect.stop .spd_ops] }

/-! ## Operation tables -/

/-- Member `start` of an operation table. -/
def I2C_SlaveOps.start : I2C_SlaveOps → Machine → Nat → Nat → Nat × Machine
  | .pcf8583_ops => pcf8583_start
  | .spd_ops => spd_start

/-- Member `stop` of an operation table. -/
def I2C_SlaveOps.stop : I2C_SlaveOps → Machine → Machine
  | .pcf8583_ops => pcf8583_stop
  | .spd_ops => spd_stop

/-- Member `write` of an operation table. -/
def I2C_SlaveOps.write : I2C_SlaveOps → Machine → Nat → Nat × Machine
  | .pcf8583_ops => pcf8583_write
  | .spd_ops => spd_write

/-- Member `read` of an operation table; only the PCF8583 consults the host
time `t`. -/
def I2C_SlaveOps.read : I2C_SlaveOps → Tm → Machine → Nat × Nat × Machine
  | .pcf8583_ops => pcf8583_read
  | .spd_ops => fun _ => spd_read

/-- Member `read_ack` of an operation table: `NULL` in both tables. -/
def I2C_SlaveOps.read_ack : I2C_SlaveOps → Option (Machine → Nat → Machine)
  | .pcf8583_ops => none
  | .spd_ops => none

/-! ## The I2C state machine -/

/-- The function `reset_serdes`: every field of the state machine except
`oldpinstate`, and both output pins. -/
def reset_serdes (m : Machine) : Machine :=
  { m with
    serdes := { m.serdes with
      state := I2C_STATE_IDLE, bitcount := 0, address := 0, active_slave := none,
      inbuf := 0, outbuf := 0, slave_was_accessed := 0 },
    i2cclock := 1, i2cdata := 1 }

/-- The operation table reached through `slave->devops`; a null table pointer
cannot be followed. -/
def Machine.devops (m : Machine) (slave : SlaveRef) : Except Fault I2C_SlaveOps :=
  match (m.slave slave).devops with
  | some ops => .ok ops
  | none => .error .null_deref

/-- Both output pins released: `i2cclock = 1; i2cdata = 1;`. -/
def release_lines (m : Machine) : Machine :=
  { m with i2cclock := 1, i2cdata := 1 }

/-- Final statement of `cmosi2cchange`:
`serdes->oldpinstate = (scl << 1) | sda`. -/
def store_pins (scl sda : Nat) (m : Machine) : Machine :=
  { m with serdes := { m.serdes with oldpinstate := (scl <<< 1) ||| sda } }

/-- Shifting one sampled bit into the `uint8_t` field `inbuf`:
`bitcount++; inbuf <<= 1; if (sda) inbuf |= 1;`. -/
def shift_in (sda : Nat) (m : Machine) : Machine :=
  let inbuf := (m.serdes.inbuf <<< 1) % 256
  let inbuf := if sda ≠ 0 then inbuf ||| 1 else inbuf
  { m with serdes := { m.serdes with bitcount := m.serdes.bitcount + 1, inbuf := inbuf } }

/-- Case `I2C_STATE_ADDR` of the switch in `cmosi2cchange`. -/
def case_ADDR (hd : Headers) (oldscl scl sda : Nat) (m : Machine) : Except Fault Machine :=
  if oldscl ≠ 0 ∧ scl = 0 then
    .ok (release_lines m)
  else if oldscl = 0 ∧ scl ≠ 0 then
    let m := shift_in sda m
    if m.serdes.bitcount = 8 then
      let m := { m with serdes := { m.serdes with address := m.serdes.inbuf >>> 1 } }
      let slave : Option SlaveRef :=
        if m.serdes.address = m.pcf8583.address ∧ m.i2c_devices &&& hd.I2C_PCF8583 ≠ 0 then
          some .pcf8583
        else if m.serdes.address = m.spd_i2c.address ∧ m.i2c_devices &&& hd.I2C_SPD_DIMM0 ≠ 0 then
          some .spd_i2c
        else none
      match slave with
      | some sl =>
        match m.devops sl with
        | .error e => .error e
        | .ok ops =>
          let (result, m) :=
            if m.serdes.inbuf &&& 1 ≠ 0 then
              ops.start { m with serdes := { m.serdes with state := I2C_STATE_ACK_READ_ADDR } }
                m.serdes.address I2C_READ
            else
              ops.start { m with serdes := { m.serdes with state := I2C_STATE_ACK_WRITE } }
                m.serdes.address I2C_WRITE
          if result = I2C_ACK then
            .ok (release_lines { m with serdes := { m.serdes with active_slave := some sl } })
          else if result = I2C_NACK then
            let m := release_lines m
            .ok { m with serdes := { m.serdes with state := I2C_STATE_WAIT } }
          else .ok m
      | none => .ok (reset_serdes m)
    else .ok m
  else .ok m

/-- Case `I2C_STATE_ACK_READ_ADDR`. -/
def case_ACK_READ_ADDR (oldscl scl : Nat) (m : Machine) : Except Fault Machine :=
  if oldscl ≠ 0 ∧ scl = 0 then
    .ok { m with i2cclock := 1, i2cdata := 0 }
  else if oldscl = 0 ∧ scl ≠ 0 then
    .ok { m with serdes := { m.serdes with
            state := I2C_STATE_READ, bitcount := 8, slave_was_accessed := 1 } }
  else .ok m

/-- Case `I2C_STATE_ACK_READ`. -/
def case_ACK_READ (oldscl scl sda : Nat) (m : Machine) : Except Fault Machine :=
  if oldscl ≠ 0 ∧ scl = 0 then
    .ok (release_lines m)
  else if oldscl = 0 ∧ scl ≠ 0 then
    match m.serdes.active_slave with
    | none => .error (.exit 5324)
    | some slave =>
      if sda ≠ 0 then
        let m := { m with serdes := { m.serdes with state := I2C_STATE_WAIT } }
        match m.devops slave with
        | .error e => .error e
        | .ok ops =>
          let m := match ops.read_ack with
            | some f => f { m with effects := m.effects ++ [Effect.read_ack ops I2C_NACK] } I2C_NACK
            | none => m
          if m.i2cdata = 0 then
            .ok { m with effects := m.effects ++ [Effect.bug .emulator_bug] }
          else .ok m
      else
        match m.devops slave with
        | .error e => .error e
        | .ok ops =>
          let m := match ops.read_ack with
            | some f => f { m with effects := m.effects ++ [Effect.read_ack ops I2C_ACK] } I2C_ACK
            | none => m
          .ok { m with serdes := { m.serdes with
                  state := I2C_STATE_READ, bitcount := 8, slave_was_accessed := 1 } }
  else .ok m

/-- Cases `I2C_STATE_ACK_WRITE` and `I2C_STATE_NACK_WRITE`, which share their
code. -/
def case_ACK_WRITE (oldscl scl : Nat) (m : Machine) : Except Fault Machine :=
  if oldscl ≠ 0 ∧ scl = 0 then
    let m := { m with i2cclock := 1, i2cdata := 0 }
    if m.serdes.state = I2C_STATE_NACK_WRITE then .ok { m with i2cdata := 1 } else .ok m
  else if oldscl = 0 ∧ scl ≠ 0 then
    .ok { m with serdes := { m.serdes with state := I2C_STATE_WRITE, bitcount := 0, inbuf := 0 } }
  else .ok m

/-- Case `I2C_STATE_READ`; `t` is the host time, used when the responder is
asked for the next byte. -/
def case_READ (t : Tm) (oldscl scl : Nat) (m : Machine) : Except Fault Machine :=
  if oldscl ≠ 0 ∧ scl = 0 then
    let fetched : Except Fault Machine :=
      if m.serdes.bitcount = 8 then
        match m.serdes.active_slave with
        | none => .error .null_deref
        | some slave =>
          match m.devops slave with
          | .error e => .error e
          | .ok ops =>
            let (_, data, m) := ops.read t m
            .ok { m with serdes := { m.serdes with outbuf := data % 256 } }
      else .ok m
    match fetched with
    | .error e => .error e
    | .ok m =>
      if m.serdes.bitcount > 0 then
        let m := { m with serdes := { m.serdes with bitcount := m.serdes.bitcount - 1 } }
        let m := { m with i2cclock := 1, i2cdata := 0 }
        if m.serdes.outbuf &&& (1 <<< m.serdes.bitcount) ≠ 0 then
          .ok { m with i2cdata := 1 }
        else .ok m
      else
        .ok { m with effects := m.effects ++ [Effect.bug .bitcount_le_0] }
  else if oldscl = 0 ∧ scl ≠ 0 then
    if m.serdes.bitcount = 0 then
      .ok { m with serdes := { m.serdes with state := I2C_STATE_ACK_READ } }
    else .ok m
  else .ok m

/-- The end of the rising-edge branch of case `I2C_STATE_WRITE`, once the
responder's write has returned `result`: `serdes->slave_was_accessed = 1` and
the three-way test on the result code. -/
def case_WRITE_result (result : Nat) (m : Machine) : Except Fault Machine :=
  let m := { m with serdes := { m.serdes with slave_was_accessed := 1 } }
  if result = I2C_ACK then
    .ok { m with serdes := { m.serdes with state := I2C_STATE_ACK_WRITE }, i2cclock := 1 }
  else if result = I2C_NACK then
    .ok { m with serdes := { m.serdes with state := I2C_STATE_NACK_WRITE }, i2cclock := 1 }
  else
    .ok { m with effects := m.effects ++ [Effect.bug (.unknown_result result)] }

/-- Case `I2C_STATE_WRITE`. -/
def case_WRITE (oldscl scl sda : Nat) (m : Machine) : Except Fault Machine :=
  if oldscl ≠ 0 ∧ scl = 0 then
    .ok (release_lines m)
  else if oldscl = 0 ∧ scl ≠ 0 then
    let m := shift_in sda m
    if m.serdes.bitcount = 8 then
      match m.serdes.active_slave with
      | none => .error (.exit 3245)
      | some slave =>
        match m.devops slave with
        | .error e => .error e
        | .ok ops =>
          let (result, m) := ops.write m m.serdes.inbuf
          case_WRITE_result result m
    else .ok m
  else .ok m

/-- The switch on `serdes->state` in `cmosi2cchange`. -/
def dispatch (hd : Headers) (t : Tm) (oldscl scl sda : Nat) (m : Machine) : Except Fault Machine :=
  if m.serdes.state = I2C_STATE_IDLE then .ok (release_lines m)
  else if m.serdes.state = I2C_STATE_ADDR then case_ADDR hd oldscl scl sda m
  else if m.serdes.state = I2C_STATE_ACK_READ_ADDR then case_ACK_READ_ADDR oldscl scl m
  else if m.serdes.state = I2C_STATE_ACK_READ then case_ACK_READ oldscl scl sda m
  else if m.serdes.state = I2C_STATE_ACK_WRITE ∨ m.serdes.state = I2C_STATE_NACK_WRITE then
    case_ACK_WRITE oldscl scl m
  else if m.serdes.state = I2C_STATE_READ then case_READ t oldscl scl m
  else if m.serdes.state = I2C_STATE_WRITE then case_WRITE oldscl scl sda m
  else if m.serdes.state = I2C_STATE_WAIT then .ok m
  else
    .ok (release_lines
      { m with effects := m.effects ++ [Effect.bug (.no_handler m.serdes.state)] })

/-- The function `cmosi2cchange`.  `scl` and `sda` are the C `int` arguments
(non-negative here; zero is false, anything else true); `t` is the time the
host reports if it is asked during the call. -/
def cmosi2cchange (hd : Headers) (t : Tm) (scl sda : Nat) (m : Machine) : Except Fault Machine :=
  let oldscl := m.serdes.oldpinstate &&& I2C_SCL
  let oldsda := m.serdes.oldpinstate &&& I2C_SDA
  if scl ≠ 0 ∧ oldsda ≠ 0 ∧ sda = 0 then
    let m := reset_serdes m
    let m := { m with serdes := { m.serdes with state := I2C_STATE_ADDR } }
    .ok (store_pins scl sda m)
  else if scl ≠ 0 ∧ oldsda = 0 ∧ sda ≠ 0 then
    let stopped : Except Fault Machine :=
      match m.serdes.active_slave with
      | some slave =>
        match m.devops slave with
        | .error e => .error e
        | .ok ops => .ok (ops.stop m)
      | none => .ok m
    match stopped with
    | .error e => .error e
    | .ok m => .ok (store_pins scl sda (reset_serdes m))
  else
    match dispatch hd t oldscl scl sda m with
    | .error e => .error e
    | .ok m => .ok (store_pins scl sda m)

/-- The function `reseti2c`; `chosen_i2c_devices` is a `uint32_t`. -/
def reseti2c (chosen_i2c_devices : Nat) (m : Machine) : Machine :=
  let m := { m with i2cclock := 1, i2cdata := 1,
                    i2c_devices := chosen_i2c_devices % 4294967296 }
  let m := { m with pcf8583 := { devops := some .pcf8583_ops, address := 0x50 } }
  let m := { m with spd_i2c := { devops := some .spd_ops, address := 0x54 },
                    spd := { m.spd with reg_address := 0 } }
  reset_serdes m

/-! ## The state at program start, and sample inputs -/

/-- The state when the program starts: static storage is zero except for the
initialisers `i2cclock = 1`, `i2cdata = 1` and the `spd_data` table; no file
cmos.ram yet, on a host that lets every `fopen` for writing succeed. -/
def power_on : Machine where
  i2cclock := 1
  i2cdata := 1
  cmosram := fun _ => 0
  i2c_devices := 0
  pcf := { reg_address := 0, state := 0 }
  pcf8583 := { devops := none, address := 0 }
  spd_data := spd_data_init
  spd := { reg_address := 0 }
  spd_i2c := { devops := none, address := 0 }
  serdes := { active_slave := none, slave_was_accessed := 0, address := 0, inbuf := 0,
              outbuf := 0, bitcount := 0, state := 0, oldpinstate := 0 }
  cmos_file := none
  effects := []
  host_fopen_w := fun _ => true

/-- One choice of the header constants: the device bits 1 and 2, and three
distinct model numbers. -/
def sample_headers : Headers where
  I2C_PCF8583 := 1
  I2C_SPD_DIMM0 := 2
  Model_A7000 := 3
  Model_A7000plus := 4
  Model_Phoebe := 6

/-- A host time: Thursday 1 January 1970, 00:00:00. -/
def epoch : Tm where
  tm_sec := 0
  tm_min := 0
  tm_hour := 0
  tm_mday := 1
  tm_mon := 0
  tm_year := 70
  tm_wday := 4
  tm_isdst := 0

/-! ## Driving the bus -/

/-- The registry as `reseti2c` installs it: both operation tables set, the RTC
at bus address 0x50 and the SPD at 0x54. -/
def Registered (m : Machine) : Prop :=
  m.pcf8583 = { devops := some .pcf8583_ops, address := 0x50 } ∧
  m.spd_i2c = { devops := some .spd_ops, address := 0x54 }

instance (m : Machine) : Decidable (Registered m) := by
  unfold Registered; infer_instance

/-- A sequence of calls of `cmosi2cchange`, one per pair `(scl, sda)`;
`clk i` is the host time during call number `i` of the sequence. -/
def run (hd : Headers) (clk : Nat → Tm) : List (Nat × Nat) → Machine → Except Fault Machine
  | [], m => .ok m
  | (scl, sda) :: evs, m =>
    match cmosi2cchange hd (clk 0) scl sda m with
    | .error e => .error e
    | .ok m => run hd (fun i => clk (i + 1)) evs m

/-- Bit `i` of `b`. -/
def bit_of (b i : Nat) : Nat := (b >>> i) &&& 1

/-- One clock pulse with the data pin at `x`: a call with the clock low, in
which the data pin takes its value, then a call with the clock high. -/
def clock_pulse (x : Nat) : List (Nat × Nat) := [(0, x), (1, x)]

/-- Clock pulses for bits `n - 1`, .. , `0` of `b`, in that order. -/
def send_bits (b : Nat) : Nat → List (Nat × Nat)
  | 0 => []
  | n + 1 => clock_pulse (bit_of b n) ++ send_bits b n

/-- The controller sends the byte `b`, most significant bit first. -/
def send_byte (b : Nat) : List (Nat × Nat) := send_bits b 8

/-- The controller clocks `n` bits in with the data pin released (high):
per bit a call with the clock low, after which `i2cdata` is sampled, and a
call with the clock high.  Returns the sampled values in order, and the final
state. -/
def read_bits (hd : Headers) (clk : Nat → Tm) : Nat → Machine → Except Fault (List Nat × Machine)
  | 0, m => .ok ([], m)
  | n + 1, m =>
    match cmosi2cchange hd (clk 0) 0 1 m with
    | .error e => .error e
    | .ok m1 =>
      match cmosi2cchange hd (clk 1) 1 1 m1 with
      | .error e => .error e
      | .ok m2 =>
        match read_bits hd (fun i => clk (i + 2)) n m2 with
        | .error e => .error e
        | .ok (bits, m3) => .ok (m1.i2cdata :: bits, m3)

/-- The number whose binary digits, most significant first, are `bits`. -/
def byte_of_bits (bits : List Nat) : Nat := bits.foldl (fun acc b => 2 * acc + b) 0

/-! ## Reference definitions for the checksum -/

/-- The addresses 0x10 .. 0xFF other than 0x3F, in increasing order. -/
def persistent_addresses : List Nat :=
  (List.range 256).filter (fun a => 0x10 ≤ a ∧ a ≠ 0x3f)

/-! ## Sample states and auxiliary definitions for the bus lemmas -/

/-- The operation table that `reseti2c` installs for a slave. -/
def SlaveRef.ops : SlaveRef → I2C_SlaveOps
  | .pcf8583 => .pcf8583_ops
  | .spd_i2c => .spd_ops

/-- A state in the middle of an RTC write transaction: after `reseti2c` with
both devices on the bus, the RTC addressed for writing, in its data phase at
register 0x20, and four bits of the next byte received; the pins were last
sampled with the clock low and the data low. -/
def sample_busy : Machine :=
  let m := reseti2c 3 power_on
  { m with
    pcf := { reg_address := 0x20, state := PCF_STATE_DATA },
    serdes := { active_slave := some .pcf8583, slave_was_accessed := 1, address := 0x50,
                inbuf := 0x0b, outbuf := 0, bitcount := 4, state := I2C_STATE_WRITE,
                oldpinstate := 0 } }

/-- A state in which seven address bits, 0010001, have been received after a
Start condition; the pins were last sampled with the clock low and the data
high. -/
def sample_addressing : Machine :=
  let m := reseti2c 3 power_on
  { m with
    serdes := { m.serdes with inbuf := 0x11, bitcount := 7, state := I2C_STATE_ADDR,
                              oldpinstate := 1 } }

/-- The value of `inbuf` after one more bit `x` is shifted in. -/
def shl1 (inbuf x : Nat) : Nat :=
  if x ≠ 0 then ((inbuf <<< 1) % 256) ||| 1 else (inbuf <<< 1) % 256

/-- The value of `inbuf` after bits `n - 1`, .. , `0` of `b` are shifted in. -/
def shl_bits (b : Nat) : Nat → Nat → Nat
  | 0, inbuf => inbuf
  | n + 1, inbuf => shl_bits b n (shl1 inbuf (bit_of b n))

/-- The effect of one clock pulse with data `x` in the Addressing and Writing
states while fewer than eight bits have arrived: lines released on the
falling edge, one bit shifted in on the rising edge. -/
def shift_pulse (x : Nat) (m : Machine) : Machine :=
  store_pins 1 x (shift_in x (release_lines m))

/-- The effect of the clock pulses `send_bits b n` while fewer than eight bits
have arrived. -/
def shift_bits (b : Nat) : Nat → Machine → Machine
  | 0, m => m
  | n + 1, m => shift_bits b n (shift_pulse (bit_of b n) m)

/-- The state after the RTC has been addressed from state `m`: `inbuf` is the
address byte received, `x` its last bit, and `pcf8583_start` acknowledged. -/
def addressed_rtc (inbuf x : Nat) (m : Machine) : Machine :=
  { m with
    i2cclock := 1, i2cdata := 1,
    pcf := { m.pcf with state := PCF_STATE_ADDR },
    effects := m.effects ++
      [Effect.start .pcf8583_ops 0x50 (if inbuf &&& 1 ≠ 0 then I2C_READ else I2C_WRITE)],
    serdes := { m.serdes with
      active_slave := some .pcf8583, address := 0x50, inbuf := inbuf, bitcount := 8,
      state := if inbuf &&& 1 ≠ 0 then I2C_STATE_ACK_READ_ADDR else I2C_STATE_ACK_WRITE,
      oldpinstate := (1 <<< 1) ||| x } }

/-- The state after the RTC has received a byte from state `m`: `inbuf` is the
byte, `x` its last bit, and `pcf8583_write` acknowledged. -/
def written_rtc (inbuf x : Nat) (m : Machine) : Machine :=
  { (pcf8583_write m inbuf).2 with
    i2cclock := 1, i2cdata := 1,
    serdes := { m.serdes with
      slave_was_accessed := 1, inbuf := inbuf, bitcount := 8,
      state := I2C_STATE_ACK_WRITE, oldpinstate := (1 <<< 1) ||| x } }

/-- The state after the acknowledge clock pulse (data pin `x`) that follows a
received byte. -/
def acked_write (x : Nat) (m : Machine) : Machine :=
  { m with
    i2cclock := 1, i2cdata := 0,
    serdes := { m.serdes with
      state := I2C_STATE_WRITE, bitcount := 0, inbuf := 0, oldpinstate := (1 <<< 1) ||| x } }

/-- The state after the acknowledge clock pulse (data pin `x`) that follows a
read address. -/
def acked_read_addr (x : Nat) (m : Machine) : Machine :=
  { m with
    i2cclock := 1, i2cdata := 0,
    serdes := { m.serdes with
      state := I2C_STATE_READ, bitcount := 8, slave_was_accessed := 1,
      oldpinstate := (1 <<< 1) ||| x } }

/-- The state after a Start condition `cmosi2cchange(1, 0)` in state `m`. -/
def started (m : Machine) : Machine :=
  { m with
    i2cclock := 1, i2cdata := 1,
    serdes := { active_slave := none, slave_was_accessed := 0, address := 0, inbuf := 0,
                outbuf := 0, bitcount := 0, state := I2C_STATE_ADDR,
                oldpinstate := (1 <<< 1) ||| 0 } }

/-- The state after the falling clock edge (data pin `x`) of an acknowledge
clock pulse: the data line is driven low. -/
def ack_driven (x : Nat) (m : Machine) : Machine :=
  { m with
    i2cclock := 1, i2cdata := 0,
    serdes := { m.serdes with oldpinstate := (0 <<< 1) ||| x } }

/-- The level driven on the data line for bit `k` of the byte `v`: the test
`(outbuf & (1 << bitcount)) != 0`. -/
def out_bit (v k : Nat) : Nat := if v &&& (1 <<< k) ≠ 0 then 1 else 0

/-- The levels driven for bits `k - 1`, .. , `0` of `v`, in that order. -/
def out_bits (v : Nat) : Nat → List Nat
  | 0 => []
  | k + 1 => out_bit v k :: out_bits v k

/-- The state after the first falling clock edge of a byte read from the RTC
at host time `t`: the byte is fetched with `pcf8583_read` and its bit 7 is
driven. -/
def fetched_rtc (t : Tm) (m : Machine) : Machine :=
  let r := pcf8583_read t m
  { r.2.2 with
    i2cclock := 1, i2cdata := out_bit (r.2.1 % 256) 7,
    serdes := { m.serdes with outbuf := r.2.1 % 256, bitcount := 7 } }

/-- The state after the last clock pulse of a byte read, the data pin held
high by the controller: bit 0 is on the data line and the machine waits for
the controller's acknowledge. -/
def read_done (m : Machine) : Machine :=
  { m with
    i2cclock := 1, i2cdata := out_bit m.serdes.outbuf 0,
    serdes := { m.serdes with
      bitcount := 0, state := I2C_STATE_ACK_READ, oldpinstate := (1 <<< 1) ||| 1 } }

/-- The state after `n` consecutive calls of `spd_read`. -/
def spd_read_n : Nat → Machine → Machine
  | 0, m => m
  | n + 1, m => spd_read_n n (spd_read m).2.2

/-- Consecutive calls of `pcf8583_write`, one per byte of `ds`; returns the
result codes in order, and the final state. -/
def pcf8583_write_seq : List Nat → Machine → List Nat × Machine
  | [], m => ([], m)
  | d :: ds, m =>
    let (r, m1) := pcf8583_write m d
    let (rs, m2) := pcf8583_write_seq ds m1
    (r :: rs, m2)

/-- A state before any bus traffic: a store of varied bytes (0xA5 at address
0), the pins last sampled high. -/
def sample_idle : Machine :=
  store_pins 1 1 { power_on with cmosram := fun a => (7 * a + 0xa5) % 256 }

/-- The RTC in its data phase at the last register address, 0xFF. -/
def sample_last_register : Machine :=
  { sample_busy with pcf := { reg_address := 0xff, state := PCF_STATE_DATA } }

/-- The RTC in its data phase at register address 0xFE. -/
def sample_near_wrap : Machine :=
  { sample_busy with pcf := { reg_address := 0xfe, state := PCF_STATE_DATA } }

/-- A host time: Thursday 29 February 2024, 12:34:56. -/
def sample_time : Tm where
  tm_sec := 56
  tm_min := 34
  tm_hour := 12
  tm_mday := 29
  tm_mon := 1
  tm_year := 124
  tm_wday := 4
  tm_isdst := 0

/-- The RTC at register address 2, the seconds register. -/
def sample_clock_read : Machine :=
  { sample_idle with pcf := { reg_address := 2, state := PCF_STATE_DATA } }

/-- A state whose file cmos.ram holds 300 bytes, `0, 1, .., 255, 0, 1, ..`. -/
def sample_long_file : Machine :=
  { power_on with cmos_file := some ((List.range 300).map (fun i => i % 256)) }

/-- A state whose file cmos.ram holds only 100 bytes. -/
def sample_short_file : Machine :=
  { power_on with cmos_file := some (List.replicate 100 7) }

/-- A state waiting to acknowledge a byte it refused: the state machine in
`I2C_STATE_NACK_WRITE`, the clock last sampled high. -/
def sample_nack : Machine :=
  { sample_busy with
    serdes := { sample_busy.serdes with state := I2C_STATE_NACK_WRITE, bitcount := 8,
                                         oldpinstate := 2 } }

/-- Clock pulses with the data pin values `xs`: per value a call with the
clock low and a call with the clock high.  Returns, per pulse, the state after
the falling edge and the state after the rising edge. -/
def read_pulses (hd : Headers) (clk : Nat → Tm) :
    List Nat → Machine → Except Fault (List (Machine × Machine))
  | [], _ => .ok []
  | x :: xs, m =>
    match cmosi2cchange hd (clk 0) 0 x m with
    | .error e => .error e
    | .ok f =>
      match cmosi2cchange hd (clk 1) 1 x f with
      | .error e => .error e
      | .ok r =>
        match read_pulses hd (fun i => clk (i + 2)) xs r with
        | .error e => .error e
        | .ok ps => .ok ((f, r) :: ps)

/-- The state after the first falling clock edge of a byte read from the
responder `sl` at host time `t`: the byte is fetched with the responder's read
operation and its bit 7 is driven. -/
def fetched (sl : SlaveRef) (t : Tm) (m : Machine) : Machine :=
  let r := sl.ops.read t m
  { r.2.2 with
    i2cclock := 1, i2cdata := out_bit (r.2.1 % 256) 7,
    serdes := { m.serdes with outbuf := r.2.1 % 256, bitcount := 7 } }

/-- A state about to read a byte from the SPD: after `reseti2c` with both
devices on the bus, the SPD addressed for reading at register 2, the state
machine in `I2C_STATE_READ` with eight bits due, the clock last sampled
high. -/
def sample_reading : Machine :=
  let m := reseti2c 3 power_on
  { m with
    spd := { reg_address := 2 },
    serdes := { active_slave := some .spd_i2c, slave_was_accessed := 1, address := 0x54,
                inbuf := 0xa9, outbuf := 0, bitcount := 8, state := I2C_STATE_READ,
                oldpinstate := 3 } }

/-- The state after the SPD has been addressed from state `m`: `inbuf` is the
address byte received, `x` its last bit, and `spd_start` acknowledged. -/
def addressed_spd (inbuf x : Nat) (m : Machine) : Machine :=
  { m with
    i2cclock := 1, i2cdata := 1,
    effects := m.effects ++
      [Effect.start .spd_ops 0x54 (if inbuf &&& 1 ≠ 0 then I2C_READ else I2C_WRITE)],
    serdes := { m.serdes with
      active_slave := some .spd_i2c, address := 0x54, inbuf := inbuf, bitcount := 8,
      state := if inbuf &&& 1 ≠ 0 then I2C_STATE_ACK_READ_ADDR else I2C_STATE_ACK_WRITE,
      oldpinstate := (1 <<< 1) ||| x } }

/-- The state after an address byte with last bit `x` that selects no
responder: the state machine is reset. -/
def unaddressed (x : Nat) (m : Machine) : Machine :=
  { m with
    i2cclock := 1, i2cdata := 1,
    serdes := { active_slave := none, slave_was_accessed := 0, address := 0, inbuf := 0,
                outbuf := 0, bitcount := 0, state := I2C_STATE_IDLE,
                oldpinstate := (1 <<< 1) ||| x } }

/-- The states in which the code uses the active responder: AckReadAddr,
AckRead, AckWrite, NackWrite, Reading and Writing. -/
def needs_responder (state : Nat) : Prop :=
  state = I2C_STATE_ACK_READ_ADDR ∨ state = I2C_STATE_ACK_READ ∨
  state = I2C_STATE_ACK_WRITE ∨ state = I2C_STATE_NACK_WRITE ∨
  state = I2C_STATE_READ ∨ state = I2C_STATE_WRITE

/-- The invariant of the bus after `reseti2c`: the registry is installed, and
an active responder is recorded in every state that uses one. -/
def BusInv (m : Machine) : Prop :=
  Registered m ∧ (needs_responder m.serdes.state → m.serdes.active_slave ≠ none)

/-- A state waiting for the next Start or Stop condition after the controller
refused a byte read from the RTC: the state machine in `I2C_STATE_WAIT`, the
pins last sampled high. -/
def sample_waiting : Machine :=
  let m := reseti2c 3 sample_idle
  { m with
    pcf := { reg_address := 0x21, state := PCF_STATE_ADDR },
    serdes := { active_slave := some .pcf8583, slave_was_accessed := 1, address := 0x50,
                inbuf := 0xa1, outbuf := 0x8c, bitcount := 0, state := I2C_STATE_WAIT,
                oldpinstate := 3 } }

/-- A host time in British Summer Time: Wednesday 15 July 2026, 09:30:00. -/
def sample_summer : Tm where
  tm_sec := 0
  tm_min := 30
  tm_hour := 9
  tm_mday := 15
  tm_mon := 6
  tm_year := 126
  tm_wday := 3
  tm_isdst := 1

/-- A property of the device state: it depends only on the SPD and RTC
records, the descriptor table, the store and the file, not on the bus state
machine, the pins, the registry or the record of effects. -/
def DevFrame (P : Machine → Prop) : Prop :=
  ∀ m m' : Machine, m'.spd = m.spd → m'.spd_data = m.spd_data → m'.pcf = m.pcf →
    m'.cmosram = m.cmosram → m'.cmos_file = m.cmos_file → P m → P m'

/-- A property that every operation of every responder keeps. -/
def OpsKeep (P : Machine → Prop) : Prop :=
  (∀ (ops : I2C_SlaveOps) (m : Machine) (a o : Nat), P m → P (ops.start m a o).2) ∧
  (∀ (ops : I2C_SlaveOps) (m : Machine), P m → P (ops.stop m)) ∧
  (∀ (ops : I2C_SlaveOps) (m : Machine) (d : Nat), P m → P (ops.write m d).2) ∧
  (∀ (ops : I2C_SlaveOps) (t : Tm) (m : Machine), P m → P (ops.read t m).2.2)

/-- A state waiting for the controller's acknowledge of a byte read from the
RTC: the state machine in `I2C_STATE_ACK_READ`, the clock last sampled low and
the data pin low. -/
def sample_ack_read : Machine :=
  { sample_waiting with
    serdes := { sample_waiting.serdes with state := I2C_STATE_ACK_READ, oldpinstate := 0 } }

/-- The state after the active responder `sl` has received a byte from state
`m`: `inbuf` is the byte, `x` its last bit, and the write acknowledged. -/
def written (sl : SlaveRef) (inbuf x : Nat) (m : Machine) : Machine :=
  { (sl.ops.write m inbuf).2 with
    i2cclock := 1, i2cdata := 1,
    serdes := { m.serdes with
      slave_was_accessed := 1, inbuf := inbuf, bitcount := 8,
      state := I2C_STATE_ACK_WRITE, oldpinstate := (1 <<< 1) ||| x } }

/-- A state about to receive a byte for the SPD: after `reseti2c` with both
devices on the bus, the SPD addressed for writing and the address byte
acknowledged; the clock was last sampled high. -/
def sample_writing : Machine :=
  let m := reseti2c 3 sample_idle
  { m with
    i2cclock := 1, i2cdata := 0,
    spd := { reg_address := 5 },
    serdes := { active_slave := some .spd_i2c, slave_was_accessed := 0, address := 0x54,
                inbuf := 0, outbuf := 0, bitcount := 0, state := I2C_STATE_WRITE,
                oldpinstate := 2 } }

/-- The bound on the SPD register address: below 128, the number of entries of
`spd_data`; `table` is the descriptor table, which no code writes. -/
def SpdInBounds (table : List Nat) (m : Machine) : Prop :=
  m.spd.reg_address < 128 ∧ m.spd_data = table

/-- The entries of the record of effects that the bus invariant watches: the
"Unknown I2C-Result" and "no matching handler" diagnostics always, and the
other two diagnostics ("Emulator Bug", "bitcount<=0") when `strict` is set,
that is when the pins are driven with the values 0 and 1 only. -/
def watched (strict : Bool) : Effect → Bool
  | .bug (.unknown_result _) => true
  | .bug (.no_handler _) => true
  | .bug _ => strict
  | _ => false

/-- What holds of the state machine record in each state.  The two facts about
the previously sampled clock are guarded by `strict`. -/
def state_ok (strict : Bool) (m : Machine) : Prop :=
  (m.serdes.state = I2C_STATE_IDLE ∧ m.i2cdata = 1 ∧ m.serdes.active_slave = none ∧
    m.serdes.bitcount = 0) ∨
  (m.serdes.state = I2C_STATE_ADDR ∧ m.serdes.bitcount ≤ 7) ∨
  (m.serdes.state = I2C_STATE_ACK_READ ∧ m.serdes.active_slave ≠ none ∧
    m.serdes.bitcount = 0 ∧
    (strict = true → m.serdes.oldpinstate &&& I2C_SCL = 0 → m.i2cdata = 1)) ∨
  (m.serdes.state = I2C_STATE_ACK_READ_ADDR ∧ m.serdes.active_slave ≠ none ∧
    m.serdes.bitcount = 8) ∨
  (m.serdes.state = I2C_STATE_ACK_WRITE ∧ m.serdes.active_slave ≠ none ∧
    m.serdes.bitcount = 8) ∨
  (m.serdes.state = I2C_STATE_READ ∧ m.serdes.active_slave ≠ none ∧
    m.serdes.bitcount ≤ 8 ∧
    (strict = true → m.serdes.oldpinstate &&& I2C_SCL ≠ 0 → 1 ≤ m.serdes.bitcount)) ∨
  (m.serdes.state = I2C_STATE_WRITE ∧ m.serdes.active_slave ≠ none ∧
    m.serdes.bitcount ≤ 7) ∨
  (m.serdes.state = I2C_STATE_WAIT ∧ m.serdes.bitcount ≤ 8)

/-- The invariant of the bus after `reseti2c`; `E0` is the record of effects
at the time of the reset.  The registry is installed, the clock line is
released, no watched diagnostic has been added, and the state machine record
is as `state_ok` says. -/
def BusWF (strict : Bool) (E0 : List Effect) (m : Machine) : Prop :=
  Registered m ∧ m.i2cclock = 1 ∧
  m.effects.filter (watched strict) = E0.filter (watched strict) ∧
  state_ok strict m

/-- The pin values of a sequence of calls are all 0 or 1. -/
def boolean_pins (evs : List (Nat × Nat)) : Prop :=
  ∀ e ∈ evs, e.1 ≤ 1 ∧ e.2 ≤ 1

/-- The outcome of one call from a state `m` that satisfies the invariant: the
switch returns a state `m'`, the invariant holds again once the pins are
stored, and Waiting is entered only from AckRead with the data pin high. -/
def StepWF (strict : Bool) (E0 : List Effect) (scl sda : Nat) (m : Machine)
    (r : Except Fault Machine) : Prop :=
  ∃ m', r = .ok m' ∧ BusWF strict E0 (store_pins scl sda m') ∧
    (m'.serdes.state = I2C_STATE_WAIT →
      m.serdes.state = I2C_STATE_WAIT ∨ (m.serdes.state = I2C_STATE_ACK_READ ∧ sda ≠ 0))

instance (evs : List (Nat × Nat)) : Decidable (boolean_pins evs) := by
  unfold boolean_pins; infer_instance

/-- A complete read of one byte from the RTC as the controller drives it: Start,
the address byte 0xA1, the acknowledge clock, eight read clocks, the
controller's refusal (data pin high) and a Stop condition. -/
def sample_read_transaction : List (Nat × Nat) :=
  (1, 0) :: (send_byte 0xA1 ++ (clock_pulse 1 ++ (send_bits 0xFF 8 ++
    (clock_pulse 1 ++ [(0, 0), (1, 0), (1, 1)]))))

/-- A host time in the calendar year 25600 (`tm_year = 23700`). -/
def sample_year_25600 : Tm := { epoch with tm_year := 23700 }

/-- A host time in the calendar year -1 (`tm_year = -1901`). -/
def sample_year_minus_1 : Tm := { epoch with tm_year := -1901 }

/-- A host time whose `tm_year` is within 1900 of the largest `int`
(`tm_year = 2147481748`, calendar year 2147483648). -/
def sample_year_wrapped : Tm := { epoch with tm_year := 2147481748 }

/-! ## Lemmas -/

set_option maxRecDepth 100000 in
theorem persistent_addresses_eq :
    persistent_addresses = List.range' 0x10 47 ++ List.range' 0x40 192 := by
  decide

set_option maxRecDepth 100000 in
theorem checksum_offsets_eq :
    (List.range' 0 239).map checksum_offset = List.range' 0x40 192 ++ List.range' 0x10 47 := by
  decide

theorem checksum_loop_mod (ram : Nat → Nat) (fuel : Nat) :
    ∀ i c, i + fuel ≤ 239 →
      checksum_loop ram fuel i c % 256
        = (c + (((List.range' i fuel).map checksum_offset).map ram).sum) % 256 := by
  induction fuel with
  | zero => intro i c _; simp [checksum_loop]
  | succ n ih =>
    intro i c h
    have hi : i < 239 := by omega
    rw [checksum_loop, if_pos hi, ih (i + 1) _ (by omega)]
    simp only [List.range'_succ, List.map_cons, List.sum_cons]
    omega

theorem checksum_loop_sum (ram : Nat → Nat) :
    checksum_loop ram 239 0 0 % 256 = (persistent_addresses.map ram).sum % 256 := by
  rw [checksum_loop_mod ram 239 0 0 (by omega), checksum_offsets_eq, persistent_addresses_eq]
  simp only [List.map_append, List.sum_append, Nat.zero_add]
  rw [Nat.add_comm]

theorem and_ff (x : Nat) : x &&& 0xff = x % 256 := Nat.and_pow_two_sub_one_eq_mod x 8

theorem and_7f (x : Nat) : x &&& 0x7f = x % 128 := Nat.and_pow_two_sub_one_eq_mod x 7

theorem pin_low (x : Nat) (hx : x ≤ 1) :
    ((0 <<< 1) ||| x) = x ∧ x &&& I2C_SCL = 0 ∧ x &&& I2C_SDA = x := by
  interval_cases x <;> decide

theorem pin_high (x : Nat) (hx : x ≤ 1) :
    ((1 <<< 1) ||| x) &&& I2C_SCL = 2 ∧ ((1 <<< 1) ||| x) &&& I2C_SDA = x := by
  interval_cases x <;> decide

theorem bit_of_le (b i : Nat) : bit_of b i ≤ 1 := by
  unfold bit_of
  rw [Nat.and_one_is_mod]
  omega

theorem bit_of_shiftRight (b i : Nat) : bit_of (b >>> 1) i = bit_of b (i + 1) := by
  unfold bit_of
  rw [← Nat.shiftRight_add, Nat.add_comm]

theorem send_bits_succ (b n : Nat) :
    send_bits b (n + 1) = send_bits (b >>> 1) n ++ clock_pulse (bit_of b 0) := by
  induction n with
  | zero => simp [send_bits]
  | succ k ih =>
    rw [send_bits, ih, send_bits, bit_of_shiftRight, List.append_assoc]

theorem run_cons (hd : Headers) (clk : Nat → Tm) (scl sda : Nat) (evs : List (Nat × Nat))
    (m m1 : Machine) (h : cmosi2cchange hd (clk 0) scl sda m = .ok m1) :
    run hd clk ((scl, sda) :: evs) m = run hd (fun i => clk (i + 1)) evs m1 := by
  rw [run, h]

theorem run_append (hd : Headers) (l1 l2 : List (Nat × Nat)) :
    ∀ (clk : Nat → Tm) (m m1 : Machine), run hd clk l1 m = .ok m1 →
      run hd clk (l1 ++ l2) m = run hd (fun i => clk (i + l1.length)) l2 m1 := by
  induction l1 with
  | nil =>
    intro clk m m1 h
    rw [run] at h
    cases h
    rfl
  | cons e l ih =>
    intro clk m m1 h
    obtain ⟨scl, sda⟩ := e
    rw [run] at h
    rw [List.cons_append, run]
    cases hc : cmosi2cchange hd (clk 0) scl sda m with
    | error e => rw [hc] at h; cases h
    | ok m2 =>
      rw [hc] at h
      exact ih _ m2 m1 h

/-- The machine after two calls that both return. -/
theorem run_pulse (hd : Headers) (clk : Nat → Tm) (x : Nat) (rest : List (Nat × Nat))
    (m m1 m2 : Machine)
    (h1 : cmosi2cchange hd (clk 0) 0 x m = .ok m1)
    (h2 : cmosi2cchange hd (clk 1) 1 x m1 = .ok m2) :
    run hd clk (clock_pulse x ++ rest) m = run hd (fun i => clk (i + 2)) rest m2 := by
  show run hd clk ((0, x) :: (1, x) :: rest) m = _
  rw [run, h1]
  show run hd (fun i => clk (i + 1)) ((1, x) :: rest) m1 = _
  rw [run]
  show (match cmosi2cchange hd (clk 1) 1 x m1 with
        | Except.error e => Except.error e
        | Except.ok m => run hd (fun i => clk (i + 2)) rest m)
      = run hd (fun i => clk (i + 2)) rest m2
  rw [h2]

theorem fall_shift (hd : Headers) (t : Tm) (m : Machine) (x : Nat)
    (hst : m.serdes.state = I2C_STATE_ADDR ∨ m.serdes.state = I2C_STATE_WRITE)
    (hclk : m.serdes.oldpinstate &&& I2C_SCL ≠ 0) :
    cmosi2cchange hd t 0 x m = .ok (store_pins 0 x (release_lines m)) := by
  unfold cmosi2cchange
  rcases hst with hst | hst <;>
    simp [dispatch, hst, case_ADDR, case_WRITE, hclk]

theorem rise_shift (hd : Headers) (t : Tm) (m : Machine) (x : Nat) (hx : x ≤ 1)
    (hst : m.serdes.state = I2C_STATE_ADDR ∨ m.serdes.state = I2C_STATE_WRITE)
    (hcount : m.serdes.bitcount + 1 ≠ 8)
    (hpins : m.serdes.oldpinstate = x) :
    cmosi2cchange hd t 1 x m = .ok (store_pins 1 x (shift_in x m)) := by
  obtain ⟨_, h2, h1⟩ := pin_low x hx
  have hb : (shift_in x m).serdes.bitcount ≠ 8 := by simp [shift_in, hcount]
  unfold cmosi2cchange
  rw [hpins, h1, h2]
  have hno1 : ¬ ((1 : Nat) ≠ 0 ∧ x ≠ 0 ∧ x = 0) := by tauto
  have hno2 : ¬ ((1 : Nat) ≠ 0 ∧ x = 0 ∧ x ≠ 0) := by tauto
  simp only [if_neg hno1, if_neg hno2]
  rcases hst with hst | hst <;>
    simp [dispatch, hst, case_ADDR, case_WRITE, hb]

theorem run_shift_pulse (hd : Headers) (clk : Nat → Tm) (x : Nat) (rest : List (Nat × Nat))
    (m : Machine) (hx : x ≤ 1)
    (hst : m.serdes.state = I2C_STATE_ADDR ∨ m.serdes.state = I2C_STATE_WRITE)
    (hcount : m.serdes.bitcount + 1 ≠ 8)
    (hclk : m.serdes.oldpinstate &&& I2C_SCL ≠ 0) :
    run hd clk (clock_pulse x ++ rest) m
      = run hd (fun i => clk (i + 2)) rest (shift_pulse x m) := by
  apply run_pulse hd clk x rest m _ _ (fall_shift hd _ m x hst hclk)
  exact rise_shift hd _ _ x hx (by simpa [store_pins, release_lines] using hst)
    (by simpa [store_pins, release_lines] using hcount)
    (by simp [store_pins, (pin_low x hx).1])

theorem shift_pulse_serdes (x : Nat) (m : Machine) :
    (shift_pulse x m).serdes.state = m.serdes.state ∧
    (shift_pulse x m).serdes.bitcount = m.serdes.bitcount + 1 ∧
    (shift_pulse x m).serdes.oldpinstate = (1 <<< 1) ||| x ∧
    (shift_pulse x m).serdes.inbuf = shl1 m.serdes.inbuf x := by
  simp [shift_pulse, store_pins, shift_in, release_lines, shl1]

theorem run_send_bits (hd : Headers) (b : Nat) (rest : List (Nat × Nat)) (n : Nat) :
    ∀ (clk : Nat → Tm) (m : Machine),
      (m.serdes.state = I2C_STATE_ADDR ∨ m.serdes.state = I2C_STATE_WRITE) →
      m.serdes.bitcount + n < 8 →
      m.serdes.oldpinstate &&& I2C_SCL ≠ 0 →
      run hd clk (send_bits b n ++ rest) m
        = run hd (fun i => clk (i + 2 * n)) rest (shift_bits b n m) := by
  induction n with
  | zero => intro clk m _ _ _; simp [send_bits, shift_bits]
  | succ k ih =>
    intro clk m hst hcount hclk
    obtain ⟨s1, s2, s3, _⟩ := shift_pulse_serdes (bit_of b k) m
    rw [send_bits, List.append_assoc,
      run_shift_pulse hd clk _ _ m (bit_of_le b k) hst (by omega) hclk,
      ih _ (shift_pulse (bit_of b k) m) (by rw [s1]; exact hst) (by rw [s2]; omega)
        (by rw [s3, (pin_high _ (bit_of_le b k)).1]; decide)]
    rfl

theorem shift_bits_succ_eq (b : Nat) (n : Nat) :
    ∀ m : Machine, shift_bits b (n + 1) m =
      { m with
        i2cclock := 1, i2cdata := 1,
        serdes := { m.serdes with
          bitcount := m.serdes.bitcount + (n + 1),
          inbuf := shl_bits b (n + 1) m.serdes.inbuf,
          oldpinstate := (1 <<< 1) ||| bit_of b 0 } } := by
  induction n with
  | zero =>
    intro m
    simp [shift_bits, shift_pulse, store_pins, shift_in, release_lines, shl_bits, shl1]
  | succ k ih =>
    intro m
    rw [shift_bits, ih]
    simp [shift_pulse, store_pins, shift_in, release_lines, shl_bits, shl1, Nat.add_assoc,
      Nat.add_comm 1]

set_option maxRecDepth 100000 in
theorem byte_shifted_in : ∀ b < 256, shl1 (shl_bits (b >>> 1) 7 0) (bit_of b 0) = b := by
  decide

theorem rise_addr_rtc (hd : Headers) (t : Tm) (m : Machine) (x : Nat) (hx : x ≤ 1)
    (hreg : Registered m)
    (hst : m.serdes.state = I2C_STATE_ADDR) (hcount : m.serdes.bitcount = 7)
    (hpins : m.serdes.oldpinstate = x)
    (haddr : shl1 m.serdes.inbuf x >>> 1 = 0x50)
    (hen : m.i2c_devices &&& hd.I2C_PCF8583 ≠ 0) :
    cmosi2cchange hd t 1 x m = .ok (addressed_rtc (shl1 m.serdes.inbuf x) x m) := by
  obtain ⟨_, h2, h1⟩ := pin_low x hx
  obtain ⟨r1, r2⟩ := hreg
  have hno1 : ¬ ((1 : Nat) ≠ 0 ∧ x ≠ 0 ∧ x = 0) := by tauto
  have hno2 : ¬ ((1 : Nat) ≠ 0 ∧ x = 0 ∧ x ≠ 0) := by tauto
  have hb : (shift_in x m).serdes.bitcount = 8 := by simp [shift_in, hcount]
  have hi : (shift_in x m).serdes.inbuf = shl1 m.serdes.inbuf x := by
    simp only [shift_in, shl1]
  unfold cmosi2cchange
  rw [hpins, h1, h2]
  simp only [if_neg hno1, if_neg hno2]
  simp only [dispatch, hst, case_ADDR]
  simp only [hb, hi, haddr]
  have hen' := hen
  simp only [ne_eq] at hen'
  by_cases hdir : shl1 m.serdes.inbuf x % 2 = 1
  · simp [hdir, shift_in, r1, r2, hen', Machine.devops, Machine.slave, I2C_SlaveOps.start,
      pcf8583_start, release_lines, store_pins, addressed_rtc, hi]
  · simp [hdir, shift_in, r1, r2, hen', Machine.devops, Machine.slave, I2C_SlaveOps.start,
      pcf8583_start, release_lines, store_pins, addressed_rtc, hi]

theorem rise_write_rtc (hd : Headers) (t : Tm) (m : Machine) (x : Nat) (hx : x ≤ 1)
    (hreg : Registered m)
    (hst : m.serdes.state = I2C_STATE_WRITE) (hcount : m.serdes.bitcount = 7)
    (hpins : m.serdes.oldpinstate = x) (hdata : m.i2cdata = 1)
    (hact : m.serdes.active_slave = some .pcf8583) :
    cmosi2cchange hd t 1 x m = .ok (written_rtc (shl1 m.serdes.inbuf x) x m) := by
  obtain ⟨_, h2, h1⟩ := pin_low x hx
  obtain ⟨r1, r2⟩ := hreg
  have hno1 : ¬ ((1 : Nat) ≠ 0 ∧ x ≠ 0 ∧ x = 0) := by tauto
  have hno2 : ¬ ((1 : Nat) ≠ 0 ∧ x = 0 ∧ x ≠ 0) := by tauto
  have hb : (shift_in x m).serdes.bitcount = 8 := by simp [shift_in, hcount]
  have hi : (shift_in x m).serdes.inbuf = shl1 m.serdes.inbuf x := by
    simp only [shift_in, shl1]
  have ha : (shift_in x m).serdes.active_slave = some .pcf8583 := by simp [shift_in, hact]
  unfold cmosi2cchange
  rw [hpins, h1, h2]
  simp only [if_neg hno1, if_neg hno2]
  simp only [dispatch, hst, case_WRITE]
  simp only [hb, hi, ha]
  by_cases hs0 : m.pcf.state = PCF_STATE_ADDR
  · simp [hs0, shift_in, r1, Machine.devops, Machine.slave, I2C_SlaveOps.write,
      pcf8583_write, case_WRITE_result, store_pins, written_rtc, shl1, hcount, hdata]
  · by_cases hs2 : m.pcf.state = PCF_STATE_DATA
    · by_cases hr : m.pcf.reg_address = 0x3f <;>
        simp [hs0, hs2, hr, shift_in, r1, Machine.devops, Machine.slave, I2C_SlaveOps.write,
          pcf8583_write, case_WRITE_result, savecmos, store_pins, written_rtc, shl1, hcount,
          hdata]
    · simp [hs0, hs2, shift_in, r1, Machine.devops, Machine.slave, I2C_SlaveOps.write,
        pcf8583_write, case_WRITE_result, store_pins, written_rtc, shl1, hcount, hdata]

/-- `pcf8583_write` neither reads nor writes the state machine record and the
output pins. -/
theorem pcf8583_write_bus (m : Machine) (data : Nat) (s : I2C_SerDes) (c d : Nat) :
    (pcf8583_write { m with serdes := s, i2cclock := c, i2cdata := d } data).2
      = { (pcf8583_write m data).2 with serdes := s, i2cclock := c, i2cdata := d } := by
  by_cases hs0 : m.pcf.state = PCF_STATE_ADDR
  · simp [pcf8583_write, hs0]
  · by_cases hs2 : m.pcf.state = PCF_STATE_DATA
    · by_cases hr : m.pcf.reg_address = 0x3f <;>
        simp [pcf8583_write, hs0, hs2, hr, savecmos]
    · simp [pcf8583_write, hs0, hs2]

theorem run_address_byte_rtc (hd : Headers) (clk : Nat → Tm) (b : Nat) (rest : List (Nat × Nat))
    (m : Machine) (hb : b < 256) (hsel : b >>> 1 = 0x50)
    (hreg : Registered m) (hen : m.i2c_devices &&& hd.I2C_PCF8583 ≠ 0)
    (hst : m.serdes.state = I2C_STATE_ADDR) (hcount : m.serdes.bitcount = 0)
    (hin : m.serdes.inbuf = 0)
    (hclk : m.serdes.oldpinstate &&& I2C_SCL ≠ 0) :
    run hd clk (send_byte b ++ rest) m
      = run hd (fun i => clk (i + 2 + 2 * 7)) rest (addressed_rtc b (bit_of b 0) m) := by
  have hx := bit_of_le b 0
  have hm : shift_bits (b >>> 1) 7 m = _ := shift_bits_succ_eq (b >>> 1) 6 m
  rw [send_byte, send_bits_succ, List.append_assoc,
    run_send_bits hd (b >>> 1) _ 7 clk m (Or.inl hst) (by omega) hclk]
  have hfall := fall_shift hd (clk (0 + 2 * 7)) (shift_bits (b >>> 1) 7 m) (bit_of b 0)
    (by rw [hm]; exact Or.inl hst)
    (by rw [hm]; simp only; rw [(pin_high _ (bit_of_le _ 0)).1]; decide)
  have hrise := rise_addr_rtc hd (clk (1 + 2 * 7))
    (store_pins 0 (bit_of b 0) (release_lines (shift_bits (b >>> 1) 7 m))) (bit_of b 0) hx
    (by rw [hm]; exact hreg) (by rw [hm]; exact hst)
    (by rw [hm]; simp [store_pins, release_lines, hcount])
    (by simp [store_pins, (pin_low _ hx).1])
    (by rw [hm]; simp only [store_pins, release_lines, hin, byte_shifted_in b hb]; exact hsel)
    (by rw [hm]; exact hen)
  rw [run_pulse hd (fun i => clk (i + 2 * 7)) (bit_of b 0) rest _ _ _ hfall hrise]
  have hmeq : addressed_rtc
      (shl1 (store_pins 0 (bit_of b 0) (release_lines (shift_bits (b >>> 1) 7 m))).serdes.inbuf
        (bit_of b 0))
      (bit_of b 0) (store_pins 0 (bit_of b 0) (release_lines (shift_bits (b >>> 1) 7 m)))
      = addressed_rtc b (bit_of b 0) m := by
    rw [hm]
    simp only [store_pins, release_lines, hin, byte_shifted_in b hb, addressed_rtc]
  rw [hmeq]

theorem run_write_byte_rtc (hd : Headers) (clk : Nat → Tm) (b : Nat) (rest : List (Nat × Nat))
    (m : Machine) (hb : b < 256)
    (hreg : Registered m) (hact : m.serdes.active_slave = some .pcf8583)
    (hst : m.serdes.state = I2C_STATE_WRITE) (hcount : m.serdes.bitcount = 0)
    (hin : m.serdes.inbuf = 0)
    (hclk : m.serdes.oldpinstate &&& I2C_SCL ≠ 0) :
    run hd clk (send_byte b ++ rest) m
      = run hd (fun i => clk (i + 2 + 2 * 7)) rest (written_rtc b (bit_of b 0) m) := by
  have hx := bit_of_le b 0
  have hm : shift_bits (b >>> 1) 7 m = _ := shift_bits_succ_eq (b >>> 1) 6 m
  rw [send_byte, send_bits_succ, List.append_assoc,
    run_send_bits hd (b >>> 1) _ 7 clk m (Or.inr hst) (by omega) hclk]
  have hfall := fall_shift hd (clk (0 + 2 * 7)) (shift_bits (b >>> 1) 7 m) (bit_of b 0)
    (by rw [hm]; exact Or.inr hst)
    (by rw [hm]; simp only; rw [(pin_high _ (bit_of_le _ 0)).1]; decide)
  have hrise := rise_write_rtc hd (clk (1 + 2 * 7))
    (store_pins 0 (bit_of b 0) (release_lines (shift_bits (b >>> 1) 7 m))) (bit_of b 0) hx
    (by rw [hm]; exact hreg) (by rw [hm]; exact hst)
    (by rw [hm]; simp [store_pins, release_lines, hcount])
    (by simp [store_pins, (pin_low _ hx).1])
    (by simp [store_pins, release_lines])
    (by rw [hm]; exact hact)
  rw [run_pulse hd (fun i => clk (i + 2 * 7)) (bit_of b 0) rest _ _ _ hfall hrise]
  have hmeq : written_rtc
      (shl1 (store_pins 0 (bit_of b 0) (release_lines (shift_bits (b >>> 1) 7 m))).serdes.inbuf
        (bit_of b 0))
      (bit_of b 0) (store_pins 0 (bit_of b 0) (release_lines (shift_bits (b >>> 1) 7 m)))
      = written_rtc b (bit_of b 0) m := by
    rw [hm]
    simp only [store_pins, release_lines, hin, byte_shifted_in b hb, written_rtc,
      pcf8583_write_bus]
  rw [hmeq]

theorem run_start (hd : Headers) (clk : Nat → Tm) (rest : List (Nat × Nat)) (m : Machine)
    (h : m.serdes.oldpinstate &&& I2C_SDA ≠ 0) :
    run hd clk ((1, 0) :: rest) m = run hd (fun i => clk (i + 1)) rest (started m) := by
  apply run_cons
  unfold cmosi2cchange
  simp at h
  simp [h, store_pins, reset_serdes, started]

theorem fall_ack (hd : Headers) (t : Tm) (m : Machine) (x : Nat)
    (hst : m.serdes.state = I2C_STATE_ACK_WRITE ∨ m.serdes.state = I2C_STATE_ACK_READ_ADDR)
    (hclk : m.serdes.oldpinstate &&& I2C_SCL ≠ 0) :
    cmosi2cchange hd t 0 x m = .ok (ack_driven x m) := by
  unfold cmosi2cchange
  rcases hst with hst | hst <;>
    simp [dispatch, hst, case_ACK_WRITE, case_ACK_READ_ADDR, hclk, store_pins, ack_driven]

theorem rise_ack_write (hd : Headers) (t : Tm) (m : Machine) (x : Nat) (hx : x ≤ 1)
    (hst : m.serdes.state = I2C_STATE_ACK_WRITE) (hpins : m.serdes.oldpinstate = x) :
    cmosi2cchange hd t 1 x m
      = .ok (store_pins 1 x { m with serdes := { m.serdes with
              state := I2C_STATE_WRITE, bitcount := 0, inbuf := 0 } }) := by
  obtain ⟨_, h2, h1⟩ := pin_low x hx
  have hno1 : ¬ ((1 : Nat) ≠ 0 ∧ x ≠ 0 ∧ x = 0) := by tauto
  have hno2 : ¬ ((1 : Nat) ≠ 0 ∧ x = 0 ∧ x ≠ 0) := by tauto
  unfold cmosi2cchange
  rw [hpins, h1, h2]
  simp only [if_neg hno1, if_neg hno2]
  simp [dispatch, hst, case_ACK_WRITE]

theorem rise_ack_read_addr (hd : Headers) (t : Tm) (m : Machine) (x : Nat) (hx : x ≤ 1)
    (hst : m.serdes.state = I2C_STATE_ACK_READ_ADDR) (hpins : m.serdes.oldpinstate = x) :
    cmosi2cchange hd t 1 x m
      = .ok (store_pins 1 x { m with serdes := { m.serdes with
              state := I2C_STATE_READ, bitcount := 8, slave_was_accessed := 1 } }) := by
  obtain ⟨_, h2, h1⟩ := pin_low x hx
  have hno1 : ¬ ((1 : Nat) ≠ 0 ∧ x ≠ 0 ∧ x = 0) := by tauto
  have hno2 : ¬ ((1 : Nat) ≠ 0 ∧ x = 0 ∧ x ≠ 0) := by tauto
  unfold cmosi2cchange
  rw [hpins, h1, h2]
  simp only [if_neg hno1, if_neg hno2]
  simp [dispatch, hst, case_ACK_READ_ADDR]

theorem run_ack_write (hd : Headers) (clk : Nat → Tm) (x : Nat) (rest : List (Nat × Nat))
    (m : Machine) (hx : x ≤ 1)
    (hst : m.serdes.state = I2C_STATE_ACK_WRITE)
    (hclk : m.serdes.oldpinstate &&& I2C_SCL ≠ 0) :
    run hd clk (clock_pulse x ++ rest) m
      = run hd (fun i => clk (i + 2)) rest (acked_write x m) := by
  have hfall := fall_ack hd (clk 0) m x (Or.inl hst) hclk
  have hrise := rise_ack_write hd (clk 1) (ack_driven x m) x hx (by simpa [ack_driven] using hst)
    (by simp [ack_driven, (pin_low x hx).1])
  rw [run_pulse hd clk x rest _ _ _ hfall hrise]
  rfl

theorem run_ack_read_addr (hd : Headers) (clk : Nat → Tm) (x : Nat) (rest : List (Nat × Nat))
    (m : Machine) (hx : x ≤ 1)
    (hst : m.serdes.state = I2C_STATE_ACK_READ_ADDR)
    (hclk : m.serdes.oldpinstate &&& I2C_SCL ≠ 0) :
    run hd clk (clock_pulse x ++ rest) m
      = run hd (fun i => clk (i + 2)) rest (acked_read_addr x m) := by
  have hfall := fall_ack hd (clk 0) m x (Or.inr hst) hclk
  have hrise := rise_ack_read_addr hd (clk 1) (ack_driven x m) x hx
    (by simpa [ack_driven] using hst) (by simp [ack_driven, (pin_low x hx).1])
  rw [run_pulse hd clk x rest _ _ _ hfall hrise]
  rfl

theorem reseti2c_registered (mask : Nat) (m : Machine) :
    Registered (reseti2c mask m) ∧
    (reseti2c mask m).i2c_devices = mask % 4294967296 ∧
    (reseti2c mask m).serdes.oldpinstate = m.serdes.oldpinstate ∧
    (reseti2c mask m).pcf = m.pcf ∧ (reseti2c mask m).cmosram = m.cmosram ∧
    (reseti2c mask m).effects = m.effects := by
  simp [reseti2c, reset_serdes, Registered]

/-- The bus after a Start condition and an address byte `b` that selects the
RTC, from any state in which the registry is installed, the RTC is on the bus
and the data pin was last sampled high. -/
theorem run_select_rtc (hd : Headers) (clk : Nat → Tm) (b : Nat) (rest : List (Nat × Nat))
    (m : Machine) (hb : b < 256) (hsel : b >>> 1 = 0x50)
    (hreg : Registered m) (hen : m.i2c_devices &&& hd.I2C_PCF8583 ≠ 0)
    (hpins : m.serdes.oldpinstate &&& I2C_SDA ≠ 0) :
    ∃ c, run hd clk ((1, 0) :: (send_byte b ++ rest)) m
      = run hd c rest (addressed_rtc b (bit_of b 0) (started m)) := by
  apply Exists.intro
  rw [run_start hd clk _ m hpins,
    run_address_byte_rtc hd _ b rest (started m) hb hsel hreg hen rfl rfl rfl
      (by simp [started])]

theorem run_single (hd : Headers) (clk : Nat → Tm) (scl sda : Nat) (m m1 : Machine)
    (h : cmosi2cchange hd (clk 0) scl sda m = .ok m1) :
    run hd clk [(scl, sda)] m = .ok m1 := by
  rw [run, h]
  rfl

/-- The bus after a Start condition, an address byte selecting the RTC for
writing, an acknowledge clock and one further byte `a`. -/
theorem run_rtc_write_1 (hd : Headers) (clk : Nat → Tm) (a x1 : Nat)
    (rest : List (Nat × Nat)) (m : Machine) (ha : a < 256) (hx1 : x1 ≤ 1)
    (hreg : Registered m) (hen : m.i2c_devices &&& hd.I2C_PCF8583 ≠ 0)
    (hpins : m.serdes.oldpinstate &&& I2C_SDA ≠ 0) :
    ∃ c, run hd clk ((1, 0) :: (send_byte 0xA0 ++ (clock_pulse x1 ++ (send_byte a ++ rest)))) m
      = run hd c rest
          (written_rtc a (bit_of a 0) (acked_write x1 (addressed_rtc 0xA0 0 (started m)))) := by
  obtain ⟨c, hc⟩ := run_select_rtc hd clk 0xA0 (clock_pulse x1 ++ (send_byte a ++ rest)) m
    (by decide) (by decide) hreg hen hpins
  have hb0 : bit_of 0xA0 0 = 0 := by decide
  rw [hb0] at hc
  apply Exists.intro
  rw [hc, run_ack_write hd c x1 _ _ hx1 (by simp [addressed_rtc]) (by simp [addressed_rtc]),
    run_write_byte_rtc hd _ a rest _ ha (by simpa [acked_write, addressed_rtc, started] using hreg)
      rfl rfl rfl rfl
      (by simp only [acked_write]; rw [(pin_high x1 hx1).1]; decide)]

/-- The bus after one more acknowledge clock and one more byte `d`. -/
theorem run_rtc_write_2 (hd : Headers) (clk : Nat → Tm) (a d x1 x2 : Nat)
    (rest : List (Nat × Nat)) (m : Machine) (ha : a < 256) (hd256 : d < 256)
    (hx1 : x1 ≤ 1) (hx2 : x2 ≤ 1)
    (hreg : Registered m) (hen : m.i2c_devices &&& hd.I2C_PCF8583 ≠ 0)
    (hpins : m.serdes.oldpinstate &&& I2C_SDA ≠ 0) :
    ∃ c, run hd clk ((1, 0) :: (send_byte 0xA0 ++ (clock_pulse x1 ++ (send_byte a ++
            (clock_pulse x2 ++ (send_byte d ++ rest)))))) m
      = run hd c rest
          (written_rtc d (bit_of d 0) (acked_write x2
            (written_rtc a (bit_of a 0) (acked_write x1 (addressed_rtc 0xA0 0 (started m)))))) := by
  obtain ⟨c, hc⟩ := run_rtc_write_1 hd clk a x1 (clock_pulse x2 ++ (send_byte d ++ rest)) m
    ha hx1 hreg hen hpins
  have hreg2 : Registered
      (written_rtc a (bit_of a 0) (acked_write x1 (addressed_rtc 0xA0 0 (started m)))) := by
    simpa [written_rtc, acked_write, addressed_rtc, started, pcf8583_write, Registered]
      using hreg
  apply Exists.intro
  rw [hc, run_ack_write hd c x2 _ _ hx2 rfl
      (by simp only [written_rtc]; rw [(pin_high _ (bit_of_le a 0)).1]; decide),
    run_write_byte_rtc hd _ d rest _ hd256
      (by simpa [acked_write, Registered] using hreg2)
      rfl rfl rfl rfl
      (by simp only [acked_write]; rw [(pin_high x2 hx2).1]; decide)]

theorem pcf8583_write_addr (m : Machine) (data : Nat) (h : m.pcf.state = PCF_STATE_ADDR) :
    (pcf8583_write m data).1 = I2C_ACK ∧
    (pcf8583_write m data).2.pcf = { reg_address := data % 256, state := PCF_STATE_DATA } ∧
    (pcf8583_write m data).2.cmosram = m.cmosram := by
  simp [pcf8583_write, h]

theorem pcf8583_write_data (m : Machine) (data : Nat) (h : m.pcf.state = PCF_STATE_DATA) :
    (pcf8583_write m data).1 = I2C_ACK ∧
    (pcf8583_write m data).2.pcf.reg_address = (m.pcf.reg_address + 1) % 256 ∧
    (pcf8583_write m data).2.pcf.state = PCF_STATE_DATA ∧
    (pcf8583_write m data).2.cmosram = ram_set m.cmosram m.pcf.reg_address data := by
  unfold pcf8583_write
  have hne : ¬ (PCF_STATE_DATA = PCF_STATE_ADDR) := by decide
  have hset : ∀ a, ram_set m.cmosram a (data % 256) = ram_set m.cmosram a data := by
    intro a; funext x; simp [ram_set]
  by_cases hr : m.pcf.reg_address = 0x3f
  · simp only [h, hne, hr, if_true, if_false, savecmos, and_ff, hset, eq_self_iff_true,
      true_and]
  · simp only [h, hne, hr, if_true, if_false, and_ff, hset, eq_self_iff_true, true_and]
    exact ⟨by omega, trivial⟩

theorem acked_written_rtc (x b y : Nat) (m : Machine) :
    (acked_write x (written_rtc b y m)).cmosram = (pcf8583_write m b).2.cmosram ∧
    (acked_write x (written_rtc b y m)).pcf = (pcf8583_write m b).2.pcf :=
  ⟨rfl, rfl⟩

theorem pcf8583_read_bus (t : Tm) (m : Machine) :
    (pcf8583_read t m).2.2.serdes = m.serdes ∧
    (pcf8583_read t m).2.2.pcf8583 = m.pcf8583 ∧
    (pcf8583_read t m).2.2.spd_i2c = m.spd_i2c ∧
    (pcf8583_read t m).2.2.i2c_devices = m.i2c_devices := by
  unfold pcf8583_read
  by_cases h : m.pcf.reg_address < 0x10 <;> simp [h, cmosgettime]

theorem fall_read_first (hd : Headers) (t : Tm) (m : Machine) (x : Nat)
    (hreg : Registered m)
    (hst : m.serdes.state = I2C_STATE_READ) (hcount : m.serdes.bitcount = 8)
    (hact : m.serdes.active_slave = some .pcf8583)
    (hclk : m.serdes.oldpinstate &&& I2C_SCL ≠ 0) :
    cmosi2cchange hd t 0 x m = .ok (store_pins 0 x (fetched_rtc t m)) := by
  obtain ⟨r1, _⟩ := hreg
  obtain ⟨hs, _, _, _⟩ := pcf8583_read_bus t m
  unfold cmosi2cchange
  simp [dispatch, hst, case_READ, hclk, hcount, hact, Machine.devops, Machine.slave, r1,
    I2C_SlaveOps.read, store_pins, fetched_rtc, out_bit, hs]
  split_ifs <;> rfl

theorem fall_read_next (hd : Headers) (t : Tm) (m : Machine) (x k : Nat)
    (hst : m.serdes.state = I2C_STATE_READ) (hcount : m.serdes.bitcount = k + 1)
    (hk : k + 1 ≠ 8)
    (hclk : m.serdes.oldpinstate &&& I2C_SCL ≠ 0) :
    cmosi2cchange hd t 0 x m
      = .ok (store_pins 0 x { m with
              i2cclock := 1, i2cdata := out_bit m.serdes.outbuf k,
              serdes := { m.serdes with bitcount := k } }) := by
  unfold cmosi2cchange
  simp [dispatch, hst, case_READ, hclk, hcount, hk, store_pins, out_bit]
  split_ifs <;> rfl

theorem rise_read (hd : Headers) (t : Tm) (m : Machine) (x : Nat) (hx : x ≤ 1)
    (hst : m.serdes.state = I2C_STATE_READ) (hpins : m.serdes.oldpinstate = x) :
    cmosi2cchange hd t 1 x m
      = .ok (store_pins 1 x
          (if m.serdes.bitcount = 0 then
            { m with serdes := { m.serdes with state := I2C_STATE_ACK_READ } }
          else m)) := by
  obtain ⟨_, h2, h1⟩ := pin_low x hx
  have hno1 : ¬ ((1 : Nat) ≠ 0 ∧ x ≠ 0 ∧ x = 0) := by tauto
  have hno2 : ¬ ((1 : Nat) ≠ 0 ∧ x = 0 ∧ x ≠ 0) := by tauto
  unfold cmosi2cchange
  rw [hpins, h1, h2]
  simp only [if_neg hno1, if_neg hno2]
  by_cases h0 : m.serdes.bitcount = 0 <;>
    simp [dispatch, hst, case_READ, h0]

theorem read_bits_succ (hd : Headers) (clk : Nat → Tm) (n : Nat) (m m1 m2 m3 : Machine)
    (bits : List Nat)
    (h1 : cmosi2cchange hd (clk 0) 0 1 m = .ok m1)
    (h2 : cmosi2cchange hd (clk 1) 1 1 m1 = .ok m2)
    (h3 : read_bits hd (fun i => clk (i + 2)) n m2 = .ok (bits, m3)) :
    read_bits hd clk (n + 1) m = .ok (m1.i2cdata :: bits, m3) := by
  rw [read_bits, h1]
  simp only
  rw [h2]
  simp only
  rw [h3]

theorem read_bits_rest (hd : Headers) (k : Nat) :
    ∀ (clk : Nat → Tm) (m : Machine),
      m.serdes.state = I2C_STATE_READ → m.serdes.bitcount = k + 1 → k + 1 ≤ 7 →
      m.serdes.oldpinstate &&& I2C_SCL ≠ 0 →
      read_bits hd clk (k + 1) m = .ok (out_bits m.serdes.outbuf (k + 1), read_done m) := by
  induction k with
  | zero =>
    intro clk m hst hcount _ hclk
    have hfall := fall_read_next hd (clk 0) m 1 0 hst hcount (by decide) hclk
    have hrise := rise_read hd (clk 1) _ 1 (by decide)
      (show (store_pins 0 1 { m with
          i2cclock := 1, i2cdata := out_bit m.serdes.outbuf 0,
          serdes := { m.serdes with bitcount := 0 } }).serdes.state = I2C_STATE_READ from hst)
      rfl
    exact read_bits_succ hd clk 0 m _ _ _ [] hfall hrise rfl
  | succ j ih =>
    intro clk m hst hcount hle hclk
    have hfall := fall_read_next hd (clk 0) m 1 (j + 1) hst hcount (by omega) hclk
    have hrise := rise_read hd (clk 1) _ 1 (by decide)
      (show (store_pins 0 1 { m with
          i2cclock := 1, i2cdata := out_bit m.serdes.outbuf (j + 1),
          serdes := { m.serdes with bitcount := j + 1 } }).serdes.state = I2C_STATE_READ from hst)
      rfl
    have hne : ¬ (j + 1 = 0) := by omega
    simp only [store_pins, hne, if_false] at hrise
    have hrest := ih (fun i => clk (i + 2))
      { m with
        i2cclock := 1, i2cdata := out_bit m.serdes.outbuf (j + 1),
        serdes := { m.serdes with bitcount := j + 1, oldpinstate := (1 <<< 1) ||| 1 } }
      hst rfl (by omega) (show ((1 <<< 1) ||| 1) &&& I2C_SCL ≠ 0 by decide)
    exact read_bits_succ hd clk (j + 1) m _ _ _ _ hfall hrise hrest

set_option maxRecDepth 100000 in
theorem byte_of_out_bits : ∀ v < 256, byte_of_bits (out_bits v 8) = v := by
  decide

/-- Eight read clocks in the Reading state with a fresh byte due: the RTC is
asked for one byte, whose bits appear on the data line most significant
first. -/
theorem read_bits_byte_rtc (hd : Headers) (clk : Nat → Tm) (m : Machine)
    (hreg : Registered m)
    (hst : m.serdes.state = I2C_STATE_READ) (hcount : m.serdes.bitcount = 8)
    (hact : m.serdes.active_slave = some .pcf8583)
    (hclk : m.serdes.oldpinstate &&& I2C_SCL ≠ 0) :
    read_bits hd clk 8 m
      = .ok (out_bits ((pcf8583_read (clk 0) m).2.1 % 256) 8,
             read_done (fetched_rtc (clk 0) m)) := by
  have hfall := fall_read_first hd (clk 0) m 1 hreg hst hcount hact hclk
  have hrise := rise_read hd (clk 1) (store_pins 0 1 (fetched_rtc (clk 0) m)) 1 (by decide)
    (show (fetched_rtc (clk 0) m).serdes.state = I2C_STATE_READ from hst) rfl
  have hne : ¬ ((store_pins 0 1 (fetched_rtc (clk 0) m)).serdes.bitcount = 0) := by
    show ¬ ((7 : Nat) = 0)
    decide
  rw [if_neg hne] at hrise
  have hrest := read_bits_rest hd 6 (fun i => clk (i + 2))
    (store_pins 1 1 (store_pins 0 1 (fetched_rtc (clk 0) m)))
    (show (fetched_rtc (clk 0) m).serdes.state = I2C_STATE_READ from hst) rfl (by decide)
    (show ((1 <<< 1) ||| 1) &&& I2C_SCL ≠ 0 by decide)
  exact read_bits_succ hd clk 7 m _ _ _ _ hfall hrise hrest

theorem spd_read_n_reg (k : Nat) : ∀ m : Machine, m.spd.reg_address < 128 →
    (spd_read_n k m).spd.reg_address = (m.spd.reg_address + k) % 128 ∧
    (spd_read_n k m).spd_data = m.spd_data := by
  induction k with
  | zero => intro m h; simp [spd_read_n, Nat.mod_eq_of_lt h]
  | succ n ih =>
    intro m h
    have h1 : (spd_read m).2.2.spd.reg_address = (m.spd.reg_address + 1) % 128 := by
      simp only [spd_read, and_7f]; omega
    have h2 : (spd_read m).2.2.spd_data = m.spd_data := rfl
    obtain ⟨ih1, ih2⟩ := ih (spd_read m).2.2 (by rw [h1]; omega)
    rw [spd_read_n, ih1, ih2, h1, h2]
    constructor
    · omega
    · rfl


theorem pcf8583_read_reg (t : Tm) (m : Machine) :
    (pcf8583_read t m).2.2.pcf.reg_address = (m.pcf.reg_address + 1) % 256 := by
  unfold pcf8583_read
  by_cases h : m.pcf.reg_address < 0x10
  · simp only [h, if_true, cmosgettime, and_ff]; omega
  · simp only [h, if_false, and_ff]; omega


theorem pcf8583_write_seq_spec (ds : List Nat) :
    ∀ (m : Machine), m.pcf.state = PCF_STATE_DATA → m.pcf.reg_address < 256 →
      ds.length ≤ 256 → (∀ d ∈ ds, d < 256) →
      (∀ i (h : i < ds.length),
        (pcf8583_write_seq ds m).2.cmosram ((m.pcf.reg_address + i) % 256) = ds[i]) ∧
      (∀ x, (∀ i, i < ds.length → x ≠ (m.pcf.reg_address + i) % 256) →
        (pcf8583_write_seq ds m).2.cmosram x = m.cmosram x) ∧
      (pcf8583_write_seq ds m).2.pcf.reg_address = (m.pcf.reg_address + ds.length) % 256 ∧
      (pcf8583_write_seq ds m).2.pcf.state = PCF_STATE_DATA ∧
      (pcf8583_write_seq ds m).1 = List.replicate ds.length I2C_ACK := by
  induction ds with
  | nil =>
    intro m hs hr _ _
    simp [pcf8583_write_seq, Nat.mod_eq_of_lt hr, hs]
  | cons d ds ih =>
    intro m hs hr hlen hbytes
    obtain ⟨w1, w2, w3, w4⟩ := pcf8583_write_data m d hs
    have hd : d < 256 := hbytes d (by simp)
    simp only [List.length_cons] at hlen
    obtain ⟨i1, i2, i3, i4, i5⟩ := ih (pcf8583_write m d).2 w3 (by rw [w2]; omega)
      (by omega) (fun x hx => hbytes x (by simp [hx]))
    rw [w2] at i1 i2 i3
    simp only [pcf8583_write_seq, List.length_cons]
    refine ⟨?_, ?_, ?_, i4, ?_⟩
    · intro i hi
      cases i with
      | zero =>
        simp only [Nat.add_zero, List.getElem_cons_zero]
        rw [Nat.mod_eq_of_lt hr, i2 _ (fun j hj => by omega), w4]
        simp [ram_set, Nat.mod_eq_of_lt hd]
      | succ j =>
        simp only [List.getElem_cons_succ]
        have hj : j < ds.length := by omega
        rw [← i1 j hj]
        congr 1
        omega
    · intro x hx
      rw [i2 x (fun j hj => by
        have := hx (j + 1) (by omega)
        omega), w4]
      have h0 := hx 0 (by omega)
      simp only [Nat.add_zero, Nat.mod_eq_of_lt hr] at h0
      simp [ram_set, h0]
    · rw [i3]; omega
    · rw [i5, w1]; rfl


theorem pcf8583_read_reg0 (t : Tm) (m : Machine) (h : m.pcf.reg_address = 0) :
    (pcf8583_read t m).2.1 = m.cmosram 0 ∧ (pcf8583_read t m).2.2.cmosram 0 = m.cmosram 0 := by
  simp [pcf8583_read, h, cmosgettime, ram_set]


theorem checksum_stored (m : Machine) :
    (cmos_update_checksum m).cmosram 0x3f
      = ((persistent_addresses.map m.cmosram).sum + 1) % 256 := by
  have h := checksum_loop_sum m.cmosram
  simp only [cmos_update_checksum, ram_set, if_true, and_ff]
  omega

theorem cmos_update_checksum_other (m : Machine) (a : Nat) (h : a ≠ 0x3f) :
    (cmos_update_checksum m).cmosram a = m.cmosram a := by
  simp [cmos_update_checksum, ram_set, h]

set_option maxRecDepth 100000 in
theorem bcd_fits : ∀ v < 100, BIN2BCD v < 256 := by
  decide

set_option maxRecDepth 100000 in
theorem day_byte_fits : ∀ y < 4, ∀ d < 32, ((y <<< 6) ||| BIN2BCD d) < 256 := by
  decide

set_option maxRecDepth 100000 in
theorem month_byte_fits : ∀ w < 7, ∀ mo < 13, ((w <<< 5) ||| BIN2BCD mo) < 256 := by
  decide

theorem year_low_bits (y : Int) :
    Int.toNat (y % 4) < 4 ∧ ∀ n : Nat, y = n → Int.toNat (y % 4) = n &&& 3 := by
  refine ⟨by omega, ?_⟩
  intro n hn
  have h3 : n &&& 3 = n % 4 := Nat.and_pow_two_sub_one_eq_mod n 2
  rw [h3]
  omega

theorem slave_read_frame (sl : SlaveRef) (t : Tm) (m : Machine) :
    (sl.ops.read t m).2.2.serdes = m.serdes ∧
    (sl.ops.read t m).2.2.effects = m.effects ++ [Effect.read sl.ops] := by
  cases sl
  · unfold SlaveRef.ops I2C_SlaveOps.read pcf8583_read
    by_cases h : m.pcf.reg_address < 0x10 <;> simp [h, cmosgettime]
  · exact ⟨rfl, rfl⟩

theorem fall_read_fetch (hd : Headers) (t : Tm) (m : Machine) (x : Nat) (sl : SlaveRef)
    (hreg : Registered m)
    (hst : m.serdes.state = I2C_STATE_READ) (hcount : m.serdes.bitcount = 8)
    (hact : m.serdes.active_slave = some sl)
    (hclk : m.serdes.oldpinstate &&& I2C_SCL ≠ 0) :
    cmosi2cchange hd t 0 x m = .ok (store_pins 0 x (fetched sl t m)) := by
  obtain ⟨r1, r2⟩ := hreg
  obtain ⟨hs, _⟩ := slave_read_frame sl t m
  have hops : m.devops sl = .ok sl.ops := by
    cases sl <;> simp [Machine.devops, Machine.slave, r1, r2, SlaveRef.ops]
  unfold cmosi2cchange
  simp [dispatch, hst, case_READ, hclk, hcount, hact, hops, store_pins, fetched, out_bit, hs]
  split_ifs <;> rfl

theorem read_pulses_succ (hd : Headers) (clk : Nat → Tm) (x : Nat) (xs : List Nat)
    (m f r : Machine) (ps : List (Machine × Machine))
    (h1 : cmosi2cchange hd (clk 0) 0 x m = .ok f)
    (h2 : cmosi2cchange hd (clk 1) 1 x f = .ok r)
    (h3 : read_pulses hd (fun i => clk (i + 2)) xs r = .ok ps) :
    read_pulses hd clk (x :: xs) m = .ok ((f, r) :: ps) := by
  rw [read_pulses, h1]
  simp only
  rw [h2]
  simp only
  rw [h3]

theorem read_pulses_rest (hd : Headers) (k : Nat) :
    ∀ (clk : Nat → Tm) (m : Machine) (xs : List Nat),
      xs.length = k + 1 → (∀ x ∈ xs, x ≤ 1) →
      m.serdes.state = I2C_STATE_READ → m.serdes.bitcount = k + 1 → k + 1 ≤ 7 →
      m.serdes.oldpinstate &&& I2C_SCL ≠ 0 →
      ∃ ps, read_pulses hd clk xs m = .ok ps ∧
        ps.map (fun p => p.1.i2cdata) = out_bits m.serdes.outbuf (k + 1) ∧
        ps.map (fun p => p.2.serdes.state)
          = List.replicate k I2C_STATE_READ ++ [I2C_STATE_ACK_READ] ∧
        ∀ p ∈ ps, p.1.i2cclock = 1 ∧ p.2.i2cclock = 1 ∧ p.2.i2cdata = p.1.i2cdata ∧
          p.1.serdes.state = I2C_STATE_READ ∧
          p.1.effects = m.effects ∧ p.2.effects = m.effects := by
  induction k with
  | zero =>
    intro clk m xs hlen hxs hst hcount _ hclk
    match xs, hlen with
    | [x], _ =>
      have hx : x ≤ 1 := hxs x (by simp)
      have hfall := fall_read_next hd (clk 0) m x 0 hst hcount (by decide) hclk
      have hrise := rise_read hd (clk 1) _ x hx
        (show (store_pins 0 x { m with
            i2cclock := 1, i2cdata := out_bit m.serdes.outbuf 0,
            serdes := { m.serdes with bitcount := 0 } }).serdes.state = I2C_STATE_READ from hst)
        (by simp [store_pins, (pin_low x hx).1])
      refine ⟨_, read_pulses_succ hd clk x [] m _ _ [] hfall hrise rfl, ?_, ?_, ?_⟩
      · rfl
      · rfl
      · intro p hp
        simp only [List.mem_singleton] at hp
        subst hp
        exact ⟨rfl, rfl, rfl, hst, rfl, rfl⟩
  | succ j ih =>
    intro clk m xs hlen hxs hst hcount hle hclk
    match xs, hlen with
    | x :: xs', hlen' =>
      have hx : x ≤ 1 := hxs x (by simp)
      have hfall := fall_read_next hd (clk 0) m x (j + 1) hst hcount (by omega) hclk
      have hrise := rise_read hd (clk 1) _ x hx
        (show (store_pins 0 x { m with
            i2cclock := 1, i2cdata := out_bit m.serdes.outbuf (j + 1),
            serdes := { m.serdes with bitcount := j + 1 } }).serdes.state = I2C_STATE_READ
          from hst)
        (by simp [store_pins, (pin_low x hx).1])
      have hne : ¬ (j + 1 = 0) := by omega
      simp only [store_pins, hne, if_false] at hrise
      obtain ⟨ps, hps, hdata, hstates, hall⟩ := ih (fun i => clk (i + 2))
        { m with
          i2cclock := 1, i2cdata := out_bit m.serdes.outbuf (j + 1),
          serdes := { m.serdes with bitcount := j + 1, oldpinstate := (1 <<< 1) ||| x } }
        xs' (by simpa using hlen') (fun y hy => hxs y (by simp [hy]))
        hst rfl (by omega)
        (by simp only; rw [(pin_high x hx).1]; decide)
      refine ⟨_, read_pulses_succ hd clk x xs' m _ _ ps hfall hrise hps, ?_, ?_, ?_⟩
      · simp only [List.map_cons, hdata, store_pins]
        rfl
      · simp only [List.map_cons, hstates, List.replicate_succ, List.cons_append, hst]
      · intro p hp
        simp only [List.mem_cons] at hp
        rcases hp with hp | hp
        · subst hp
          exact ⟨rfl, rfl, rfl, hst, rfl, rfl⟩
        · exact hall p hp

set_option maxRecDepth 100000 in
theorem out_bits_eq_bits : ∀ v < 256,
    out_bits v 8 = [bit_of v 7, bit_of v 6, bit_of v 5, bit_of v 4,
                    bit_of v 3, bit_of v 2, bit_of v 1, bit_of v 0] := by
  decide

/-- Eight clock pulses in the Reading state with a fresh byte due, for either
responder. -/
theorem read_pulses_byte (hd : Headers) (clk : Nat → Tm) (m : Machine) (sl : SlaveRef)
    (x : Nat) (xs : List Nat)
    (hlen : xs.length = 7) (hx : x ≤ 1) (hxs : ∀ y ∈ xs, y ≤ 1)
    (hreg : Registered m)
    (hst : m.serdes.state = I2C_STATE_READ) (hcount : m.serdes.bitcount = 8)
    (hact : m.serdes.active_slave = some sl)
    (hclk : m.serdes.oldpinstate &&& I2C_SCL ≠ 0) :
    ∃ ps, read_pulses hd clk (x :: xs) m = .ok ps ∧
      ps.map (fun p => p.1.i2cdata) = out_bits ((sl.ops.read (clk 0) m).2.1 % 256) 8 ∧
      ps.map (fun p => p.2.serdes.state)
        = List.replicate 7 I2C_STATE_READ ++ [I2C_STATE_ACK_READ] ∧
      ∀ p ∈ ps, p.1.i2cclock = 1 ∧ p.2.i2cclock = 1 ∧ p.2.i2cdata = p.1.i2cdata ∧
        p.1.serdes.state = I2C_STATE_READ ∧
        p.1.effects = m.effects ++ [Effect.read sl.ops] ∧
        p.2.effects = m.effects ++ [Effect.read sl.ops] := by
  obtain ⟨_, heff⟩ := slave_read_frame sl (clk 0) m
  have hfall := fall_read_fetch hd (clk 0) m x sl hreg hst hcount hact hclk
  have hrise := rise_read hd (clk 1) (store_pins 0 x (fetched sl (clk 0) m)) x hx
    (show (fetched sl (clk 0) m).serdes.state = I2C_STATE_READ from hst)
    (by simp [store_pins, (pin_low x hx).1])
  have hne : ¬ ((store_pins 0 x (fetched sl (clk 0) m)).serdes.bitcount = 0) := by
    show ¬ ((7 : Nat) = 0)
    decide
  rw [if_neg hne] at hrise
  obtain ⟨ps, hps, hdata, hstates, hall⟩ := read_pulses_rest hd 6 (fun i => clk (i + 2))
    (store_pins 1 x (store_pins 0 x (fetched sl (clk 0) m))) xs hlen hxs
    (show (fetched sl (clk 0) m).serdes.state = I2C_STATE_READ from hst) rfl (by decide)
    (by simp only [store_pins]; rw [(pin_high x hx).1]; decide)
  have heff' : (store_pins 1 x (store_pins 0 x (fetched sl (clk 0) m))).effects
      = m.effects ++ [Effect.read sl.ops] := heff
  refine ⟨_, read_pulses_succ hd clk x xs m _ _ ps hfall hrise hps, ?_, ?_, ?_⟩
  · simp only [List.map_cons, hdata]
    rfl
  · have hst' : (store_pins 1 x (store_pins 0 x (fetched sl (clk 0) m))).serdes.state
        = I2C_STATE_READ := hst
    simp only [List.map_cons, hstates, hst']
    rfl
  · intro p hp
    simp only [List.mem_cons] at hp
    rcases hp with hp | hp
    · subst hp
      exact ⟨rfl, rfl, rfl, hst, heff, heff⟩
    · obtain ⟨a1, a2, a3, a4, a5, a6⟩ := hall p hp
      exact ⟨a1, a2, a3, a4, a5.trans heff', a6.trans heff'⟩
theorem out_bits_byte (d : Nat) :
    out_bits (d % 256) 8 = [bit_of d 7, bit_of d 6, bit_of d 5, bit_of d 4,
                            bit_of d 3, bit_of d 2, bit_of d 1, bit_of d 0] := by
  rw [out_bits_eq_bits (d % 256) (Nat.mod_lt _ (by decide))]
  simp only [bit_of, Nat.shiftRight_eq_div_pow, Nat.and_one_is_mod]
  have h7 : d % 256 / 2 ^ 7 % 2 = d / 2 ^ 7 % 2 := by omega
  have h6 : d % 256 / 2 ^ 6 % 2 = d / 2 ^ 6 % 2 := by omega
  have h5 : d % 256 / 2 ^ 5 % 2 = d / 2 ^ 5 % 2 := by omega
  have h4 : d % 256 / 2 ^ 4 % 2 = d / 2 ^ 4 % 2 := by omega
  have h3 : d % 256 / 2 ^ 3 % 2 = d / 2 ^ 3 % 2 := by omega
  have h2 : d % 256 / 2 ^ 2 % 2 = d / 2 ^ 2 % 2 := by omega
  have h1 : d % 256 / 2 ^ 1 % 2 = d / 2 ^ 1 % 2 := by omega
  have h0 : d % 256 / 2 ^ 0 % 2 = d / 2 ^ 0 % 2 := by omega
  rw [h7, h6, h5, h4, h3, h2, h1, h0]

theorem rise_addr_spd (hd : Headers) (t : Tm) (m : Machine) (x : Nat) (hx : x ≤ 1)
    (hreg : Registered m)
    (hst : m.serdes.state = I2C_STATE_ADDR) (hcount : m.serdes.bitcount = 7)
    (hpins : m.serdes.oldpinstate = x)
    (haddr : shl1 m.serdes.inbuf x >>> 1 = 0x54)
    (hen : m.i2c_devices &&& hd.I2C_SPD_DIMM0 ≠ 0) :
    cmosi2cchange hd t 1 x m = .ok (addressed_spd (shl1 m.serdes.inbuf x) x m) := by
  obtain ⟨_, h2, h1⟩ := pin_low x hx
  obtain ⟨r1, r2⟩ := hreg
  have hno1 : ¬ ((1 : Nat) ≠ 0 ∧ x ≠ 0 ∧ x = 0) := by tauto
  have hno2 : ¬ ((1 : Nat) ≠ 0 ∧ x = 0 ∧ x ≠ 0) := by tauto
  have hb : (shift_in x m).serdes.bitcount = 8 := by simp [shift_in, hcount]
  have hi : (shift_in x m).serdes.inbuf = shl1 m.serdes.inbuf x := by
    simp only [shift_in, shl1]
  unfold cmosi2cchange
  rw [hpins, h1, h2]
  simp only [if_neg hno1, if_neg hno2]
  simp only [dispatch, hst, case_ADDR]
  simp only [hb, hi, haddr]
  have hen' := hen
  simp only [ne_eq] at hen'
  by_cases hdir : shl1 m.serdes.inbuf x % 2 = 1
  · simp [hdir, shift_in, r1, r2, hen', Machine.devops, Machine.slave, I2C_SlaveOps.start,
      spd_start, release_lines, store_pins, addressed_spd, hi]
  · simp [hdir, shift_in, r1, r2, hen', Machine.devops, Machine.slave, I2C_SlaveOps.start,
      spd_start, release_lines, store_pins, addressed_spd, hi]

theorem rise_addr_none (hd : Headers) (t : Tm) (m : Machine) (x : Nat) (hx : x ≤ 1)
    (hreg : Registered m)
    (hst : m.serdes.state = I2C_STATE_ADDR) (hcount : m.serdes.bitcount = 7)
    (hpins : m.serdes.oldpinstate = x)
    (hrtc : ¬ (shl1 m.serdes.inbuf x >>> 1 = 0x50 ∧ m.i2c_devices &&& hd.I2C_PCF8583 ≠ 0))
    (hspd : ¬ (shl1 m.serdes.inbuf x >>> 1 = 0x54 ∧ m.i2c_devices &&& hd.I2C_SPD_DIMM0 ≠ 0)) :
    cmosi2cchange hd t 1 x m = .ok (unaddressed x m) := by
  obtain ⟨_, h2, h1⟩ := pin_low x hx
  obtain ⟨r1, r2⟩ := hreg
  have hno1 : ¬ ((1 : Nat) ≠ 0 ∧ x ≠ 0 ∧ x = 0) := by tauto
  have hno2 : ¬ ((1 : Nat) ≠ 0 ∧ x = 0 ∧ x ≠ 0) := by tauto
  have hb : (shift_in x m).serdes.bitcount = 8 := by simp [shift_in, hcount]
  have hi : (shift_in x m).serdes.inbuf = shl1 m.serdes.inbuf x := by
    simp only [shift_in, shl1]
  have ha1 : (shift_in x m).pcf8583.address = 0x50 := by simp [shift_in, r1]
  have ha2 : (shift_in x m).spd_i2c.address = 0x54 := by simp [shift_in, r2]
  have hd1 : (shift_in x m).i2c_devices = m.i2c_devices := by simp [shift_in]
  unfold cmosi2cchange
  rw [hpins, h1, h2]
  simp only [if_neg hno1, if_neg hno2]
  simp only [dispatch, hst, case_ADDR]
  simp only [hb, hi, ha1, ha2, hd1, if_neg hrtc, if_neg hspd]
  simp [store_pins, reset_serdes, shift_in, unaddressed]

theorem run_address_byte_spd (hd : Headers) (clk : Nat → Tm) (b : Nat) (rest : List (Nat × Nat))
    (m : Machine) (hb : b < 256) (hsel : b >>> 1 = 0x54)
    (hreg : Registered m) (hen : m.i2c_devices &&& hd.I2C_SPD_DIMM0 ≠ 0)
    (hst : m.serdes.state = I2C_STATE_ADDR) (hcount : m.serdes.bitcount = 0)
    (hin : m.serdes.inbuf = 0)
    (hclk : m.serdes.oldpinstate &&& I2C_SCL ≠ 0) :
    run hd clk (send_byte b ++ rest) m
      = run hd (fun i => clk (i + 2 + 2 * 7)) rest (addressed_spd b (bit_of b 0) m) := by
  have hx := bit_of_le b 0
  have hm : shift_bits (b >>> 1) 7 m = _ := shift_bits_succ_eq (b >>> 1) 6 m
  rw [send_byte, send_bits_succ, List.append_assoc,
    run_send_bits hd (b >>> 1) _ 7 clk m (Or.inl hst) (by omega) hclk]
  have hfall := fall_shift hd (clk (0 + 2 * 7)) (shift_bits (b >>> 1) 7 m) (bit_of b 0)
    (by rw [hm]; exact Or.inl hst)
    (by rw [hm]; simp only; rw [(pin_high _ (bit_of_le _ 0)).1]; decide)
  have hrise := rise_addr_spd hd (clk (1 + 2 * 7))
    (store_pins 0 (bit_of b 0) (release_lines (shift_bits (b >>> 1) 7 m))) (bit_of b 0) hx
    (by rw [hm]; exact hreg) (by rw [hm]; exact hst)
    (by rw [hm]; simp [store_pins, release_lines, hcount])
    (by simp [store_pins, (pin_low _ hx).1])
    (by rw [hm]; simp only [store_pins, release_lines, hin, byte_shifted_in b hb]; exact hsel)
    (by rw [hm]; exact hen)
  rw [run_pulse hd (fun i => clk (i + 2 * 7)) (bit_of b 0) rest _ _ _ hfall hrise]
  have hmeq : addressed_spd
      (shl1 (store_pins 0 (bit_of b 0) (release_lines (shift_bits (b >>> 1) 7 m))).serdes.inbuf
        (bit_of b 0))
      (bit_of b 0) (store_pins 0 (bit_of b 0) (release_lines (shift_bits (b >>> 1) 7 m)))
      = addressed_spd b (bit_of b 0) m := by
    rw [hm]
    simp only [store_pins, release_lines, hin, byte_shifted_in b hb, addressed_spd]
  rw [hmeq]

theorem run_address_byte_none (hd : Headers) (clk : Nat → Tm) (b : Nat)
    (rest : List (Nat × Nat))
    (m : Machine) (hb : b < 256)
    (hrtc : ¬ (b >>> 1 = 0x50 ∧ m.i2c_devices &&& hd.I2C_PCF8583 ≠ 0))
    (hspd : ¬ (b >>> 1 = 0x54 ∧ m.i2c_devices &&& hd.I2C_SPD_DIMM0 ≠ 0))
    (hreg : Registered m)
    (hst : m.serdes.state = I2C_STATE_ADDR) (hcount : m.serdes.bitcount = 0)
    (hin : m.serdes.inbuf = 0)
    (hclk : m.serdes.oldpinstate &&& I2C_SCL ≠ 0) :
    run hd clk (send_byte b ++ rest) m
      = run hd (fun i => clk (i + 2 + 2 * 7)) rest (unaddressed (bit_of b 0) m) := by
  have hx := bit_of_le b 0
  have hm : shift_bits (b >>> 1) 7 m = _ := shift_bits_succ_eq (b >>> 1) 6 m
  rw [send_byte, send_bits_succ, List.append_assoc,
    run_send_bits hd (b >>> 1) _ 7 clk m (Or.inl hst) (by omega) hclk]
  have hfall := fall_shift hd (clk (0 + 2 * 7)) (shift_bits (b >>> 1) 7 m) (bit_of b 0)
    (by rw [hm]; exact Or.inl hst)
    (by rw [hm]; simp only; rw [(pin_high _ (bit_of_le _ 0)).1]; decide)
  have hrise := rise_addr_none hd (clk (1 + 2 * 7))
    (store_pins 0 (bit_of b 0) (release_lines (shift_bits (b >>> 1) 7 m))) (bit_of b 0) hx
    (by rw [hm]; exact hreg) (by rw [hm]; exact hst)
    (by rw [hm]; simp [store_pins, release_lines, hcount])
    (by simp [store_pins, (pin_low _ hx).1])
    (by rw [hm]; simp only [store_pins, release_lines, hin, byte_shifted_in b hb]; exact hrtc)
    (by rw [hm]; simp only [store_pins, release_lines, hin, byte_shifted_in b hb]; exact hspd)
  rw [run_pulse hd (fun i => clk (i + 2 * 7)) (bit_of b 0) rest _ _ _ hfall hrise]
  have hmeq : unaddressed (bit_of b 0)
      (store_pins 0 (bit_of b 0) (release_lines (shift_bits (b >>> 1) 7 m)))
      = unaddressed (bit_of b 0) m := by
    rw [hm]
    simp only [store_pins, release_lines, unaddressed]
  rw [hmeq]

/-- The state after a Start condition and an address byte `b`, in the three
cases of the responder lookup. -/
theorem address_byte_outcome (hd : Headers) (clk : Nat → Tm) (m : Machine) (b : Nat)
    (hb : b < 256) (hreg : Registered m)
    (hpins : m.serdes.oldpinstate &&& I2C_SDA ≠ 0) :
    ((b >>> 1 = 0x50 ∧ m.i2c_devices &&& hd.I2C_PCF8583 ≠ 0) →
      run hd clk ((1, 0) :: send_byte b) m
        = .ok (addressed_rtc b (bit_of b 0) (started m))) ∧
    ((b >>> 1 = 0x54 ∧ m.i2c_devices &&& hd.I2C_SPD_DIMM0 ≠ 0) →
      run hd clk ((1, 0) :: send_byte b) m
        = .ok (addressed_spd b (bit_of b 0) (started m))) ∧
    (¬ (b >>> 1 = 0x50 ∧ m.i2c_devices &&& hd.I2C_PCF8583 ≠ 0) →
      ¬ (b >>> 1 = 0x54 ∧ m.i2c_devices &&& hd.I2C_SPD_DIMM0 ≠ 0) →
      run hd clk ((1, 0) :: send_byte b) m = .ok (unaddressed (bit_of b 0) (started m))) := by
  have hs := run_start hd clk (send_byte b ++ []) m hpins
  rw [List.append_nil] at hs
  have hclk : (started m).serdes.oldpinstate &&& I2C_SCL ≠ 0 := by simp [started]
  refine ⟨?_, ?_, ?_⟩
  · intro h
    have h1 := run_address_byte_rtc hd (fun i => clk (i + 1)) b [] (started m) hb h.1 hreg h.2
      rfl rfl rfl hclk
    rw [List.append_nil] at h1
    rw [hs, h1]
    rfl
  · intro h
    have h1 := run_address_byte_spd hd (fun i => clk (i + 1)) b [] (started m) hb h.1 hreg h.2
      rfl rfl rfl hclk
    rw [List.append_nil] at h1
    rw [hs, h1]
    rfl
  · intro h1 h2
    have h3 := run_address_byte_none hd (fun i => clk (i + 1)) b [] (started m) hb h1 h2 hreg
      rfl rfl rfl hclk
    rw [List.append_nil] at h3
    rw [hs, h3]
    rfl

/-! ### The responder invariant -/

theorem devops_registered (m : Machine) (sl : SlaveRef) (hreg : Registered m) :
    m.devops sl = .ok sl.ops := by
  obtain ⟨r1, r2⟩ := hreg
  cases sl <;> simp [Machine.devops, Machine.slave, r1, r2, SlaveRef.ops]

theorem businv_reset (m : Machine) (h : Registered m) : BusInv (reset_serdes m) := by
  refine ⟨h, ?_⟩
  intro hn
  simp [needs_responder, reset_serdes] at hn

/-- Every start operation acknowledges and leaves the state machine record
and the registry alone. -/
theorem start_frame (ops : I2C_SlaveOps) (m : Machine) (a o : Nat) :
    ∃ m2, ops.start m a o = (I2C_ACK, m2) ∧ m2.serdes = m.serdes ∧
      m2.pcf8583 = m.pcf8583 ∧ m2.spd_i2c = m.spd_i2c := by
  cases ops
  · exact ⟨_, rfl, rfl, rfl, rfl⟩
  · exact ⟨_, rfl, rfl, rfl, rfl⟩

/-- Every write operation acknowledges and leaves the state machine record
and the registry alone. -/
theorem write_frame (ops : I2C_SlaveOps) (m : Machine) (d : Nat) :
    ∃ m2, ops.write m d = (I2C_ACK, m2) ∧ m2.serdes = m.serdes ∧
      m2.pcf8583 = m.pcf8583 ∧ m2.spd_i2c = m.spd_i2c := by
  cases ops
  · refine ⟨(pcf8583_write m d).2, ?_, ?_, ?_, ?_⟩ <;>
      · try simp only [I2C_SlaveOps.write]
        unfold pcf8583_write
        by_cases h0 : m.pcf.state = PCF_STATE_ADDR
        · simp [h0]
        · by_cases h2 : m.pcf.state = PCF_STATE_DATA
          · by_cases hr : m.pcf.reg_address = 0x3f <;> simp [h0, h2, hr, savecmos]
          · simp [h0, h2]
  · exact ⟨_, rfl, rfl, rfl, rfl⟩

/-- Every read operation leaves the state machine record and the registry
alone. -/
theorem read_frame (ops : I2C_SlaveOps) (t : Tm) (m : Machine) :
    (ops.read t m).2.2.serdes = m.serdes ∧
    (ops.read t m).2.2.pcf8583 = m.pcf8583 ∧ (ops.read t m).2.2.spd_i2c = m.spd_i2c := by
  cases ops
  · obtain ⟨h1, h2, h3, _⟩ := pcf8583_read_bus t m
    exact ⟨h1, h2, h3⟩
  · exact ⟨rfl, rfl, rfl⟩

/-- Every stop operation leaves the registry alone. -/
theorem stop_frame (ops : I2C_SlaveOps) (m : Machine) :
    (ops.stop m).pcf8583 = m.pcf8583 ∧ (ops.stop m).spd_i2c = m.spd_i2c := by
  cases ops
  · exact ⟨rfl, rfl⟩
  · exact ⟨rfl, rfl⟩

/-- The branch of `case_ADDR` taken once a responder `sl` is found. -/
theorem businv_addr_found (m : Machine) (sl : SlaveRef) (hreg : Registered m) :
    ∃ m', (match m.devops sl with
        | .error e => .error e
        | .ok ops =>
          let (result, m) :=
            if m.serdes.inbuf &&& 1 ≠ 0 then
              ops.start { m with serdes := { m.serdes with state := I2C_STATE_ACK_READ_ADDR } }
                m.serdes.address I2C_READ
            else
              ops.start { m with serdes := { m.serdes with state := I2C_STATE_ACK_WRITE } }
                m.serdes.address I2C_WRITE
          if result = I2C_ACK then
            .ok (release_lines { m with serdes := { m.serdes with active_slave := some sl } })
          else if result = I2C_NACK then
            let m := release_lines m
            .ok { m with serdes := { m.serdes with state := I2C_STATE_WAIT } }
          else .ok m : Except Fault Machine) = .ok m' ∧ BusInv m' := by
  rw [devops_registered m sl hreg]
  obtain ⟨r1, r2⟩ := hreg
  by_cases hdir : m.serdes.inbuf &&& 1 ≠ 0
  · obtain ⟨m2, hs, h1, h2, h3⟩ := start_frame sl.ops
      { m with serdes := { m.serdes with state := I2C_STATE_ACK_READ_ADDR } }
      m.serdes.address I2C_READ
    simp only [if_pos hdir, hs, if_true]
    refine ⟨_, rfl, ⟨?_, ?_⟩, ?_⟩
    · exact h2.trans r1
    · exact h3.trans r2
    · intro _
      simp [release_lines]
  · obtain ⟨m2, hs, h1, h2, h3⟩ := start_frame sl.ops
      { m with serdes := { m.serdes with state := I2C_STATE_ACK_WRITE } }
      m.serdes.address I2C_WRITE
    simp only [if_neg hdir, hs, if_true]
    refine ⟨_, rfl, ⟨?_, ?_⟩, ?_⟩
    · exact h2.trans r1
    · exact h3.trans r2
    · intro _
      simp [release_lines]

/-- The invariant only looks at the registry and the state machine record. -/
theorem businv_frame (m m' : Machine) (h : BusInv m) (hp : m'.pcf8583 = m.pcf8583)
    (hs : m'.spd_i2c = m.spd_i2c) (hser : m'.serdes.state = m.serdes.state)
    (hact : m'.serdes.active_slave = m.serdes.active_slave) : BusInv m' := by
  obtain ⟨⟨r1, r2⟩, h2⟩ := h
  refine ⟨⟨hp.trans r1, hs.trans r2⟩, ?_⟩
  rw [hser, hact]
  exact h2

/-- A state that needs no responder satisfies the invariant as soon as the
registry is in place. -/
theorem businv_free (m : Machine) (hreg : Registered m)
    (hst : ¬ needs_responder m.serdes.state) : BusInv m :=
  ⟨hreg, fun hn => absurd hn hst⟩

theorem businv_case_ADDR (hd : Headers) (oldscl scl sda : Nat) (m : Machine)
    (h : BusInv m) (hst : m.serdes.state = I2C_STATE_ADDR) :
    ∃ m', case_ADDR hd oldscl scl sda m = .ok m' ∧ BusInv m' := by
  have hfree : ¬ needs_responder m.serdes.state := by
    rw [hst]; simp [needs_responder]
  unfold case_ADDR
  by_cases c1 : oldscl ≠ 0 ∧ scl = 0
  · rw [if_pos c1]
    exact ⟨_, rfl, businv_frame m _ h rfl rfl rfl rfl⟩
  · rw [if_neg c1]
    by_cases c2 : oldscl = 0 ∧ scl ≠ 0
    · rw [if_pos c2]
      by_cases c3 : (shift_in sda m).serdes.bitcount = 8
      · simp only [if_pos c3]
        have hregM : Registered { shift_in sda m with serdes :=
            { (shift_in sda m).serdes with address := (shift_in sda m).serdes.inbuf >>> 1 } } :=
          h.1
        by_cases cA : ((shift_in sda m).serdes.inbuf >>> 1 = (shift_in sda m).pcf8583.address ∧
            (shift_in sda m).i2c_devices &&& hd.I2C_PCF8583 ≠ 0)
        · simp only [if_pos cA]
          exact businv_addr_found _ .pcf8583 hregM
        · simp only [if_neg cA]
          by_cases cB : ((shift_in sda m).serdes.inbuf >>> 1 = (shift_in sda m).spd_i2c.address ∧
              (shift_in sda m).i2c_devices &&& hd.I2C_SPD_DIMM0 ≠ 0)
          · simp only [if_pos cB]
            exact businv_addr_found _ .spd_i2c hregM
          · simp only [if_neg cB]
            exact ⟨_, rfl, businv_reset _ hregM⟩
      · simp only [if_neg c3]
        exact ⟨_, rfl, businv_free _ h.1 hfree⟩
    · rw [if_neg c2]
      exact ⟨_, rfl, h⟩

/-- While a responder is recorded, any change of state keeps the invariant. -/
theorem businv_active (m m' : Machine) (h : BusInv m) (hn : needs_responder m.serdes.state)
    (hp : m'.pcf8583 = m.pcf8583) (hs : m'.spd_i2c = m.spd_i2c)
    (hact : m'.serdes.active_slave = m.serdes.active_slave) : BusInv m' := by
  obtain ⟨⟨r1, r2⟩, h2⟩ := h
  refine ⟨⟨hp.trans r1, hs.trans r2⟩, fun _ => ?_⟩
  rw [hact]
  exact h2 hn

theorem businv_case_ACK_READ_ADDR (oldscl scl : Nat) (m : Machine)
    (h : BusInv m) (hst : m.serdes.state = I2C_STATE_ACK_READ_ADDR) :
    ∃ m', case_ACK_READ_ADDR oldscl scl m = .ok m' ∧ BusInv m' := by
  have hn : needs_responder m.serdes.state := by
    rw [hst]; simp [needs_responder]
  unfold case_ACK_READ_ADDR
  split_ifs
  · exact ⟨_, rfl, businv_active m _ h hn rfl rfl rfl⟩
  · exact ⟨_, rfl, businv_active m _ h hn rfl rfl rfl⟩
  · exact ⟨_, rfl, h⟩

theorem businv_case_ACK_WRITE (oldscl scl : Nat) (m : Machine)
    (h : BusInv m)
    (hst : m.serdes.state = I2C_STATE_ACK_WRITE ∨ m.serdes.state = I2C_STATE_NACK_WRITE) :
    ∃ m', case_ACK_WRITE oldscl scl m = .ok m' ∧ BusInv m' := by
  have hn : needs_responder m.serdes.state := by
    rcases hst with hst | hst <;> rw [hst] <;> simp [needs_responder]
  unfold case_ACK_WRITE
  by_cases c1 : oldscl ≠ 0 ∧ scl = 0
  · rw [if_pos c1]
    by_cases c3 : m.serdes.state = I2C_STATE_NACK_WRITE
    · simp only [if_pos c3]
      exact ⟨_, rfl, businv_active m _ h hn rfl rfl rfl⟩
    · simp only [if_neg c3]
      exact ⟨_, rfl, businv_active m _ h hn rfl rfl rfl⟩
  · rw [if_neg c1]
    by_cases c2 : oldscl = 0 ∧ scl ≠ 0
    · rw [if_pos c2]
      exact ⟨_, rfl, businv_active m _ h hn rfl rfl rfl⟩
    · rw [if_neg c2]
      exact ⟨_, rfl, h⟩

theorem businv_case_ACK_READ (oldscl scl sda : Nat) (m : Machine)
    (h : BusInv m) (hst : m.serdes.state = I2C_STATE_ACK_READ) :
    ∃ m', case_ACK_READ oldscl scl sda m = .ok m' ∧ BusInv m' := by
  have hn : needs_responder m.serdes.state := by
    rw [hst]; simp [needs_responder]
  unfold case_ACK_READ
  by_cases c1 : oldscl ≠ 0 ∧ scl = 0
  · rw [if_pos c1]
    exact ⟨_, rfl, businv_active m _ h hn rfl rfl rfl⟩
  · rw [if_neg c1]
    by_cases c2 : oldscl = 0 ∧ scl ≠ 0
    · rw [if_pos c2]
      rcases hact : m.serdes.active_slave with _ | sl
      · exact absurd hact (h.2 hn)
      · simp only []
        by_cases c3 : sda ≠ 0
        · simp only [if_pos c3]
          rw [devops_registered _ sl (show Registered
            { m with serdes := { m.serdes with state := I2C_STATE_WAIT } } from h.1)]
          cases sl <;> simp only [SlaveRef.ops, I2C_SlaveOps.read_ack] <;>
            split_ifs <;>
            exact ⟨_, rfl, businv_active m _ h hn rfl rfl rfl⟩
        · simp only [if_neg c3]
          rw [devops_registered _ sl h.1]
          cases sl <;> simp only [SlaveRef.ops, I2C_SlaveOps.read_ack] <;>
            exact ⟨_, rfl, businv_active m _ h hn rfl rfl rfl⟩
    · rw [if_neg c2]
      exact ⟨_, rfl, h⟩

theorem businv_case_WRITE (oldscl scl sda : Nat) (m : Machine)
    (h : BusInv m) (hst : m.serdes.state = I2C_STATE_WRITE) :
    ∃ m', case_WRITE oldscl scl sda m = .ok m' ∧ BusInv m' := by
  have hn : needs_responder m.serdes.state := by
    rw [hst]; simp [needs_responder]
  unfold case_WRITE
  by_cases c1 : oldscl ≠ 0 ∧ scl = 0
  · rw [if_pos c1]
    exact ⟨_, rfl, businv_active m _ h hn rfl rfl rfl⟩
  · rw [if_neg c1]
    by_cases c2 : oldscl = 0 ∧ scl ≠ 0
    · rw [if_pos c2]
      by_cases c3 : (shift_in sda m).serdes.bitcount = 8
      · simp only [if_pos c3]
        rcases hact : m.serdes.active_slave with _ | sl
        · exact absurd hact (h.2 hn)
        · have hact' : (shift_in sda m).serdes.active_slave = some sl := hact
          simp only [hact']
          rw [devops_registered _ sl (show Registered (shift_in sda m) from h.1)]
          obtain ⟨m2, hw, h1, h2, h3⟩ :=
            write_frame sl.ops (shift_in sda m) (shift_in sda m).serdes.inbuf
          simp only [hw, if_true]
          refine ⟨_, rfl, businv_active m _ h hn h2 h3 ?_⟩
          show m2.serdes.active_slave = m.serdes.active_slave
          rw [h1]
          rfl
      · simp only [if_neg c3]
        exact ⟨_, rfl, businv_active m _ h hn rfl rfl rfl⟩
    · rw [if_neg c2]
      exact ⟨_, rfl, h⟩

theorem businv_case_READ (t : Tm) (oldscl scl : Nat) (m : Machine)
    (h : BusInv m) (hst : m.serdes.state = I2C_STATE_READ) :
    ∃ m', case_READ t oldscl scl m = .ok m' ∧ BusInv m' := by
  have hn : needs_responder m.serdes.state := by
    rw [hst]; simp [needs_responder]
  have hrest : ∀ m1 : Machine, BusInv m1 → needs_responder m1.serdes.state →
      ∃ m', (if m1.serdes.bitcount > 0 then
          let m := { m1 with serdes := { m1.serdes with bitcount := m1.serdes.bitcount - 1 } }
          let m := { m with i2cclock := 1, i2cdata := 0 }
          if m.serdes.outbuf &&& (1 <<< m.serdes.bitcount) ≠ 0 then
            .ok { m with i2cdata := 1 }
          else .ok m
        else
          .ok { m1 with effects := m1.effects ++ [Effect.bug .bitcount_le_0] } :
            Except Fault Machine) = .ok m' ∧ BusInv m' := by
    intro m1 h1 hn1
    by_cases c4 : m1.serdes.bitcount > 0
    · rw [if_pos c4]
      by_cases c5 : m1.serdes.outbuf &&& (1 <<< (m1.serdes.bitcount - 1)) ≠ 0
      · simp only [if_pos c5]
        exact ⟨_, rfl, businv_active m1 _ h1 hn1 rfl rfl rfl⟩
      · simp only [if_neg c5]
        exact ⟨_, rfl, businv_active m1 _ h1 hn1 rfl rfl rfl⟩
    · rw [if_neg c4]
      exact ⟨_, rfl, businv_active m1 _ h1 hn1 rfl rfl rfl⟩
  unfold case_READ
  by_cases c1 : oldscl ≠ 0 ∧ scl = 0
  · rw [if_pos c1]
    by_cases c3 : m.serdes.bitcount = 8
    · simp only [if_pos c3]
      rcases hact : m.serdes.active_slave with _ | sl
      · exact absurd hact (h.2 hn)
      · simp only []
        rw [devops_registered _ sl h.1]
        obtain ⟨h1, h2, h3⟩ := read_frame sl.ops t m
        have hb : BusInv { (sl.ops.read t m).2.2 with serdes :=
            { (sl.ops.read t m).2.2.serdes with
              outbuf := (sl.ops.read t m).2.1 % 256 } } := by
          refine businv_active m _ h hn h2 h3 ?_
          show (sl.ops.read t m).2.2.serdes.active_slave = m.serdes.active_slave
          rw [h1]
        have hn' : needs_responder ({ (sl.ops.read t m).2.2 with serdes :=
            { (sl.ops.read t m).2.2.serdes with
              outbuf := (sl.ops.read t m).2.1 % 256 } } : Machine).serdes.state := by
          show needs_responder (sl.ops.read t m).2.2.serdes.state
          rw [h1]
          exact hn
        exact hrest _ hb hn'
    · simp only [if_neg c3]
      exact hrest m h hn
  · rw [if_neg c1]
    by_cases c2 : oldscl = 0 ∧ scl ≠ 0
    · rw [if_pos c2]
      split_ifs
      · exact ⟨_, rfl, businv_active m _ h hn rfl rfl rfl⟩
      · exact ⟨_, rfl, h⟩
    · rw [if_neg c2]
      exact ⟨_, rfl, h⟩

theorem businv_dispatch (hd : Headers) (t : Tm) (oldscl scl sda : Nat) (m : Machine)
    (h : BusInv m) : ∃ m', dispatch hd t oldscl scl sda m = .ok m' ∧ BusInv m' := by
  unfold dispatch
  by_cases s0 : m.serdes.state = I2C_STATE_IDLE
  · rw [if_pos s0]
    exact ⟨_, rfl, businv_frame m _ h rfl rfl rfl rfl⟩
  rw [if_neg s0]
  by_cases s1 : m.serdes.state = I2C_STATE_ADDR
  · rw [if_pos s1]
    exact businv_case_ADDR hd oldscl scl sda m h s1
  rw [if_neg s1]
  by_cases s3 : m.serdes.state = I2C_STATE_ACK_READ_ADDR
  · rw [if_pos s3]
    exact businv_case_ACK_READ_ADDR oldscl scl m h s3
  rw [if_neg s3]
  by_cases s2 : m.serdes.state = I2C_STATE_ACK_READ
  · rw [if_pos s2]
    exact businv_case_ACK_READ oldscl scl sda m h s2
  rw [if_neg s2]
  by_cases s4 : m.serdes.state = I2C_STATE_ACK_WRITE ∨ m.serdes.state = I2C_STATE_NACK_WRITE
  · rw [if_pos s4]
    exact businv_case_ACK_WRITE oldscl scl m h s4
  rw [if_neg s4]
  by_cases s6 : m.serdes.state = I2C_STATE_READ
  · rw [if_pos s6]
    exact businv_case_READ t oldscl scl m h s6
  rw [if_neg s6]
  by_cases s7 : m.serdes.state = I2C_STATE_WRITE
  · rw [if_pos s7]
    exact businv_case_WRITE oldscl scl sda m h s7
  rw [if_neg s7]
  by_cases s8 : m.serdes.state = I2C_STATE_WAIT
  · rw [if_pos s8]
    exact ⟨_, rfl, h⟩
  rw [if_neg s8]
  exact ⟨_, rfl, businv_frame m _ h rfl rfl rfl rfl⟩

/-- One call of `cmosi2cchange`, with any pin values, returns and keeps the
invariant. -/
theorem businv_step (hd : Headers) (t : Tm) (scl sda : Nat) (m : Machine) (h : BusInv m) :
    ∃ m', cmosi2cchange hd t scl sda m = .ok m' ∧ BusInv m' := by
  unfold cmosi2cchange
  simp only []
  by_cases c1 : scl ≠ 0 ∧ m.serdes.oldpinstate &&& I2C_SDA ≠ 0 ∧ sda = 0
  · rw [if_pos c1]
    refine ⟨_, rfl, businv_free _ h.1 ?_⟩
    simp [needs_responder, store_pins, reset_serdes]
  · rw [if_neg c1]
    by_cases c2 : scl ≠ 0 ∧ m.serdes.oldpinstate &&& I2C_SDA = 0 ∧ sda ≠ 0
    · rw [if_pos c2]
      rcases hact : m.serdes.active_slave with _ | sl
      · simp only []
        exact ⟨_, rfl, businv_frame _ _ (businv_reset m h.1) rfl rfl rfl rfl⟩
      · simp only []
        rw [devops_registered m sl h.1]
        simp only []
        obtain ⟨h2, h3⟩ := stop_frame sl.ops m
        have hreg : Registered (sl.ops.stop m) := ⟨h2.trans h.1.1, h3.trans h.1.2⟩
        exact ⟨_, rfl, businv_frame _ _ (businv_reset _ hreg) rfl rfl rfl rfl⟩
    · rw [if_neg c2]
      obtain ⟨m1, hd1, hb1⟩ := businv_dispatch hd t (m.serdes.oldpinstate &&& I2C_SCL) scl sda m h
      rw [hd1]
      exact ⟨_, rfl, businv_frame _ _ hb1 rfl rfl rfl rfl⟩

/-- Every finite sequence of calls returns and keeps the invariant. -/
theorem businv_run (hd : Headers) (evs : List (Nat × Nat)) :
    ∀ (clk : Nat → Tm) (m : Machine), BusInv m →
      ∃ m', run hd clk evs m = .ok m' ∧ BusInv m' := by
  induction evs with
  | nil => intro clk m h; exact ⟨m, rfl, h⟩
  | cons ev evs ih =>
    intro clk m h
    obtain ⟨scl, sda⟩ := ev
    obtain ⟨m1, h1, hb1⟩ := businv_step hd (clk 0) scl sda m h
    obtain ⟨m2, h2, hb2⟩ := ih (fun i => clk (i + 1)) m1 hb1
    refine ⟨m2, ?_, hb2⟩
    rw [run, h1]
    exact h2

theorem businv_reseti2c (mask : Nat) (m : Machine) : BusInv (reseti2c mask m) :=
  businv_reset _ ⟨rfl, rfl⟩

/-! ### Settings and encodings -/

set_option maxRecDepth 100000 in
theorem bcd_nibbles : ∀ v < 100,
    BIN2BCD v >>> 4 = v / 10 ∧ BIN2BCD v &&& 15 = v % 10 ∧
    10 * (BIN2BCD v >>> 4) + (BIN2BCD v &&& 15) = v := by
  decide

set_option maxRecDepth 100000 in
theorem dst_bit_byte : ∀ r < 256,
    (r ||| 128) &&& 128 = 128 ∧ (r ||| 128) &&& 127 = r &&& 127 ∧
    (r &&& 127) &&& 128 = 0 ∧ (r &&& 127) &&& 127 = r &&& 127 := by
  decide

theorem or_bit7_mod (x : Nat) : (x ||| 128) % 2 ^ 8 = (x % 2 ^ 8) ||| 128 := by
  apply Nat.eq_of_testBit_eq
  intro i
  simp only [Nat.testBit_mod_two_pow, Nat.testBit_or]
  by_cases h : i < 8
  · simp [h]
  · have h0 : Nat.testBit 128 i = false :=
      Nat.testBit_lt_two_pow (lt_of_lt_of_le (by decide : 128 < 2 ^ 8)
        (Nat.pow_le_pow_right (by decide) (by omega)))
    simp [h, h0]

theorem and_not_bit7_mod (x : Nat) : (x &&& 4294967167) % 2 ^ 8 = (x % 2 ^ 8) &&& 127 := by
  apply Nat.eq_of_testBit_eq
  intro i
  simp only [Nat.testBit_mod_two_pow, Nat.testBit_and]
  by_cases h : i < 8
  · have h2 : Nat.testBit 4294967167 i = Nat.testBit 127 i := by
      interval_cases i <;> decide
    simp [h, h2]
  · have h0 : Nat.testBit 127 i = false :=
      Nat.testBit_lt_two_pow (lt_of_lt_of_le (by decide : 127 < 2 ^ 8)
        (Nat.pow_le_pow_right (by decide) (by omega)))
    simp [h, h0]

/-- The daylight-saving updates on a store byte `x`: setting bit 7 with
`|= 1u << 7` and clearing it with `&= ~(1u << 7)`, as stored into an
`unsigned char`. -/
theorem dst_bit (x : Nat) :
    ((x ||| (1 <<< 7)) % 256) &&& 0x80 = 0x80 ∧
    ((x ||| (1 <<< 7)) % 256) &&& 0x7f = x &&& 0x7f ∧
    ((x &&& (4294967295 - (1 <<< 7))) % 256) &&& 0x80 = 0 ∧
    ((x &&& (4294967295 - (1 <<< 7))) % 256) &&& 0x7f = x &&& 0x7f := by
  have h1 : (x ||| (1 <<< 7)) % 256 = (x % 256) ||| 128 := or_bit7_mod x
  have h2 : (x &&& (4294967295 - (1 <<< 7))) % 256 = (x % 256) &&& 127 := and_not_bit7_mod x
  have h3 : x &&& 0x7f = (x % 256) &&& 0x7f := by
    rw [and_7f, and_7f]; omega
  obtain ⟨d1, d2, d3, d4⟩ := dst_bit_byte (x % 256) (Nat.mod_lt _ (by decide))
  rw [h1, h2, h3]
  exact ⟨d1, d2, d3, d4⟩

/-- The four store bytes that `cmos_update_settings` assigns, and the frame. -/
theorem cmos_update_settings_ram (hd : Headers) (t tloc : Tm) (model : Nat) (m : Machine) :
    (cmos_update_settings hd t tloc model m).cmosram 0xc0
      = Int.toNat ((Int.tmod (int_wrap (t.tm_year + 1900)) 100) % 256) ∧
    (cmos_update_settings hd t tloc model m).cmosram 0xc1
      = Int.toNat ((Int.tdiv (int_wrap (t.tm_year + 1900)) 100) % 256) ∧
    (cmos_update_settings hd t tloc model m).cmosram 0x2c
      = (if tloc.tm_isdst ≥ 0 then
          if tloc.tm_isdst > 0 then (m.cmosram 0x2c ||| (1 <<< 7)) % 256
          else (m.cmosram 0x2c &&& (4294967295 - (1 <<< 7))) % 256
        else m.cmosram 0x2c) ∧
    (cmos_update_settings hd t tloc model m).cmosram 0x5d
      = (if model = hd.Model_A7000 ∨ model = hd.Model_A7000plus ∨ model = hd.Model_Phoebe
          then 3 else 0) ∧
    ∀ a, a ≠ 0x2c → a ≠ 0x5d → a ≠ 0xc0 → a ≠ 0xc1 →
      (cmos_update_settings hd t tloc model m).cmosram a = m.cmosram a := by
  have hy1 : Int.toNat ((Int.tmod (int_wrap (t.tm_year + 1900)) 100) % 256) % 256
      = Int.toNat ((Int.tmod (int_wrap (t.tm_year + 1900)) 100) % 256) := by
    apply Nat.mod_eq_of_lt; omega
  have hy2 : Int.toNat ((Int.tdiv (int_wrap (t.tm_year + 1900)) 100) % 256) % 256
      = Int.toNat ((Int.tdiv (int_wrap (t.tm_year + 1900)) 100) % 256) := by
    apply Nat.mod_eq_of_lt; omega
  unfold cmos_update_settings
  refine ⟨?_, ?_, ?_, ?_, ?_⟩
  · split_ifs <;> simp [ram_set, hy1]
  · split_ifs <;> simp [ram_set, hy2]
  · split_ifs <;> simp [ram_set]
  · split_ifs <;> simp [ram_set]
  · intro a h1 h2 h3 h4
    split_ifs <;> simp [ram_set, h1, h2, h3, h4]

/-! ### Properties of the device state kept by the bus -/

theorem dev_frame_apply (P : Machine → Prop) (hframe : DevFrame P) (m : Machine) (hP : P m)
    (m' : Machine) (h1 : m'.spd = m.spd) (h2 : m'.spd_data = m.spd_data) (h3 : m'.pcf = m.pcf)
    (h4 : m'.cmosram = m.cmosram) (h5 : m'.cmos_file = m.cmos_file) : P m' :=
  hframe m m' h1 h2 h3 h4 h5 hP

theorem keep_case_ADDR (P : Machine → Prop) (hframe : DevFrame P) (hops : OpsKeep P)
    (hd : Headers) (oldscl scl sda : Nat) (m m' : Machine)
    (h : case_ADDR hd oldscl scl sda m = .ok m') (hP : P m) : P m' := by
  have hP1 : P { shift_in sda m with serdes :=
      { (shift_in sda m).serdes with address := (shift_in sda m).serdes.inbuf >>> 1 } } :=
    hframe m _ rfl rfl rfl rfl rfl hP
  have hfound : ∀ (M : Machine) (sl : SlaveRef), P M →
      (match M.devops sl with
        | .error e => .error e
        | .ok ops =>
          let (result, m) :=
            if M.serdes.inbuf &&& 1 ≠ 0 then
              ops.start { M with serdes := { M.serdes with state := I2C_STATE_ACK_READ_ADDR } }
                M.serdes.address I2C_READ
            else
              ops.start { M with serdes := { M.serdes with state := I2C_STATE_ACK_WRITE } }
                M.serdes.address I2C_WRITE
          if result = I2C_ACK then
            .ok (release_lines { m with serdes := { m.serdes with active_slave := some sl } })
          else if result = I2C_NACK then
            let m := release_lines m
            .ok { m with serdes := { m.serdes with state := I2C_STATE_WAIT } }
          else .ok m : Except Fault Machine) = .ok m' → P m' := by
    intro M sl hM h
    cases hdev : M.devops sl with
    | error e => rw [hdev] at h; cases h
    | ok ops =>
      rw [hdev] at h
      simp only [] at h
      by_cases hdir : M.serdes.inbuf &&& 1 ≠ 0
      · rw [if_pos hdir] at h
        have hS := hops.1 ops
          { M with serdes := { M.serdes with state := I2C_STATE_ACK_READ_ADDR } }
          M.serdes.address I2C_READ (hframe M _ rfl rfl rfl rfl rfl hM)
        split_ifs at h <;> cases h <;> exact dev_frame_apply P hframe _ hS _ rfl rfl rfl rfl rfl
      · rw [if_neg hdir] at h
        have hS := hops.1 ops
          { M with serdes := { M.serdes with state := I2C_STATE_ACK_WRITE } }
          M.serdes.address I2C_WRITE (hframe M _ rfl rfl rfl rfl rfl hM)
        split_ifs at h <;> cases h <;> exact dev_frame_apply P hframe _ hS _ rfl rfl rfl rfl rfl
  unfold case_ADDR at h
  by_cases c1 : oldscl ≠ 0 ∧ scl = 0
  · rw [if_pos c1] at h
    cases h
    exact hframe m _ rfl rfl rfl rfl rfl hP
  · rw [if_neg c1] at h
    by_cases c2 : oldscl = 0 ∧ scl ≠ 0
    · rw [if_pos c2] at h
      by_cases c3 : (shift_in sda m).serdes.bitcount = 8
      · simp only [if_pos c3] at h
        by_cases cA : ((shift_in sda m).serdes.inbuf >>> 1 = (shift_in sda m).pcf8583.address ∧
            (shift_in sda m).i2c_devices &&& hd.I2C_PCF8583 ≠ 0)
        · simp only [if_pos cA] at h
          exact hfound _ .pcf8583 hP1 h
        · simp only [if_neg cA] at h
          by_cases cB : ((shift_in sda m).serdes.inbuf >>> 1 = (shift_in sda m).spd_i2c.address ∧
              (shift_in sda m).i2c_devices &&& hd.I2C_SPD_DIMM0 ≠ 0)
          · simp only [if_pos cB] at h
            exact hfound _ .spd_i2c hP1 h
          · simp only [if_neg cB] at h
            cases h
            exact hframe m _ rfl rfl rfl rfl rfl hP
      · simp only [if_neg c3] at h
        cases h
        exact hframe m _ rfl rfl rfl rfl rfl hP
    · rw [if_neg c2] at h
      cases h
      exact hP

theorem keep_case_ACK_READ_ADDR (P : Machine → Prop) (hframe : DevFrame P)
    (oldscl scl : Nat) (m m' : Machine)
    (h : case_ACK_READ_ADDR oldscl scl m = .ok m') (hP : P m) : P m' := by
  unfold case_ACK_READ_ADDR at h
  split_ifs at h <;> cases h <;> exact dev_frame_apply P hframe m hP _ rfl rfl rfl rfl rfl

theorem keep_case_ACK_WRITE (P : Machine → Prop) (hframe : DevFrame P)
    (oldscl scl : Nat) (m m' : Machine)
    (h : case_ACK_WRITE oldscl scl m = .ok m') (hP : P m) : P m' := by
  unfold case_ACK_WRITE at h
  by_cases c1 : oldscl ≠ 0 ∧ scl = 0
  · rw [if_pos c1] at h
    by_cases c3 : m.serdes.state = I2C_STATE_NACK_WRITE
    · simp only [if_pos c3] at h
      cases h
      exact dev_frame_apply P hframe m hP _ rfl rfl rfl rfl rfl
    · simp only [if_neg c3] at h
      cases h
      exact dev_frame_apply P hframe m hP _ rfl rfl rfl rfl rfl
  · rw [if_neg c1] at h
    split_ifs at h <;> cases h <;> exact dev_frame_apply P hframe m hP _ rfl rfl rfl rfl rfl

theorem keep_case_ACK_READ (P : Machine → Prop) (hframe : DevFrame P)
    (oldscl scl sda : Nat) (m m' : Machine)
    (h : case_ACK_READ oldscl scl sda m = .ok m') (hP : P m) : P m' := by
  unfold case_ACK_READ at h
  by_cases c1 : oldscl ≠ 0 ∧ scl = 0
  · rw [if_pos c1] at h
    cases h
    exact dev_frame_apply P hframe m hP _ rfl rfl rfl rfl rfl
  · rw [if_neg c1] at h
    by_cases c2 : oldscl = 0 ∧ scl ≠ 0
    · rw [if_pos c2] at h
      cases hact : m.serdes.active_slave with
      | none => rw [hact] at h; cases h
      | some sl =>
        rw [hact] at h
        simp only [] at h
        by_cases c3 : sda ≠ 0
        · simp only [if_pos c3] at h
          cases hdev : Machine.devops
              { m with serdes := { m.serdes with state := I2C_STATE_WAIT } } sl with
          | error e => rw [hdev] at h; cases h
          | ok ops =>
            rw [hdev] at h
            cases ops <;> simp only [I2C_SlaveOps.read_ack] at h <;> split_ifs at h <;>
              cases h <;> exact dev_frame_apply P hframe m hP _ rfl rfl rfl rfl rfl
        · simp only [if_neg c3] at h
          cases hdev : Machine.devops m sl with
          | error e => rw [hdev] at h; cases h
          | ok ops =>
            rw [hdev] at h
            cases ops <;> simp only [I2C_SlaveOps.read_ack] at h <;>
              cases h <;> exact dev_frame_apply P hframe m hP _ rfl rfl rfl rfl rfl
    · rw [if_neg c2] at h
      cases h
      exact hP

theorem keep_case_WRITE (P : Machine → Prop) (hframe : DevFrame P) (hops : OpsKeep P)
    (oldscl scl sda : Nat) (m m' : Machine)
    (h : case_WRITE oldscl scl sda m = .ok m') (hP : P m) : P m' := by
  unfold case_WRITE at h
  by_cases c1 : oldscl ≠ 0 ∧ scl = 0
  · rw [if_pos c1] at h
    cases h
    exact dev_frame_apply P hframe m hP _ rfl rfl rfl rfl rfl
  · rw [if_neg c1] at h
    by_cases c2 : oldscl = 0 ∧ scl ≠ 0
    · rw [if_pos c2] at h
      by_cases c3 : (shift_in sda m).serdes.bitcount = 8
      · simp only [if_pos c3] at h
        cases hact : (shift_in sda m).serdes.active_slave with
        | none => rw [hact] at h; cases h
        | some sl =>
          rw [hact] at h
          simp only [] at h
          cases hdev : Machine.devops (shift_in sda m) sl with
          | error e => rw [hdev] at h; cases h
          | ok ops =>
            rw [hdev] at h
            simp only [] at h
            have hW := hops.2.2.1 ops (shift_in sda m) (shift_in sda m).serdes.inbuf
              (dev_frame_apply P hframe m hP _ rfl rfl rfl rfl rfl)
            unfold case_WRITE_result at h
            split_ifs at h <;> cases h <;>
              exact dev_frame_apply P hframe _ hW _ rfl rfl rfl rfl rfl
      · simp only [if_neg c3] at h
        cases h
        exact dev_frame_apply P hframe m hP _ rfl rfl rfl rfl rfl
    · rw [if_neg c2] at h
      cases h
      exact hP

theorem keep_case_READ (P : Machine → Prop) (hframe : DevFrame P) (hops : OpsKeep P)
    (t : Tm) (oldscl scl : Nat) (m m' : Machine)
    (h : case_READ t oldscl scl m = .ok m') (hP : P m) : P m' := by
  have hrest : ∀ m1 : Machine, P m1 →
      (if m1.serdes.bitcount > 0 then
          let m := { m1 with serdes := { m1.serdes with bitcount := m1.serdes.bitcount - 1 } }
          let m := { m with i2cclock := 1, i2cdata := 0 }
          if m.serdes.outbuf &&& (1 <<< m.serdes.bitcount) ≠ 0 then
            .ok { m with i2cdata := 1 }
          else .ok m
        else
          .ok { m1 with effects := m1.effects ++ [Effect.bug .bitcount_le_0] } :
            Except Fault Machine) = .ok m' → P m' := by
    intro m1 h1 h
    by_cases c4 : m1.serdes.bitcount > 0
    · rw [if_pos c4] at h
      by_cases c5 : m1.serdes.outbuf &&& (1 <<< (m1.serdes.bitcount - 1)) ≠ 0
      · simp only [if_pos c5] at h
        cases h
        exact dev_frame_apply P hframe m1 h1 _ rfl rfl rfl rfl rfl
      · simp only [if_neg c5] at h
        cases h
        exact dev_frame_apply P hframe m1 h1 _ rfl rfl rfl rfl rfl
    · rw [if_neg c4] at h
      cases h
      exact dev_frame_apply P hframe m1 h1 _ rfl rfl rfl rfl rfl
  unfold case_READ at h
  by_cases c1 : oldscl ≠ 0 ∧ scl = 0
  · rw [if_pos c1] at h
    by_cases c3 : m.serdes.bitcount = 8
    · simp only [if_pos c3] at h
      cases hact : m.serdes.active_slave with
      | none => rw [hact] at h; cases h
      | some sl =>
        rw [hact] at h
        simp only [] at h
        cases hdev : Machine.devops m sl with
        | error e => rw [hdev] at h; cases h
        | ok ops =>
          rw [hdev] at h
          simp only [] at h
          exact hrest
            { (ops.read t m).2.2 with serdes :=
                { (ops.read t m).2.2.serdes with outbuf := (ops.read t m).2.1 % 256 } }
            (dev_frame_apply P hframe _ (hops.2.2.2 ops t m hP) _ rfl rfl rfl rfl rfl) h
    · simp only [if_neg c3] at h
      exact hrest m hP h
  · rw [if_neg c1] at h
    split_ifs at h <;> cases h <;> exact dev_frame_apply P hframe m hP _ rfl rfl rfl rfl rfl

theorem keep_dispatch (P : Machine → Prop) (hframe : DevFrame P) (hops : OpsKeep P)
    (hd : Headers) (t : Tm) (oldscl scl sda : Nat) (m m' : Machine)
    (h : dispatch hd t oldscl scl sda m = .ok m') (hP : P m) : P m' := by
  unfold dispatch at h
  split_ifs at h
  · cases h; exact dev_frame_apply P hframe m hP _ rfl rfl rfl rfl rfl
  · exact keep_case_ADDR P hframe hops hd oldscl scl sda m m' h hP
  · exact keep_case_ACK_READ_ADDR P hframe oldscl scl m m' h hP
  · exact keep_case_ACK_READ P hframe oldscl scl sda m m' h hP
  · exact keep_case_ACK_WRITE P hframe oldscl scl m m' h hP
  · exact keep_case_READ P hframe hops t oldscl scl m m' h hP
  · exact keep_case_WRITE P hframe hops oldscl scl sda m m' h hP
  · cases h; exact hP
  · cases h; exact dev_frame_apply P hframe m hP _ rfl rfl rfl rfl rfl

/-- One call of `cmosi2cchange` that returns keeps every property of the device
state that the responder operations keep. -/
theorem keep_step (P : Machine → Prop) (hframe : DevFrame P) (hops : OpsKeep P)
    (hd : Headers) (t : Tm) (scl sda : Nat) (m m' : Machine)
    (h : cmosi2cchange hd t scl sda m = .ok m') (hP : P m) : P m' := by
  unfold cmosi2cchange at h
  simp only [] at h
  by_cases c1 : scl ≠ 0 ∧ m.serdes.oldpinstate &&& I2C_SDA ≠ 0 ∧ sda = 0
  · rw [if_pos c1] at h
    cases h
    exact dev_frame_apply P hframe m hP _ rfl rfl rfl rfl rfl
  · rw [if_neg c1] at h
    by_cases c2 : scl ≠ 0 ∧ m.serdes.oldpinstate &&& I2C_SDA = 0 ∧ sda ≠ 0
    · rw [if_pos c2] at h
      cases hact : m.serdes.active_slave with
      | none =>
        rw [hact] at h
        cases h
        exact dev_frame_apply P hframe m hP _ rfl rfl rfl rfl rfl
      | some sl =>
        rw [hact] at h
        simp only [] at h
        cases hdev : Machine.devops m sl with
        | error e => rw [hdev] at h; cases h
        | ok ops =>
          rw [hdev] at h
          cases h
          exact dev_frame_apply P hframe _ (hops.2.1 ops m hP) _ rfl rfl rfl rfl rfl
    · rw [if_neg c2] at h
      cases hdis : dispatch hd t (m.serdes.oldpinstate &&& I2C_SCL) scl sda m with
      | error e => rw [hdis] at h; cases h
      | ok m1 =>
        rw [hdis] at h
        cases h
        exact dev_frame_apply P hframe _ (keep_dispatch P hframe hops hd t _ scl sda m m1 hdis hP)
          _ rfl rfl rfl rfl rfl

/-- Every sequence of calls that returns keeps such a property. -/
theorem keep_run (P : Machine → Prop) (hframe : DevFrame P) (hops : OpsKeep P)
    (hd : Headers) (evs : List (Nat × Nat)) :
    ∀ (clk : Nat → Tm) (m m' : Machine), run hd clk evs m = .ok m' → P m → P m' := by
  induction evs with
  | nil =>
    intro clk m m' h hP
    rw [run] at h
    cases h
    exact hP
  | cons ev evs ih =>
    intro clk m m' h hP
    obtain ⟨scl, sda⟩ := ev
    rw [run] at h
    cases hc : cmosi2cchange hd (clk 0) scl sda m with
    | error e => rw [hc] at h; cases h
    | ok m1 =>
      rw [hc] at h
      exact ih _ m1 m' h (keep_step P hframe hops hd (clk 0) scl sda m m1 hc hP)

/-! ### Single calls in the AckRead and Waiting states -/

theorem dispatch_ACK_READ (hd : Headers) (t : Tm) (oldscl scl sda : Nat) (m : Machine)
    (hst : m.serdes.state = I2C_STATE_ACK_READ) :
    dispatch hd t oldscl scl sda m = case_ACK_READ oldscl scl sda m := by
  unfold dispatch
  simp [hst]

theorem dispatch_WAIT (hd : Headers) (t : Tm) (oldscl scl sda : Nat) (m : Machine)
    (hst : m.serdes.state = I2C_STATE_WAIT) :
    dispatch hd t oldscl scl sda m = .ok m := by
  unfold dispatch
  simp [hst]

/-- A call that is neither a Start nor a Stop condition runs the switch and
stores the pins. -/
theorem cmosi2cchange_plain (hd : Headers) (t : Tm) (scl sda : Nat) (m : Machine)
    (hstart : ¬ (scl ≠ 0 ∧ m.serdes.oldpinstate &&& I2C_SDA ≠ 0 ∧ sda = 0))
    (hstop : ¬ (scl ≠ 0 ∧ m.serdes.oldpinstate &&& I2C_SDA = 0 ∧ sda ≠ 0)) :
    cmosi2cchange hd t scl sda m
      = (match dispatch hd t (m.serdes.oldpinstate &&& I2C_SCL) scl sda m with
        | .error e => .error e
        | .ok m => .ok (store_pins scl sda m)) := by
  unfold cmosi2cchange
  simp only []
  rw [if_neg hstart, if_neg hstop]

theorem fall_ack_read (hd : Headers) (t : Tm) (m : Machine) (x : Nat)
    (hst : m.serdes.state = I2C_STATE_ACK_READ)
    (hclk : m.serdes.oldpinstate &&& I2C_SCL ≠ 0) :
    cmosi2cchange hd t 0 x m = .ok (store_pins 0 x (release_lines m)) := by
  rw [cmosi2cchange_plain hd t 0 x m (fun h => h.1 rfl) (fun h => h.1 rfl),
    dispatch_ACK_READ hd t _ 0 x m hst]
  unfold case_ACK_READ
  rw [if_pos ⟨hclk, rfl⟩]

theorem rise_ack_read_nack (hd : Headers) (t : Tm) (m : Machine) (sl : SlaveRef) (x : Nat)
    (hreg : Registered m) (hst : m.serdes.state = I2C_STATE_ACK_READ)
    (hact : m.serdes.active_slave = some sl)
    (hclk : m.serdes.oldpinstate &&& I2C_SCL = 0)
    (hsda : m.serdes.oldpinstate &&& I2C_SDA ≠ 0) (hx : x ≠ 0) :
    cmosi2cchange hd t 1 x m
      = .ok (store_pins 1 x
          { m with
            serdes := { m.serdes with state := I2C_STATE_WAIT },
            effects := if m.i2cdata = 0 then m.effects ++ [Effect.bug .emulator_bug]
                       else m.effects }) := by
  rw [cmosi2cchange_plain hd t 1 x m (fun h => hx h.2.2) (fun h => hsda h.2.1),
    dispatch_ACK_READ hd t _ 1 x m hst]
  unfold case_ACK_READ
  have c1 : ¬ (m.serdes.oldpinstate &&& I2C_SCL ≠ 0 ∧ (1 : Nat) = 0) := fun h => h.1 hclk
  have c2 : m.serdes.oldpinstate &&& I2C_SCL = 0 ∧ (1 : Nat) ≠ 0 := ⟨hclk, by decide⟩
  rw [if_neg c1, if_pos c2, hact]
  simp only [if_pos hx]
  rw [devops_registered _ sl (show Registered
    { m with serdes := { m.serdes with state := I2C_STATE_WAIT } } from hreg)]
  cases sl <;> simp only [SlaveRef.ops, I2C_SlaveOps.read_ack] <;>
    split_ifs <;> rfl

theorem rise_ack_read_ack (hd : Headers) (t : Tm) (m : Machine) (sl : SlaveRef)
    (hreg : Registered m) (hst : m.serdes.state = I2C_STATE_ACK_READ)
    (hact : m.serdes.active_slave = some sl)
    (hclk : m.serdes.oldpinstate &&& I2C_SCL = 0)
    (hsda : m.serdes.oldpinstate &&& I2C_SDA = 0) :
    cmosi2cchange hd t 1 0 m
      = .ok (store_pins 1 0
          { m with serdes := { m.serdes with
              state := I2C_STATE_READ, bitcount := 8, slave_was_accessed := 1 } }) := by
  rw [cmosi2cchange_plain hd t 1 0 m (fun h => h.2.1 hsda) (fun h => h.2.2 rfl),
    dispatch_ACK_READ hd t _ 1 0 m hst]
  unfold case_ACK_READ
  have c1 : ¬ (m.serdes.oldpinstate &&& I2C_SCL ≠ 0 ∧ (1 : Nat) = 0) := fun h => h.1 hclk
  have c2 : m.serdes.oldpinstate &&& I2C_SCL = 0 ∧ (1 : Nat) ≠ 0 := ⟨hclk, by decide⟩
  have c3 : ¬ ((0 : Nat) ≠ 0) := fun h => h rfl
  rw [if_neg c1, if_pos c2, hact]
  simp only [if_neg c3]
  rw [devops_registered _ sl hreg]
  cases sl <;> simp only [SlaveRef.ops, I2C_SlaveOps.read_ack]

/-! ### A byte written to either responder -/

/-- The write operations neither read nor write the state machine record and
the output pins. -/
theorem slave_write_bus (sl : SlaveRef) (m : Machine) (data : Nat) (s : I2C_SerDes)
    (c d : Nat) :
    (sl.ops.write { m with serdes := s, i2cclock := c, i2cdata := d } data).2
      = { (sl.ops.write m data).2 with serdes := s, i2cclock := c, i2cdata := d } := by
  cases sl
  · exact pcf8583_write_bus m data s c d
  · rfl

theorem slave_write_ack (sl : SlaveRef) (m : Machine) (data : Nat) :
    (sl.ops.write m data).1 = I2C_ACK := by
  obtain ⟨m2, h, _⟩ := write_frame sl.ops m data
  rw [h]

/-- The entries that a write operation adds to the record of effects: its own,
and one `savecmos` when the RTC stores the checksum byte. -/
theorem slave_write_effects (sl : SlaveRef) (m : Machine) (data : Nat) :
    (sl.ops.write m data).2.effects
      = m.effects ++ [Effect.write sl.ops (data % 256)] ++
          (if sl = .pcf8583 ∧ m.pcf.state = PCF_STATE_DATA ∧ m.pcf.reg_address = 0x3f
            then [Effect.savecmos] else []) := by
  cases sl
  · simp only [SlaveRef.ops, I2C_SlaveOps.write]
    unfold pcf8583_write
    by_cases h0 : m.pcf.state = PCF_STATE_ADDR
    · have h2 : ¬ (m.pcf.state = PCF_STATE_DATA) := by rw [h0]; decide
      simp [h0]
    · by_cases h2 : m.pcf.state = PCF_STATE_DATA
      · by_cases hr : m.pcf.reg_address = 0x3f <;> simp [h0, h2, hr, savecmos]
      · simp [h0, h2]
  · simp [SlaveRef.ops, I2C_SlaveOps.write, spd_write]

theorem rise_write (hd : Headers) (t : Tm) (m : Machine) (sl : SlaveRef) (x : Nat) (hx : x ≤ 1)
    (hreg : Registered m)
    (hst : m.serdes.state = I2C_STATE_WRITE) (hcount : m.serdes.bitcount = 7)
    (hpins : m.serdes.oldpinstate = x) (hdata : m.i2cdata = 1)
    (hact : m.serdes.active_slave = some sl) :
    cmosi2cchange hd t 1 x m = .ok (written sl (shl1 m.serdes.inbuf x) x m) := by
  cases sl
  · exact rise_write_rtc hd t m x hx hreg hst hcount hpins hdata hact
  · obtain ⟨_, h2, h1⟩ := pin_low x hx
    obtain ⟨r1, r2⟩ := hreg
    have hno1 : ¬ ((1 : Nat) ≠ 0 ∧ x ≠ 0 ∧ x = 0) := by tauto
    have hno2 : ¬ ((1 : Nat) ≠ 0 ∧ x = 0 ∧ x ≠ 0) := by tauto
    have hb : (shift_in x m).serdes.bitcount = 8 := by simp [shift_in, hcount]
    have hi : (shift_in x m).serdes.inbuf = shl1 m.serdes.inbuf x := by
      simp only [shift_in, shl1]
    have ha : (shift_in x m).serdes.active_slave = some .spd_i2c := by simp [shift_in, hact]
    unfold cmosi2cchange
    rw [hpins, h1, h2]
    simp only [if_neg hno1, if_neg hno2]
    simp only [dispatch, hst, case_WRITE]
    simp only [hb, hi, ha]
    simp [shift_in, r2, Machine.devops, Machine.slave, I2C_SlaveOps.write, SlaveRef.ops,
      spd_write, store_pins, written, shl1, hcount, hdata, case_WRITE_result]

theorem run_write_byte (hd : Headers) (clk : Nat → Tm) (b : Nat) (rest : List (Nat × Nat))
    (m : Machine) (sl : SlaveRef) (hb : b < 256)
    (hreg : Registered m) (hact : m.serdes.active_slave = some sl)
    (hst : m.serdes.state = I2C_STATE_WRITE) (hcount : m.serdes.bitcount = 0)
    (hin : m.serdes.inbuf = 0)
    (hclk : m.serdes.oldpinstate &&& I2C_SCL ≠ 0) :
    run hd clk (send_byte b ++ rest) m
      = run hd (fun i => clk (i + 2 + 2 * 7)) rest (written sl b (bit_of b 0) m) := by
  have hx := bit_of_le b 0
  have hm : shift_bits (b >>> 1) 7 m = _ := shift_bits_succ_eq (b >>> 1) 6 m
  rw [send_byte, send_bits_succ, List.append_assoc,
    run_send_bits hd (b >>> 1) _ 7 clk m (Or.inr hst) (by omega) hclk]
  have hfall := fall_shift hd (clk (0 + 2 * 7)) (shift_bits (b >>> 1) 7 m) (bit_of b 0)
    (by rw [hm]; exact Or.inr hst)
    (by rw [hm]; simp only; rw [(pin_high _ (bit_of_le _ 0)).1]; decide)
  have hrise := rise_write hd (clk (1 + 2 * 7))
    (store_pins 0 (bit_of b 0) (release_lines (shift_bits (b >>> 1) 7 m))) sl (bit_of b 0) hx
    (by rw [hm]; exact hreg) (by rw [hm]; exact hst)
    (by rw [hm]; simp [store_pins, release_lines, hcount])
    (by simp [store_pins, (pin_low _ hx).1])
    (by simp [store_pins, release_lines])
    (by rw [hm]; exact hact)
  rw [run_pulse hd (fun i => clk (i + 2 * 7)) (bit_of b 0) rest _ _ _ hfall hrise]
  have hmeq : written sl
      (shl1 (store_pins 0 (bit_of b 0) (release_lines (shift_bits (b >>> 1) 7 m))).serdes.inbuf
        (bit_of b 0))
      (bit_of b 0) (store_pins 0 (bit_of b 0) (release_lines (shift_bits (b >>> 1) 7 m)))
      = written sl b (bit_of b 0) m := by
    rw [hm]
    simp only [store_pins, release_lines, hin, byte_shifted_in b hb, written,
      slave_write_bus]
  rw [hmeq]

/-! ### The SPD register address -/

theorem spd_in_bounds_frame (table : List Nat) : DevFrame (SpdInBounds table) := by
  intro m m' h1 h2 _ _ _ hP
  unfold SpdInBounds at hP ⊢
  rw [h1, h2]
  exact hP

theorem pcf8583_write_spd (m : Machine) (d : Nat) :
    (pcf8583_write m d).2.spd = m.spd ∧ (pcf8583_write m d).2.spd_data = m.spd_data := by
  unfold pcf8583_write
  by_cases h0 : m.pcf.state = PCF_STATE_ADDR
  · simp [h0]
  · by_cases h2 : m.pcf.state = PCF_STATE_DATA
    · by_cases hr : m.pcf.reg_address = 0x3f <;> simp [h0, h2, hr, savecmos]
    · simp [h0, h2]

theorem pcf8583_read_spd (t : Tm) (m : Machine) :
    (pcf8583_read t m).2.2.spd = m.spd ∧ (pcf8583_read t m).2.2.spd_data = m.spd_data := by
  unfold pcf8583_read
  by_cases h : m.pcf.reg_address < 0x10 <;> simp [h, cmosgettime]

theorem spd_write_reg (m : Machine) (b : Nat) :
    (spd_write m b).2.spd.reg_address = b &&& 0x7f ∧ (spd_write m b).2.spd.reg_address < 128 := by
  have h : (spd_write m b).2.spd.reg_address = (b % 256) &&& 0x7f := rfl
  rw [h, and_7f, and_7f]
  omega

theorem spd_read_reg (m : Machine) : (spd_read m).2.2.spd.reg_address < 128 := by
  have h : (spd_read m).2.2.spd.reg_address = ((m.spd.reg_address + 1) &&& 0x7f) % 256 := rfl
  rw [h, and_7f]
  omega

theorem spd_in_bounds_ops (table : List Nat) : OpsKeep (SpdInBounds table) := by
  refine ⟨?_, ?_, ?_, ?_⟩
  · intro ops m a o hP
    cases ops <;> exact hP
  · intro ops m hP
    cases ops <;> exact hP
  · intro ops m d hP
    cases ops
    · obtain ⟨h1, h2⟩ := pcf8583_write_spd m d
      unfold SpdInBounds at hP ⊢
      show (pcf8583_write m d).2.spd.reg_address < 128 ∧ (pcf8583_write m d).2.spd_data = table
      rw [h1, h2]
      exact hP
    · exact ⟨(spd_write_reg m d).2, hP.2⟩
  · intro ops t m hP
    cases ops
    · obtain ⟨h1, h2⟩ := pcf8583_read_spd t m
      unfold SpdInBounds at hP ⊢
      show (pcf8583_read t m).2.2.spd.reg_address < 128 ∧ (pcf8583_read t m).2.2.spd_data = table
      rw [h1, h2]
      exact hP
    · exact ⟨spd_read_reg m, hP.2⟩

/-! ### Reading an RTC register outside the clock registers -/

theorem pcf8583_read_plain (t : Tm) (m : Machine) (h : ¬ m.pcf.reg_address < 0x10) :
    (pcf8583_read t m).2.1 = m.cmosram m.pcf.reg_address ∧
    (pcf8583_read t m).2.2.cmosram = m.cmosram := by
  unfold pcf8583_read
  simp only [h, if_false]
  exact ⟨trivial, trivial⟩

theorem write_frame_devices (m : Machine) (d : Nat) :
    (pcf8583_write m d).2.i2c_devices = m.i2c_devices := by
  unfold pcf8583_write
  by_cases h0 : m.pcf.state = PCF_STATE_ADDR
  · simp [h0]
  · by_cases h2 : m.pcf.state = PCF_STATE_DATA
    · by_cases hr : m.pcf.reg_address = 0x3f <;> simp [h0, h2, hr, savecmos]
    · simp [h0, h2]

/-! ### Time fields, checksum frame and edge memory -/

set_option maxRecDepth 100000 in
theorem day_byte_fields : ∀ y < 4, ∀ d < 32,
    ((y <<< 6) ||| BIN2BCD d) >>> 6 = y ∧ ((y <<< 6) ||| BIN2BCD d) &&& 0x3f = BIN2BCD d := by
  decide

set_option maxRecDepth 100000 in
theorem month_byte_fields : ∀ w < 7, ∀ mo < 13,
    ((w <<< 5) ||| BIN2BCD mo) >>> 5 = w ∧ ((w <<< 5) ||| BIN2BCD mo) &&& 0x1f = BIN2BCD mo := by
  decide

/-- The store bytes 5 and 6 after `cmosgettime`. -/
theorem cmosgettime_bytes (t : Tm) (m : Machine) :
    (cmosgettime t m).cmosram 5
      = ((Int.toNat ((t.tm_year + 1900) % 4) <<< 6) ||| BIN2BCD t.tm_mday) % 256 ∧
    (cmosgettime t m).cmosram 6 = ((t.tm_wday <<< 5) ||| BIN2BCD (t.tm_mon + 1)) % 256 := by
  simp [cmosgettime, ram_set]

/-- The checksum loop reads only the addresses `checksum_offset i`. -/
theorem checksum_loop_congr (ram ram' : Nat → Nat)
    (h : ∀ i, i < 239 → ram' (checksum_offset i) = ram (checksum_offset i)) (fuel : Nat) :
    ∀ i c, checksum_loop ram' fuel i c = checksum_loop ram fuel i c := by
  induction fuel with
  | zero => intro i c; rfl
  | succ n ih =>
    intro i c
    rw [checksum_loop, checksum_loop]
    by_cases hi : i < 239
    · rw [if_pos hi, if_pos hi, h i hi, ih]
    · rw [if_neg hi, if_neg hi]

theorem checksum_offset_ne (i : Nat) (hi : i < 239) : checksum_offset i ≠ 0x3f := by
  unfold checksum_offset
  simp only []
  split_ifs <;> omega

/-- The last statement of every returning call stores the pins. -/
theorem cmosi2cchange_oldpinstate (hd : Headers) (t : Tm) (scl sda : Nat) (m m' : Machine)
    (h : cmosi2cchange hd t scl sda m = .ok m') :
    m'.serdes.oldpinstate = (scl <<< 1) ||| sda := by
  unfold cmosi2cchange at h
  simp only [] at h
  by_cases c1 : scl ≠ 0 ∧ m.serdes.oldpinstate &&& I2C_SDA ≠ 0 ∧ sda = 0
  · rw [if_pos c1] at h
    cases h
    rfl
  · rw [if_neg c1] at h
    by_cases c2 : scl ≠ 0 ∧ m.serdes.oldpinstate &&& I2C_SDA = 0 ∧ sda ≠ 0
    · rw [if_pos c2] at h
      cases hact : m.serdes.active_slave with
      | none =>
        rw [hact] at h
        cases h
        rfl
      | some sl =>
        rw [hact] at h
        simp only [] at h
        cases hdev : Machine.devops m sl with
        | error e => rw [hdev] at h; cases h
        | ok ops =>
          rw [hdev] at h
          cases h
          rfl
    · rw [if_neg c2] at h
      cases hdis : dispatch hd t (m.serdes.oldpinstate &&& I2C_SCL) scl sda m with
      | error e => rw [hdis] at h; cases h
      | ok m1 =>
        rw [hdis] at h
        cases h
        rfl

/-- A call that meets the Start test resets the state machine and enters the
Addressing state. -/
theorem cmosi2cchange_start (hd : Headers) (t : Tm) (scl sda : Nat) (m : Machine)
    (hstart : scl ≠ 0 ∧ m.serdes.oldpinstate &&& I2C_SDA ≠ 0 ∧ sda = 0) :
    cmosi2cchange hd t scl sda m
      = .ok (store_pins scl sda { reset_serdes m with
          serdes := { (reset_serdes m).serdes with state := I2C_STATE_ADDR } }) := by
  unfold cmosi2cchange
  simp only []
  rw [if_pos hstart]

/-! ### The full bus invariant -/

theorem new_oldscl (scl sda : Nat) (hscl : scl ≤ 1) (hsda : sda ≤ 1) :
    (((scl <<< 1) ||| sda) &&& I2C_SCL ≠ 0 ↔ scl ≠ 0) := by
  interval_cases scl <;> interval_cases sda <;> decide

theorem ok_IDLE (strict : Bool) (m : Machine) (hst : m.serdes.state = I2C_STATE_IDLE)
    (h1 : m.i2cdata = 1) (h2 : m.serdes.active_slave = none) (h3 : m.serdes.bitcount = 0) :
    state_ok strict m :=
  Or.inl ⟨hst, h1, h2, h3⟩

theorem ok_ADDR (strict : Bool) (m : Machine) (hst : m.serdes.state = I2C_STATE_ADDR)
    (h1 : m.serdes.bitcount ≤ 7) : state_ok strict m :=
  Or.inr (Or.inl ⟨hst, h1⟩)

theorem ok_ACK_READ (strict : Bool) (m : Machine) (hst : m.serdes.state = I2C_STATE_ACK_READ)
    (h1 : m.serdes.active_slave ≠ none) (h2 : m.serdes.bitcount = 0)
    (h3 : strict = true → m.serdes.oldpinstate &&& I2C_SCL = 0 → m.i2cdata = 1) :
    state_ok strict m :=
  Or.inr (Or.inr (Or.inl ⟨hst, h1, h2, h3⟩))

theorem ok_ACK_READ_ADDR (strict : Bool) (m : Machine)
    (hst : m.serdes.state = I2C_STATE_ACK_READ_ADDR)
    (h1 : m.serdes.active_slave ≠ none) (h2 : m.serdes.bitcount = 8) : state_ok strict m :=
  Or.inr (Or.inr (Or.inr (Or.inl ⟨hst, h1, h2⟩)))

theorem ok_ACK_WRITE (strict : Bool) (m : Machine)
    (hst : m.serdes.state = I2C_STATE_ACK_WRITE)
    (h1 : m.serdes.active_slave ≠ none) (h2 : m.serdes.bitcount = 8) : state_ok strict m :=
  Or.inr (Or.inr (Or.inr (Or.inr (Or.inl ⟨hst, h1, h2⟩))))

theorem ok_READ (strict : Bool) (m : Machine) (hst : m.serdes.state = I2C_STATE_READ)
    (h1 : m.serdes.active_slave ≠ none) (h2 : m.serdes.bitcount ≤ 8)
    (h3 : strict = true → m.serdes.oldpinstate &&& I2C_SCL ≠ 0 → 1 ≤ m.serdes.bitcount) :
    state_ok strict m :=
  Or.inr (Or.inr (Or.inr (Or.inr (Or.inr (Or.inl ⟨hst, h1, h2, h3⟩)))))

theorem ok_WRITE (strict : Bool) (m : Machine) (hst : m.serdes.state = I2C_STATE_WRITE)
    (h1 : m.serdes.active_slave ≠ none) (h2 : m.serdes.bitcount ≤ 7) : state_ok strict m :=
  Or.inr (Or.inr (Or.inr (Or.inr (Or.inr (Or.inr (Or.inl ⟨hst, h1, h2⟩))))))

theorem ok_WAIT (strict : Bool) (m : Machine) (hst : m.serdes.state = I2C_STATE_WAIT)
    (h1 : m.serdes.bitcount ≤ 8) : state_ok strict m :=
  Or.inr (Or.inr (Or.inr (Or.inr (Or.inr (Or.inr (Or.inr ⟨hst, h1⟩))))))

theorem at_IDLE (strict : Bool) (m : Machine) (h : state_ok strict m)
    (hst : m.serdes.state = I2C_STATE_IDLE) :
    m.i2cdata = 1 ∧ m.serdes.active_slave = none ∧ m.serdes.bitcount = 0 := by
  rcases h with h | h | h | h | h | h | h | h
  all_goals first
    | exact h.2
    | (exfalso; have h0 := h.1; rw [hst] at h0; revert h0; decide)

theorem at_ADDR (strict : Bool) (m : Machine) (h : state_ok strict m)
    (hst : m.serdes.state = I2C_STATE_ADDR) : m.serdes.bitcount ≤ 7 := by
  rcases h with h | h | h | h | h | h | h | h
  all_goals first
    | exact h.2
    | (exfalso; have h0 := h.1; rw [hst] at h0; revert h0; decide)

theorem at_ACK_READ (strict : Bool) (m : Machine) (h : state_ok strict m)
    (hst : m.serdes.state = I2C_STATE_ACK_READ) :
    m.serdes.active_slave ≠ none ∧ m.serdes.bitcount = 0 ∧
    (strict = true → m.serdes.oldpinstate &&& I2C_SCL = 0 → m.i2cdata = 1) := by
  rcases h with h | h | h | h | h | h | h | h
  all_goals first
    | exact h.2
    | (exfalso; have h0 := h.1; rw [hst] at h0; revert h0; decide)

theorem at_ACK_READ_ADDR (strict : Bool) (m : Machine) (h : state_ok strict m)
    (hst : m.serdes.state = I2C_STATE_ACK_READ_ADDR) :
    m.serdes.active_slave ≠ none ∧ m.serdes.bitcount = 8 := by
  rcases h with h | h | h | h | h | h | h | h
  all_goals first
    | exact h.2
    | (exfalso; have h0 := h.1; rw [hst] at h0; revert h0; decide)

theorem at_ACK_WRITE (strict : Bool) (m : Machine) (h : state_ok strict m)
    (hst : m.serdes.state = I2C_STATE_ACK_WRITE) :
    m.serdes.active_slave ≠ none ∧ m.serdes.bitcount = 8 := by
  rcases h with h | h | h | h | h | h | h | h
  all_goals first
    | exact h.2
    | (exfalso; have h0 := h.1; rw [hst] at h0; revert h0; decide)

theorem at_READ (strict : Bool) (m : Machine) (h : state_ok strict m)
    (hst : m.serdes.state = I2C_STATE_READ) :
    m.serdes.active_slave ≠ none ∧ m.serdes.bitcount ≤ 8 ∧
    (strict = true → m.serdes.oldpinstate &&& I2C_SCL ≠ 0 → 1 ≤ m.serdes.bitcount) := by
  rcases h with h | h | h | h | h | h | h | h
  all_goals first
    | exact h.2
    | (exfalso; have h0 := h.1; rw [hst] at h0; revert h0; decide)

theorem at_WRITE (strict : Bool) (m : Machine) (h : state_ok strict m)
    (hst : m.serdes.state = I2C_STATE_WRITE) :
    m.serdes.active_slave ≠ none ∧ m.serdes.bitcount ≤ 7 := by
  rcases h with h | h | h | h | h | h | h | h
  all_goals first
    | exact h.2
    | (exfalso; have h0 := h.1; rw [hst] at h0; revert h0; decide)

/-- The states that `state_ok` allows: the nine states of the switch except
NackWrite. -/
theorem state_ok_states (strict : Bool) (m : Machine) (h : state_ok strict m) :
    m.serdes.state = I2C_STATE_IDLE ∨ m.serdes.state = I2C_STATE_ADDR ∨
    m.serdes.state = I2C_STATE_ACK_READ ∨ m.serdes.state = I2C_STATE_ACK_READ_ADDR ∨
    m.serdes.state = I2C_STATE_ACK_WRITE ∨ m.serdes.state = I2C_STATE_READ ∨
    m.serdes.state = I2C_STATE_WRITE ∨ m.serdes.state = I2C_STATE_WAIT := by
  rcases h with h | h | h | h | h | h | h | h
  · exact Or.inl h.1
  · exact Or.inr (Or.inl h.1)
  · exact Or.inr (Or.inr (Or.inl h.1))
  · exact Or.inr (Or.inr (Or.inr (Or.inl h.1)))
  · exact Or.inr (Or.inr (Or.inr (Or.inr (Or.inl h.1))))
  · exact Or.inr (Or.inr (Or.inr (Or.inr (Or.inr (Or.inl h.1)))))
  · exact Or.inr (Or.inr (Or.inr (Or.inr (Or.inr (Or.inr (Or.inl h.1))))))
  · exact Or.inr (Or.inr (Or.inr (Or.inr (Or.inr (Or.inr (Or.inr h.1))))))

theorem state_ok_bitcount (strict : Bool) (m : Machine) (h : state_ok strict m) :
    m.serdes.bitcount ≤ 8 := by
  rcases h with h | h | h | h | h | h | h | h
  · rw [h.2.2.2]; decide
  · exact Nat.le_trans h.2 (by decide)
  · rw [h.2.2.1]; decide
  · rw [h.2.2]
  · rw [h.2.2]
  · exact h.2.2.1
  · exact Nat.le_trans h.2.2 (by decide)
  · exact h.2

theorem not_wait (s : Nat) (hs : s ≠ I2C_STATE_WAIT) (P : Prop) :
    s = I2C_STATE_WAIT → P :=
  fun h => absurd h hs

/-- What the operations of a responder leave alone: the state machine record,
the pins, the registry, and the watched part of the record of effects. -/
theorem start_bus (strict : Bool) (ops : I2C_SlaveOps) (m : Machine) (a o : Nat) :
    ∃ m2, ops.start m a o = (I2C_ACK, m2) ∧
      m2.serdes = m.serdes ∧ m2.pcf8583 = m.pcf8583 ∧ m2.spd_i2c = m.spd_i2c ∧
      m2.i2cclock = m.i2cclock ∧ m2.i2cdata = m.i2cdata ∧
      m2.effects.filter (watched strict) = m.effects.filter (watched strict) := by
  cases ops
  · refine ⟨_, rfl, rfl, rfl, rfl, rfl, rfl, ?_⟩
    simp [List.filter_append, watched]
  · refine ⟨_, rfl, rfl, rfl, rfl, rfl, rfl, ?_⟩
    simp [List.filter_append, watched]

theorem stop_bus (strict : Bool) (ops : I2C_SlaveOps) (m : Machine) :
    (ops.stop m).serdes = m.serdes ∧
    (ops.stop m).pcf8583 = m.pcf8583 ∧ (ops.stop m).spd_i2c = m.spd_i2c ∧
    (ops.stop m).i2cclock = m.i2cclock ∧ (ops.stop m).i2cdata = m.i2cdata ∧
    (ops.stop m).effects.filter (watched strict) = m.effects.filter (watched strict) := by
  cases ops
  · refine ⟨rfl, rfl, rfl, rfl, rfl, ?_⟩
    simp [I2C_SlaveOps.stop, pcf8583_stop, List.filter_append, watched]
  · refine ⟨rfl, rfl, rfl, rfl, rfl, ?_⟩
    simp [I2C_SlaveOps.stop, spd_stop, List.filter_append, watched]

theorem write_bus (strict : Bool) (ops : I2C_SlaveOps) (m : Machine) (d : Nat) :
    ∃ m2, ops.write m d = (I2C_ACK, m2) ∧
      m2.serdes = m.serdes ∧ m2.pcf8583 = m.pcf8583 ∧ m2.spd_i2c = m.spd_i2c ∧
      m2.i2cclock = m.i2cclock ∧ m2.i2cdata = m.i2cdata ∧
      m2.effects.filter (watched strict) = m.effects.filter (watched strict) := by
  cases ops
  · refine ⟨(pcf8583_write m d).2, ?_, ?_, ?_, ?_, ?_, ?_, ?_⟩ <;>
      · try simp only [I2C_SlaveOps.write]
        unfold pcf8583_write
        by_cases h0 : m.pcf.state = PCF_STATE_ADDR
        · simp [h0, List.filter_append, watched]
        · by_cases h2 : m.pcf.state = PCF_STATE_DATA
          · by_cases hr : m.pcf.reg_address = 0x3f <;>
              simp [h0, h2, hr, savecmos, List.filter_append, watched]
          · simp [h0, h2, List.filter_append, watched]
  · refine ⟨_, rfl, rfl, rfl, rfl, rfl, rfl, ?_⟩
    simp [List.filter_append, watched]

theorem read_bus (strict : Bool) (ops : I2C_SlaveOps) (t : Tm) (m : Machine) :
    (ops.read t m).2.2.serdes = m.serdes ∧
    (ops.read t m).2.2.pcf8583 = m.pcf8583 ∧ (ops.read t m).2.2.spd_i2c = m.spd_i2c ∧
    (ops.read t m).2.2.i2cclock = m.i2cclock ∧ (ops.read t m).2.2.i2cdata = m.i2cdata ∧
    (ops.read t m).2.2.effects.filter (watched strict)
      = m.effects.filter (watched strict) := by
  cases ops
  · simp only [I2C_SlaveOps.read]
    unfold pcf8583_read
    by_cases h : m.pcf.reg_address < 0x10 <;>
      simp [h, cmosgettime, List.filter_append, watched]
  · refine ⟨rfl, rfl, rfl, rfl, rfl, ?_⟩
    simp [I2C_SlaveOps.read, spd_read, List.filter_append, watched]

theorem wf_reseti2c (strict : Bool) (mask : Nat) (m : Machine) :
    BusWF strict m.effects (reseti2c mask m) :=
  ⟨⟨rfl, rfl⟩, rfl, rfl, ok_IDLE strict _ rfl rfl rfl rfl⟩

theorem wait_extra (m m' : Machine) (sda k : Nat) (hk : k ≠ I2C_STATE_WAIT)
    (hs : m'.serdes.state = k) :
    m'.serdes.state = I2C_STATE_WAIT →
      m.serdes.state = I2C_STATE_WAIT ∨ (m.serdes.state = I2C_STATE_ACK_READ ∧ sda ≠ 0) :=
  fun hw => absurd (hs.symm.trans hw) hk

/-- The branch of `case_ADDR` taken once a responder `sl` is found, from a
state `M` with eight bits received. -/
theorem wf_addr_found (strict : Bool) (E0 : List Effect) (scl sda : Nat) (m M : Machine)
    (sl : SlaveRef) (hreg : Registered M)
    (heff : M.effects.filter (watched strict) = E0.filter (watched strict))
    (hbc : M.serdes.bitcount = 8) :
    StepWF strict E0 scl sda m
      (match M.devops sl with
        | .error e => .error e
        | .ok ops =>
          let (result, m) :=
            if M.serdes.inbuf &&& 1 ≠ 0 then
              ops.start { M with serdes := { M.serdes with state := I2C_STATE_ACK_READ_ADDR } }
                M.serdes.address I2C_READ
            else
              ops.start { M with serdes := { M.serdes with state := I2C_STATE_ACK_WRITE } }
                M.serdes.address I2C_WRITE
          if result = I2C_ACK then
            .ok (release_lines { m with serdes := { m.serdes with active_slave := some sl } })
          else if result = I2C_NACK then
            let m := release_lines m
            .ok { m with serdes := { m.serdes with state := I2C_STATE_WAIT } }
          else .ok m : Except Fault Machine) := by
  rw [devops_registered M sl hreg]
  obtain ⟨r1, r2⟩ := hreg
  by_cases hdir : M.serdes.inbuf &&& 1 ≠ 0
  · obtain ⟨m2, hs, h1, h2, h3, _, _, h6⟩ := start_bus strict sl.ops
      { M with serdes := { M.serdes with state := I2C_STATE_ACK_READ_ADDR } }
      M.serdes.address I2C_READ
    simp only [if_pos hdir, hs, if_true]
    have hst2 : m2.serdes.state = I2C_STATE_ACK_READ_ADDR := by rw [h1]
    have hbc2 : m2.serdes.bitcount = 8 := by rw [h1]; exact hbc
    refine ⟨_, rfl, ⟨⟨h2.trans r1, h3.trans r2⟩, rfl, h6.trans heff, ?_⟩, ?_⟩
    · exact ok_ACK_READ_ADDR strict _ hst2 (fun hn => Option.noConfusion hn) hbc2
    · exact wait_extra m _ sda I2C_STATE_ACK_READ_ADDR (by decide) hst2
  · obtain ⟨m2, hs, h1, h2, h3, _, _, h6⟩ := start_bus strict sl.ops
      { M with serdes := { M.serdes with state := I2C_STATE_ACK_WRITE } }
      M.serdes.address I2C_WRITE
    simp only [if_neg hdir, hs, if_true]
    have hst2 : m2.serdes.state = I2C_STATE_ACK_WRITE := by rw [h1]
    have hbc2 : m2.serdes.bitcount = 8 := by rw [h1]; exact hbc
    refine ⟨_, rfl, ⟨⟨h2.trans r1, h3.trans r2⟩, rfl, h6.trans heff, ?_⟩, ?_⟩
    · exact ok_ACK_WRITE strict _ hst2 (fun hn => Option.noConfusion hn) hbc2
    · exact wait_extra m _ sda I2C_STATE_ACK_WRITE (by decide) hst2

theorem wf_case_ADDR (strict : Bool) (E0 : List Effect) (hd : Headers) (scl sda : Nat)
    (m : Machine) (h : BusWF strict E0 m) (hst : m.serdes.state = I2C_STATE_ADDR) :
    StepWF strict E0 scl sda m
      (case_ADDR hd (m.serdes.oldpinstate &&& I2C_SCL) scl sda m) := by
  obtain ⟨hreg, hclk, heff, hok⟩ := h
  have hbc := at_ADDR strict m hok hst
  unfold case_ADDR
  by_cases c1 : m.serdes.oldpinstate &&& I2C_SCL ≠ 0 ∧ scl = 0
  · rw [if_pos c1]
    exact ⟨_, rfl, ⟨hreg, rfl, heff, ok_ADDR strict _ hst hbc⟩,
      wait_extra m _ sda I2C_STATE_ADDR (by decide) hst⟩
  · rw [if_neg c1]
    by_cases c2 : m.serdes.oldpinstate &&& I2C_SCL = 0 ∧ scl ≠ 0
    · rw [if_pos c2]
      by_cases c3 : (shift_in sda m).serdes.bitcount = 8
      · simp only [if_pos c3]
        by_cases cA : ((shift_in sda m).serdes.inbuf >>> 1 = (shift_in sda m).pcf8583.address ∧
            (shift_in sda m).i2c_devices &&& hd.I2C_PCF8583 ≠ 0)
        · simp only [if_pos cA]
          exact wf_addr_found strict E0 scl sda m _ .pcf8583 hreg heff c3
        · simp only [if_neg cA]
          by_cases cB : ((shift_in sda m).serdes.inbuf >>> 1 = (shift_in sda m).spd_i2c.address ∧
              (shift_in sda m).i2c_devices &&& hd.I2C_SPD_DIMM0 ≠ 0)
          · simp only [if_pos cB]
            exact wf_addr_found strict E0 scl sda m _ .spd_i2c hreg heff c3
          · simp only [if_neg cB]
            exact ⟨_, rfl, ⟨hreg, rfl, heff, ok_IDLE strict _ rfl rfl rfl rfl⟩,
              wait_extra m _ sda I2C_STATE_IDLE (by decide) rfl⟩
      · simp only [if_neg c3]
        have hbc1 : (shift_in sda m).serdes.bitcount ≤ 7 := by
          have e : (shift_in sda m).serdes.bitcount = m.serdes.bitcount + 1 := rfl
          rw [e] at c3 ⊢
          omega
        exact ⟨_, rfl, ⟨hreg, hclk, heff, ok_ADDR strict _ hst hbc1⟩,
          wait_extra m _ sda I2C_STATE_ADDR (by decide) hst⟩
    · rw [if_neg c2]
      exact ⟨_, rfl, ⟨hreg, hclk, heff, ok_ADDR strict _ hst hbc⟩,
        wait_extra m _ sda I2C_STATE_ADDR (by decide) hst⟩

theorem wf_case_ACK_READ_ADDR (strict : Bool) (E0 : List Effect) (scl sda : Nat)
    (m : Machine) (h : BusWF strict E0 m)
    (hst : m.serdes.state = I2C_STATE_ACK_READ_ADDR) :
    StepWF strict E0 scl sda m
      (case_ACK_READ_ADDR (m.serdes.oldpinstate &&& I2C_SCL) scl m) := by
  obtain ⟨hreg, hclk, heff, hok⟩ := h
  obtain ⟨hact, hbc⟩ := at_ACK_READ_ADDR strict m hok hst
  unfold case_ACK_READ_ADDR
  by_cases c1 : m.serdes.oldpinstate &&& I2C_SCL ≠ 0 ∧ scl = 0
  · rw [if_pos c1]
    exact ⟨_, rfl, ⟨hreg, rfl, heff, ok_ACK_READ_ADDR strict _ hst hact hbc⟩,
      wait_extra m _ sda I2C_STATE_ACK_READ_ADDR (by decide) hst⟩
  · rw [if_neg c1]
    by_cases c2 : m.serdes.oldpinstate &&& I2C_SCL = 0 ∧ scl ≠ 0
    · rw [if_pos c2]
      exact ⟨_, rfl,
        ⟨hreg, hclk, heff, ok_READ strict _ rfl hact (Nat.le_refl 8)
          (fun _ _ => show 1 ≤ 8 by decide)⟩,
        wait_extra m _ sda I2C_STATE_READ (by decide) rfl⟩
    · rw [if_neg c2]
      exact ⟨_, rfl, ⟨hreg, hclk, heff, ok_ACK_READ_ADDR strict _ hst hact hbc⟩,
        wait_extra m _ sda I2C_STATE_ACK_READ_ADDR (by decide) hst⟩

theorem wf_case_ACK_WRITE (strict : Bool) (E0 : List Effect) (scl sda : Nat)
    (m : Machine) (h : BusWF strict E0 m)
    (hst : m.serdes.state = I2C_STATE_ACK_WRITE) :
    StepWF strict E0 scl sda m
      (case_ACK_WRITE (m.serdes.oldpinstate &&& I2C_SCL) scl m) := by
  obtain ⟨hreg, hclk, heff, hok⟩ := h
  obtain ⟨hact, hbc⟩ := at_ACK_WRITE strict m hok hst
  unfold case_ACK_WRITE
  by_cases c1 : m.serdes.oldpinstate &&& I2C_SCL ≠ 0 ∧ scl = 0
  · rw [if_pos c1]
    have c3 : ¬ (m.serdes.state = I2C_STATE_NACK_WRITE) := by rw [hst]; decide
    simp only [if_neg c3]
    exact ⟨_, rfl, ⟨hreg, rfl, heff, ok_ACK_WRITE strict _ hst hact hbc⟩,
      wait_extra m _ sda I2C_STATE_ACK_WRITE (by decide) hst⟩
  · rw [if_neg c1]
    by_cases c2 : m.serdes.oldpinstate &&& I2C_SCL = 0 ∧ scl ≠ 0
    · rw [if_pos c2]
      exact ⟨_, rfl, ⟨hreg, hclk, heff, ok_WRITE strict _ rfl hact (show 0 ≤ 7 by decide)⟩,
        wait_extra m _ sda I2C_STATE_WRITE (by decide) rfl⟩
    · rw [if_neg c2]
      exact ⟨_, rfl, ⟨hreg, hclk, heff, ok_ACK_WRITE strict _ hst hact hbc⟩,
        wait_extra m _ sda I2C_STATE_ACK_WRITE (by decide) hst⟩

theorem wf_case_WRITE (strict : Bool) (E0 : List Effect) (scl sda : Nat)
    (m : Machine) (h : BusWF strict E0 m)
    (hst : m.serdes.state = I2C_STATE_WRITE) :
    StepWF strict E0 scl sda m
      (case_WRITE (m.serdes.oldpinstate &&& I2C_SCL) scl sda m) := by
  obtain ⟨hreg, hclk, heff, hok⟩ := h
  obtain ⟨hact, hbc⟩ := at_WRITE strict m hok hst
  unfold case_WRITE
  by_cases c1 : m.serdes.oldpinstate &&& I2C_SCL ≠ 0 ∧ scl = 0
  · rw [if_pos c1]
    exact ⟨_, rfl, ⟨hreg, rfl, heff, ok_WRITE strict _ hst hact hbc⟩,
      wait_extra m _ sda I2C_STATE_WRITE (by decide) hst⟩
  · rw [if_neg c1]
    by_cases c2 : m.serdes.oldpinstate &&& I2C_SCL = 0 ∧ scl ≠ 0
    · rw [if_pos c2]
      by_cases c3 : (shift_in sda m).serdes.bitcount = 8
      · simp only [if_pos c3]
        rcases hsl : m.serdes.active_slave with _ | sl
        · exact absurd hsl hact
        · have hsl1 : (shift_in sda m).serdes.active_slave = some sl := hsl
          simp only [hsl1]
          rw [devops_registered _ sl (show Registered (shift_in sda m) from hreg)]
          obtain ⟨m2, hw, h1, h2, h3, _, _, h6⟩ :=
            write_bus strict sl.ops (shift_in sda m) (shift_in sda m).serdes.inbuf
          simp only [hw, if_true]
          have hact2 : m2.serdes.active_slave ≠ none := by
            rw [h1, hsl1]; exact fun hn => Option.noConfusion hn
          have hbc2 : m2.serdes.bitcount = 8 := by rw [h1]; exact c3
          exact ⟨_, rfl,
            ⟨⟨h2.trans hreg.1, h3.trans hreg.2⟩, rfl, h6.trans heff,
              ok_ACK_WRITE strict _ rfl hact2 hbc2⟩,
            wait_extra m _ sda I2C_STATE_ACK_WRITE (by decide) rfl⟩
      · simp only [if_neg c3]
        have hbc1 : (shift_in sda m).serdes.bitcount ≤ 7 := by
          have e : (shift_in sda m).serdes.bitcount = m.serdes.bitcount + 1 := rfl
          rw [e] at c3 ⊢
          omega
        exact ⟨_, rfl, ⟨hreg, hclk, heff, ok_WRITE strict _ hst hact hbc1⟩,
          wait_extra m _ sda I2C_STATE_WRITE (by decide) hst⟩
    · rw [if_neg c2]
      exact ⟨_, rfl, ⟨hreg, hclk, heff, ok_WRITE strict _ hst hact hbc⟩,
        wait_extra m _ sda I2C_STATE_WRITE (by decide) hst⟩

theorem watched_bug_append (strict : Bool) (es : List Effect) (b : Bug)
    (hb : watched strict (Effect.bug b) = false) :
    (es ++ [Effect.bug b]).filter (watched strict) = es.filter (watched strict) := by
  rw [List.filter_append]
  simp [hb]

theorem wf_case_ACK_READ (strict : Bool) (E0 : List Effect) (scl sda : Nat)
    (m : Machine) (h : BusWF strict E0 m)
    (hb : strict = true → scl ≤ 1 ∧ sda ≤ 1)
    (hst : m.serdes.state = I2C_STATE_ACK_READ) :
    StepWF strict E0 scl sda m
      (case_ACK_READ (m.serdes.oldpinstate &&& I2C_SCL) scl sda m) := by
  obtain ⟨hreg, hclk, heff, hok⟩ := h
  obtain ⟨hact, hbc, hg⟩ := at_ACK_READ strict m hok hst
  have hbc8 : m.serdes.bitcount ≤ 8 := by rw [hbc]; decide
  unfold case_ACK_READ
  by_cases c1 : m.serdes.oldpinstate &&& I2C_SCL ≠ 0 ∧ scl = 0
  · rw [if_pos c1]
    exact ⟨_, rfl, ⟨hreg, rfl, heff, ok_ACK_READ strict _ hst hact hbc (fun _ _ => rfl)⟩,
      wait_extra m _ sda I2C_STATE_ACK_READ (by decide) hst⟩
  · rw [if_neg c1]
    by_cases c2 : m.serdes.oldpinstate &&& I2C_SCL = 0 ∧ scl ≠ 0
    · rw [if_pos c2]
      rcases hsl : m.serdes.active_slave with _ | sl
      · exact absurd hsl hact
      · simp only []
        by_cases c3 : sda ≠ 0
        · simp only [if_pos c3]
          rw [devops_registered _ sl (show Registered
            { m with serdes := { m.serdes with state := I2C_STATE_WAIT } } from hreg)]
          have hnone : sl.ops.read_ack = none := by cases sl <;> rfl
          simp only [hnone]
          by_cases hd0 : m.i2cdata = 0
          · rw [if_pos hd0]
            have hw : watched strict (Effect.bug Bug.emulator_bug) = false := by
              cases strict
              · rfl
              · exact absurd (hg rfl c2.1) (by rw [hd0]; decide)
            exact ⟨_, rfl,
              ⟨hreg, hclk, (watched_bug_append strict m.effects _ hw).trans heff,
                ok_WAIT strict _ rfl hbc8⟩,
              fun _ => Or.inr ⟨hst, c3⟩⟩
          · rw [if_neg hd0]
            exact ⟨_, rfl, ⟨hreg, hclk, heff, ok_WAIT strict _ rfl hbc8⟩,
              fun _ => Or.inr ⟨hst, c3⟩⟩
        · simp only [if_neg c3]
          rw [devops_registered _ sl hreg]
          have hnone : sl.ops.read_ack = none := by cases sl <;> rfl
          simp only [hnone]
          have hact2 : (some sl : Option SlaveRef) ≠ none := fun hn => Option.noConfusion hn
          exact ⟨_, rfl,
            ⟨hreg, hclk, heff, ok_READ strict _ rfl (by rw [← hsl] at hact2; exact hact2)
              (Nat.le_refl 8) (fun _ _ => show 1 ≤ 8 by decide)⟩,
            wait_extra m _ sda I2C_STATE_READ (by decide) rfl⟩
    · rw [if_neg c2]
      refine ⟨_, rfl, ⟨hreg, hclk, heff, ok_ACK_READ strict _ hst hact hbc ?_⟩,
        wait_extra m _ sda I2C_STATE_ACK_READ (by decide) hst⟩
      intro hs hn
      obtain ⟨hscl, hsda⟩ := hb hs
      have hscl0 : scl = 0 := by
        by_contra hne
        exact ((new_oldscl scl sda hscl hsda).mpr hne) hn
      have ho : m.serdes.oldpinstate &&& I2C_SCL = 0 := by
        by_contra hne
        exact c1 ⟨hne, hscl0⟩
      exact hg hs ho

theorem wf_case_READ (strict : Bool) (E0 : List Effect) (t : Tm) (scl sda : Nat)
    (m : Machine) (h : BusWF strict E0 m)
    (hb : strict = true → scl ≤ 1 ∧ sda ≤ 1)
    (hst : m.serdes.state = I2C_STATE_READ) :
    StepWF strict E0 scl sda m
      (case_READ t (m.serdes.oldpinstate &&& I2C_SCL) scl m) := by
  obtain ⟨hreg, hclk, heff, hok⟩ := h
  obtain ⟨hact, hbc, hg⟩ := at_READ strict m hok hst
  have hrest : scl = 0 → ∀ m1 : Machine, Registered m1 →
      m1.effects.filter (watched strict) = E0.filter (watched strict) →
      m1.serdes.state = I2C_STATE_READ → m1.serdes.active_slave ≠ none →
      m1.serdes.bitcount ≤ 8 → (strict = true → 1 ≤ m1.serdes.bitcount) →
      m1.i2cclock = 1 →
      StepWF strict E0 scl sda m
        (if m1.serdes.bitcount > 0 then
          let m := { m1 with serdes := { m1.serdes with bitcount := m1.serdes.bitcount - 1 } }
          let m := { m with i2cclock := 1, i2cdata := 0 }
          if m.serdes.outbuf &&& (1 <<< m.serdes.bitcount) ≠ 0 then
            .ok { m with i2cdata := 1 }
          else .ok m
        else
          .ok { m1 with effects := m1.effects ++ [Effect.bug .bitcount_le_0] } :
            Except Fault Machine) := by
    intro hscl0 m1 hreg1 heff1 hst1 hact1 hbc1 hg1 hclk1
    have hguard : ∀ k : Nat, strict = true →
        ((scl <<< 1) ||| sda) &&& I2C_SCL ≠ 0 → 1 ≤ k := by
      intro k hs hn
      obtain ⟨hscl, hsda⟩ := hb hs
      exact absurd hscl0 ((new_oldscl scl sda hscl hsda).mp hn)
    by_cases c4 : m1.serdes.bitcount > 0
    · rw [if_pos c4]
      have hbc2 : m1.serdes.bitcount - 1 ≤ 8 := by omega
      by_cases c5 : m1.serdes.outbuf &&& (1 <<< (m1.serdes.bitcount - 1)) ≠ 0
      · simp only [if_pos c5]
        exact ⟨_, rfl,
          ⟨hreg1, rfl, heff1, ok_READ strict _ hst1 hact1 hbc2 (hguard _)⟩,
          wait_extra m _ sda I2C_STATE_READ (by decide) hst1⟩
      · simp only [if_neg c5]
        exact ⟨_, rfl,
          ⟨hreg1, rfl, heff1, ok_READ strict _ hst1 hact1 hbc2 (hguard _)⟩,
          wait_extra m _ sda I2C_STATE_READ (by decide) hst1⟩
    · rw [if_neg c4]
      have hw : watched strict (Effect.bug Bug.bitcount_le_0) = false := by
        cases strict
        · rfl
        · exact absurd (hg1 rfl) (by omega)
      exact ⟨_, rfl,
        ⟨hreg1, hclk1, (watched_bug_append strict m1.effects _ hw).trans heff1,
          ok_READ strict _ hst1 hact1 hbc1 (hguard _)⟩,
        wait_extra m _ sda I2C_STATE_READ (by decide) hst1⟩
  unfold case_READ
  by_cases c1 : m.serdes.oldpinstate &&& I2C_SCL ≠ 0 ∧ scl = 0
  · rw [if_pos c1]
    by_cases c3 : m.serdes.bitcount = 8
    · simp only [if_pos c3]
      rcases hsl : m.serdes.active_slave with _ | sl
      · exact absurd hsl hact
      · simp only []
        rw [devops_registered _ sl hreg]
        obtain ⟨h1, h2, h3, h4, _, h6⟩ := read_bus strict sl.ops t m
        have s1 : (sl.ops.read t m).2.2.serdes.state = I2C_STATE_READ := by rw [h1]; exact hst
        have s2 : (sl.ops.read t m).2.2.serdes.active_slave ≠ none := by rw [h1]; exact hact
        have s3 : (sl.ops.read t m).2.2.serdes.bitcount = 8 := by rw [h1]; exact c3
        exact hrest c1.2
          { (sl.ops.read t m).2.2 with serdes :=
              { (sl.ops.read t m).2.2.serdes with outbuf := (sl.ops.read t m).2.1 % 256 } }
          ⟨h2.trans hreg.1, h3.trans hreg.2⟩ (h6.trans heff) s1 s2
          (show (sl.ops.read t m).2.2.serdes.bitcount ≤ 8 by rw [s3])
          (fun _ => show 1 ≤ (sl.ops.read t m).2.2.serdes.bitcount by rw [s3]; decide)
          (h4.trans hclk)
    · simp only [if_neg c3]
      exact hrest c1.2 m hreg heff hst hact hbc (fun hs => hg hs c1.1) hclk
  · rw [if_neg c1]
    by_cases c2 : m.serdes.oldpinstate &&& I2C_SCL = 0 ∧ scl ≠ 0
    · rw [if_pos c2]
      by_cases c6 : m.serdes.bitcount = 0
      · rw [if_pos c6]
        refine ⟨_, rfl, ⟨hreg, hclk, heff, ok_ACK_READ strict _ rfl hact c6 ?_⟩,
          wait_extra m _ sda I2C_STATE_ACK_READ (by decide) rfl⟩
        intro hs hn
        obtain ⟨hscl, hsda⟩ := hb hs
        exact absurd hn ((new_oldscl scl sda hscl hsda).mpr c2.2)
      · rw [if_neg c6]
        exact ⟨_, rfl,
          ⟨hreg, hclk, heff, ok_READ strict _ hst hact hbc
            (fun _ _ => show 1 ≤ m.serdes.bitcount by omega)⟩,
          wait_extra m _ sda I2C_STATE_READ (by decide) hst⟩
    · rw [if_neg c2]
      refine ⟨_, rfl, ⟨hreg, hclk, heff, ok_READ strict _ hst hact hbc ?_⟩,
        wait_extra m _ sda I2C_STATE_READ (by decide) hst⟩
      intro hs hn
      obtain ⟨hscl, hsda⟩ := hb hs
      have hscl1 : scl ≠ 0 := (new_oldscl scl sda hscl hsda).mp hn
      have ho : m.serdes.oldpinstate &&& I2C_SCL ≠ 0 := by
        intro h0
        exact c2 ⟨h0, hscl1⟩
      exact hg hs ho

theorem wf_dispatch (strict : Bool) (E0 : List Effect) (hd : Headers) (t : Tm)
    (scl sda : Nat) (m : Machine) (h : BusWF strict E0 m)
    (hb : strict = true → scl ≤ 1 ∧ sda ≤ 1) :
    StepWF strict E0 scl sda m
      (dispatch hd t (m.serdes.oldpinstate &&& I2C_SCL) scl sda m) := by
  unfold dispatch
  by_cases s0 : m.serdes.state = I2C_STATE_IDLE
  · rw [if_pos s0]
    obtain ⟨hreg, hclk, heff, hok⟩ := h
    obtain ⟨_, i2, i3⟩ := at_IDLE strict m hok s0
    exact ⟨_, rfl, ⟨hreg, rfl, heff, ok_IDLE strict _ s0 rfl i2 i3⟩,
      wait_extra m _ sda I2C_STATE_IDLE (by decide) s0⟩
  rw [if_neg s0]
  by_cases s1 : m.serdes.state = I2C_STATE_ADDR
  · rw [if_pos s1]
    exact wf_case_ADDR strict E0 hd scl sda m h s1
  rw [if_neg s1]
  by_cases s3 : m.serdes.state = I2C_STATE_ACK_READ_ADDR
  · rw [if_pos s3]
    exact wf_case_ACK_READ_ADDR strict E0 scl sda m h s3
  rw [if_neg s3]
  by_cases s2 : m.serdes.state = I2C_STATE_ACK_READ
  · rw [if_pos s2]
    exact wf_case_ACK_READ strict E0 scl sda m h hb s2
  rw [if_neg s2]
  by_cases s4 : m.serdes.state = I2C_STATE_ACK_WRITE ∨ m.serdes.state = I2C_STATE_NACK_WRITE
  · rw [if_pos s4]
    rcases state_ok_states strict m h.2.2.2 with k | k | k | k | k | k | k | k
    · exact absurd k s0
    · exact absurd k s1
    · exact absurd k s2
    · exact absurd k s3
    · exact wf_case_ACK_WRITE strict E0 scl sda m h k
    · rcases s4 with s4 | s4 <;> (rw [k] at s4; exact absurd s4 (by decide))
    · rcases s4 with s4 | s4 <;> (rw [k] at s4; exact absurd s4 (by decide))
    · rcases s4 with s4 | s4 <;> (rw [k] at s4; exact absurd s4 (by decide))
  rw [if_neg s4]
  by_cases s6 : m.serdes.state = I2C_STATE_READ
  · rw [if_pos s6]
    exact wf_case_READ strict E0 t scl sda m h hb s6
  rw [if_neg s6]
  by_cases s7 : m.serdes.state = I2C_STATE_WRITE
  · rw [if_pos s7]
    exact wf_case_WRITE strict E0 scl sda m h s7
  rw [if_neg s7]
  by_cases s8 : m.serdes.state = I2C_STATE_WAIT
  · rw [if_pos s8]
    obtain ⟨hreg, hclk, heff, hok⟩ := h
    have hbc := state_ok_bitcount strict m hok
    exact ⟨_, rfl, ⟨hreg, hclk, heff, ok_WAIT strict _ s8 hbc⟩, fun hw => Or.inl hw⟩
  · exfalso
    rcases state_ok_states strict m h.2.2.2 with k | k | k | k | k | k | k | k
    · exact s0 k
    · exact s1 k
    · exact s2 k
    · exact s3 k
    · exact s4 (Or.inl k)
    · exact s6 k
    · exact s7 k
    · exact s8 k

/-- One call of `cmosi2cchange` from a state that satisfies the invariant
returns a state that satisfies it; when `strict` is set the pin values of the
call are 0 or 1. -/
theorem wf_step (strict : Bool) (E0 : List Effect) (hd : Headers) (t : Tm)
    (scl sda : Nat) (m : Machine) (h : BusWF strict E0 m)
    (hb : strict = true → scl ≤ 1 ∧ sda ≤ 1) :
    ∃ m', cmosi2cchange hd t scl sda m = .ok m' ∧ BusWF strict E0 m' ∧
      (m'.serdes.state = I2C_STATE_WAIT →
        m.serdes.state = I2C_STATE_WAIT ∨ (m.serdes.state = I2C_STATE_ACK_READ ∧ sda ≠ 0)) := by
  by_cases c1 : scl ≠ 0 ∧ m.serdes.oldpinstate &&& I2C_SDA ≠ 0 ∧ sda = 0
  · refine ⟨_, cmosi2cchange_start hd t scl sda m c1,
      ⟨h.1, rfl, h.2.2.1, ok_ADDR strict _ rfl (show 0 ≤ 7 by decide)⟩,
      wait_extra m _ sda I2C_STATE_ADDR (by decide) rfl⟩
  · by_cases c2 : scl ≠ 0 ∧ m.serdes.oldpinstate &&& I2C_SDA = 0 ∧ sda ≠ 0
    · unfold cmosi2cchange
      simp only []
      rw [if_neg c1, if_pos c2]
      rcases hsl : m.serdes.active_slave with _ | sl
      · simp only []
        exact ⟨_, rfl, ⟨h.1, rfl, h.2.2.1, ok_IDLE strict _ rfl rfl rfl rfl⟩,
          wait_extra m _ sda I2C_STATE_IDLE (by decide) rfl⟩
      · simp only []
        rw [devops_registered m sl h.1]
        simp only []
        obtain ⟨_, h2, h3, _, _, h6⟩ := stop_bus strict sl.ops m
        exact ⟨_, rfl,
          ⟨⟨h2.trans h.1.1, h3.trans h.1.2⟩, rfl, h6.trans h.2.2.1,
            ok_IDLE strict _ rfl rfl rfl rfl⟩,
          wait_extra m _ sda I2C_STATE_IDLE (by decide) rfl⟩
    · rw [cmosi2cchange_plain hd t scl sda m c1 c2]
      obtain ⟨m1, hd1, hwf, hw⟩ := wf_dispatch strict E0 hd t scl sda m h hb
      rw [hd1]
      exact ⟨_, rfl, hwf, hw⟩

/-- Every sequence of calls from a state that satisfies the invariant returns
a state that satisfies it. -/
theorem wf_run (strict : Bool) (E0 : List Effect) (hd : Headers) (evs : List (Nat × Nat))
    (hb : strict = true → boolean_pins evs) :
    ∀ (clk : Nat → Tm) (m : Machine), BusWF strict E0 m →
      ∃ m', run hd clk evs m = .ok m' ∧ BusWF strict E0 m' := by
  induction evs with
  | nil => intro clk m h; exact ⟨m, rfl, h⟩
  | cons ev evs ih =>
    intro clk m h
    obtain ⟨scl, sda⟩ := ev
    obtain ⟨m1, h1, hwf1, _⟩ := wf_step strict E0 hd (clk 0) scl sda m h
      (fun hs => hb hs (scl, sda) (List.mem_cons_self _ _))
    obtain ⟨m2, h2, hwf2⟩ := ih (fun hs e he => hb hs e (List.mem_cons_of_mem _ he))
      (fun i => clk (i + 1)) m1 hwf1
    refine ⟨m2, ?_, hwf2⟩
    rw [run, h1]
    exact h2

theorem watched_mem (strict : Bool) (es E0 : List Effect)
    (h : es.filter (watched strict) = E0.filter (watched strict)) (e : Effect)
    (hw : watched strict e = true) : e ∈ es → e ∈ E0 := by
  intro he
  have h1 : e ∈ es.filter (watched strict) := List.mem_filter.mpr ⟨he, hw⟩
  rw [h] at h1
  exact (List.mem_filter.mp h1).1

theorem release_lines_id (m : Machine) (hc : m.i2cclock = 1) (hd : m.i2cdata = 1) :
    release_lines m = m := by
  rcases m with ⟨c, d, _, _, _, _, _, _, _, _, _, _⟩
  simp only [] at hc hd
  subst hc
  subst hd
  rfl

/-- Without a clock edge the switch changes nothing, in every state that
satisfies the invariant. -/
theorem dispatch_no_edge (strict : Bool) (E0 : List Effect) (hd : Headers) (t : Tm)
    (scl sda : Nat) (m : Machine) (h : BusWF strict E0 m)
    (hne : m.serdes.oldpinstate &&& I2C_SCL ≠ 0 ↔ scl ≠ 0) :
    dispatch hd t (m.serdes.oldpinstate &&& I2C_SCL) scl sda m = .ok m := by
  have c1 : ¬ (m.serdes.oldpinstate &&& I2C_SCL ≠ 0 ∧ scl = 0) :=
    fun hc => (hne.mp hc.1) hc.2
  have c2 : ¬ (m.serdes.oldpinstate &&& I2C_SCL = 0 ∧ scl ≠ 0) :=
    fun hc => (hne.mpr hc.2) hc.1
  obtain ⟨_, hclk, _, hok⟩ := h
  unfold dispatch
  by_cases s0 : m.serdes.state = I2C_STATE_IDLE
  · rw [if_pos s0, release_lines_id m hclk (at_IDLE strict m hok s0).1]
  rw [if_neg s0]
  by_cases s1 : m.serdes.state = I2C_STATE_ADDR
  · rw [if_pos s1]
    unfold case_ADDR
    rw [if_neg c1, if_neg c2]
  rw [if_neg s1]
  by_cases s3 : m.serdes.state = I2C_STATE_ACK_READ_ADDR
  · rw [if_pos s3]
    unfold case_ACK_READ_ADDR
    rw [if_neg c1, if_neg c2]
  rw [if_neg s3]
  by_cases s2 : m.serdes.state = I2C_STATE_ACK_READ
  · rw [if_pos s2]
    unfold case_ACK_READ
    rw [if_neg c1, if_neg c2]
  rw [if_neg s2]
  by_cases s4 : m.serdes.state = I2C_STATE_ACK_WRITE ∨ m.serdes.state = I2C_STATE_NACK_WRITE
  · rw [if_pos s4]
    unfold case_ACK_WRITE
    rw [if_neg c1, if_neg c2]
  rw [if_neg s4]
  by_cases s6 : m.serdes.state = I2C_STATE_READ
  · rw [if_pos s6]
    unfold case_READ
    rw [if_neg c1, if_neg c2]
  rw [if_neg s6]
  by_cases s7 : m.serdes.state = I2C_STATE_WRITE
  · rw [if_pos s7]
    unfold case_WRITE
    rw [if_neg c1, if_neg c2]
  rw [if_neg s7]
  by_cases s8 : m.serdes.state = I2C_STATE_WAIT
  · rw [if_pos s8]
  · exfalso
    rcases state_ok_states strict m hok with k | k | k | k | k | k | k | k
    · exact s0 k
    · exact s1 k
    · exact s2 k
    · exact s3 k
    · exact s4 (Or.inl k)
    · exact s6 k
    · exact s7 k
    · exact s8 k

/-- The invariant after `reseti2c` and any sequence of calls, with any pin
values. -/
theorem wf_reachable (hd : Headers) (clk : Nat → Tm) (mask : Nat) (m : Machine)
    (evs : List (Nat × Nat)) :
    ∃ m', run hd clk evs (reseti2c mask m) = .ok m' ∧ BusWF false m.effects m' :=
  wf_run false m.effects hd evs (fun hs => Bool.noConfusion hs) clk _
    (wf_reseti2c false mask m)

/-- The invariant after `reseti2c` and any sequence of calls with pin values 0
and 1. -/
theorem wf_reachable_strict (hd : Headers) (clk : Nat → Tm) (mask : Nat) (m : Machine)
    (evs : List (Nat × Nat)) (hb : boolean_pins evs) :
    ∃ m', run hd clk evs (reseti2c mask m) = .ok m' ∧ BusWF true m.effects m' :=
  wf_run true m.effects hd evs (fun _ => hb) clk _ (wf_reseti2c true mask m)

/-- The eighth rising clock edge of a byte in state `I2C_STATE_WRITE`: the bit
is shifted in, the active responder's write operation receives the byte, and
`case_WRITE_result` decides the next state from the code it returns. -/
theorem rise_write_result (hd : Headers) (t : Tm) (m : Machine) (sl : SlaveRef) (x : Nat)
    (hx : x ≤ 1) (hreg : Registered m)
    (hst : m.serdes.state = I2C_STATE_WRITE) (hcount : m.serdes.bitcount = 7)
    (hpins : m.serdes.oldpinstate = x)
    (hact : m.serdes.active_slave = some sl) :
    cmosi2cchange hd t 1 x m
      = (match case_WRITE_result
            (sl.ops.write (shift_in x m) (shift_in x m).serdes.inbuf).1
            (sl.ops.write (shift_in x m) (shift_in x m).serdes.inbuf).2 with
         | .error e => .error e
         | .ok m1 => .ok (store_pins 1 x m1)) := by
  obtain ⟨_, h2, h1⟩ := pin_low x hx
  have hno1 : ¬ ((1 : Nat) ≠ 0 ∧ x ≠ 0 ∧ x = 0) := by tauto
  have hno2 : ¬ ((1 : Nat) ≠ 0 ∧ x = 0 ∧ x ≠ 0) := by tauto
  have hb : (shift_in x m).serdes.bitcount = 8 := by simp [shift_in, hcount]
  have ha : (shift_in x m).serdes.active_slave = some sl := by simp [shift_in, hact]
  have hops : (shift_in x m).devops sl = .ok sl.ops := by
    cases sl <;> simp [Machine.devops, Machine.slave, shift_in, hreg.1, hreg.2, SlaveRef.ops]
  unfold cmosi2cchange
  rw [hpins, h1, h2]
  simp only [if_neg hno1, if_neg hno2]
  simp only [dispatch, hst, case_WRITE]
  simp only [hb, ha, hops]
  rfl

/-- The three-way test on the code returned by a write operation. -/
theorem case_WRITE_result_spec (r : Nat) (m : Machine) :
    ∃ m1, case_WRITE_result r m = .ok m1 ∧
      m1.serdes.slave_was_accessed = 1 ∧
      (r = I2C_ACK → m1.serdes.state = I2C_STATE_ACK_WRITE ∧ m1.i2cclock = 1 ∧
        m1.effects = m.effects) ∧
      (r = I2C_NACK → m1.serdes.state = I2C_STATE_NACK_WRITE ∧ m1.i2cclock = 1 ∧
        m1.effects = m.effects) ∧
      (r ≠ I2C_ACK → r ≠ I2C_NACK → m1.serdes.state = m.serdes.state ∧
        m1.i2cclock = m.i2cclock ∧
        m1.effects = m.effects ++ [Effect.bug (.unknown_result r)]) ∧
      m1.i2cdata = m.i2cdata ∧ m1.pcf = m.pcf ∧ m1.spd = m.spd ∧ m1.cmosram = m.cmosram ∧
      m1.cmos_file = m.cmos_file ∧
      m1.serdes.inbuf = m.serdes.inbuf ∧ m1.serdes.bitcount = m.serdes.bitcount ∧
      m1.serdes.active_slave = m.serdes.active_slave ∧
      m1.serdes.oldpinstate = m.serdes.oldpinstate := by
  unfold case_WRITE_result
  by_cases h0 : r = I2C_ACK
  · have hn : r ≠ I2C_NACK := by rw [h0]; decide
    simp only [if_pos h0]
    exact ⟨_, rfl, rfl, fun _ => ⟨rfl, rfl, rfl⟩, fun h => absurd h hn,
      fun h => absurd h0 h, rfl, rfl, rfl, rfl, rfl, rfl, rfl, rfl, rfl⟩
  · by_cases h1 : r = I2C_NACK
    · simp only [if_neg h0, if_pos h1]
      exact ⟨_, rfl, rfl, fun h => absurd h h0, fun _ => ⟨rfl, rfl, rfl⟩,
        fun _ h => absurd h1 h, rfl, rfl, rfl, rfl, rfl, rfl, rfl, rfl, rfl⟩
    · simp only [if_neg h0, if_neg h1]
      exact ⟨_, rfl, rfl, fun h => absurd h h0, fun h => absurd h h1,
        fun _ _ => ⟨rfl, rfl, rfl⟩, rfl, rfl, rfl, rfl, rfl, rfl, rfl, rfl, rfl⟩

/-! ## Claims -/

/-- C1: for every store, after `cmos_update_checksum` the byte at 0x3F is
((sum of the 239 bytes at the addresses 0x10 .. 0xFF other than 0x3F) + 1)
mod 256, the sum being over the store before the call. -/
theorem cmos_update_checksum_sum (m : Machine) :
    persistent_addresses.length = 239 ∧
    (∀ a, a ∈ persistent_addresses ↔ (0x10 ≤ a ∧ a ≤ 0xff ∧ a ≠ 0x3f)) ∧
    (cmos_update_checksum m).cmosram 0x3f
      = ((persistent_addresses.map m.cmosram).sum + 1) % 256 := by
  refine ⟨by rw [persistent_addresses_eq]; simp, ?_, ?_⟩
  · intro a
    simp only [persistent_addresses, List.mem_filter, List.mem_range, decide_eq_true_eq]
    omega
  · have h := checksum_loop_sum m.cmosram
    have hand : ∀ x : Nat, x &&& 0xff = x % 256 := fun x =>
      Nat.and_pow_two_sub_one_eq_mod x 8
    simp only [cmos_update_checksum, ram_set, if_true, hand]
    omega

/-- C2: Start-condition precedence.  In every state whose previously sampled
data pin was high, the call `cmosi2cchange(1, 0)` returns with the machine in
the Addressing state, bit counter, buffers and address 0, no active responder
and both output pins high; no responder operation is entered (the record of
effects is unchanged) and the RTC phase and register address, the SPD register
address and the store are unchanged. -/
theorem start_condition_resets (hd : Headers) (t : Tm) (m : Machine)
    (h : m.serdes.oldpinstate &&& I2C_SDA ≠ 0) :
    ∃ m', cmosi2cchange hd t 1 0 m = .ok m' ∧
      m'.serdes.state = I2C_STATE_ADDR ∧ m'.serdes.bitcount = 0 ∧ m'.serdes.inbuf = 0 ∧
      m'.serdes.outbuf = 0 ∧ m'.serdes.address = 0 ∧
      m'.serdes.active_slave = none ∧ m'.i2cclock = 1 ∧ m'.i2cdata = 1 ∧
      m'.effects = m.effects ∧ m'.pcf = m.pcf ∧ m'.spd = m.spd ∧ m'.cmosram = m.cmosram := by
  unfold cmosi2cchange
  simp at h
  simp [h, store_pins, reset_serdes]

/-- Witness for C2: a Start condition in the middle of an RTC write
transaction (the data pin last sampled high). -/
theorem start_condition_resets_witness :
    (store_pins 1 1 sample_busy).serdes.oldpinstate &&& I2C_SDA ≠ 0 ∧
    ∃ m', cmosi2cchange sample_headers epoch 1 0 (store_pins 1 1 sample_busy) = .ok m' ∧
      m'.serdes.state = I2C_STATE_ADDR ∧ m'.serdes.bitcount = 0 ∧ m'.serdes.inbuf = 0 ∧
      m'.serdes.outbuf = 0 ∧ m'.serdes.address = 0 ∧
      m'.serdes.active_slave = none ∧ m'.i2cclock = 1 ∧ m'.i2cdata = 1 ∧
      m'.effects = (store_pins 1 1 sample_busy).effects ∧
      m'.pcf = (store_pins 1 1 sample_busy).pcf ∧
      m'.spd = (store_pins 1 1 sample_busy).spd ∧
      m'.cmosram = (store_pins 1 1 sample_busy).cmosram :=
  ⟨by decide, start_condition_resets sample_headers epoch (store_pins 1 1 sample_busy) (by decide)⟩

/-- C3: Stop condition.  In every state whose previously sampled data pin was
low (with the registry installed whenever a responder is recorded), the call
`cmosi2cchange(1, 1)` enters the stop operation of the active responder exactly
once when one is recorded, which leaves the RTC in its address phase, and
enters no operation when none is recorded; in both cases the machine ends in
Idle with no active responder, bit counter 0 and both output pins high. -/
theorem stop_condition_resets (hd : Headers) (t : Tm) (m : Machine)
    (hreg : m.serdes.active_slave ≠ none → Registered m)
    (h : m.serdes.oldpinstate &&& I2C_SDA = 0) :
    ∃ m', cmosi2cchange hd t 1 1 m = .ok m' ∧
      m'.effects = m.effects ++
        (match m.serdes.active_slave with
         | some slave => [Effect.stop slave.ops]
         | none => []) ∧
      (m.serdes.active_slave = some .pcf8583 → m'.pcf.state = PCF_STATE_ADDR) ∧
      m'.serdes.state = I2C_STATE_IDLE ∧ m'.serdes.active_slave = none ∧
      m'.serdes.bitcount = 0 ∧ m'.i2cclock = 1 ∧ m'.i2cdata = 1 ∧
      m'.pcf.reg_address = m.pcf.reg_address ∧ m'.spd = m.spd ∧ m'.cmosram = m.cmosram := by
  unfold cmosi2cchange
  simp at h
  simp only [ne_eq, one_ne_zero, not_false_eq_true, I2C_SDA, Nat.and_one_is_mod, h,
    not_true_eq_false, and_false, false_and, if_false, and_self, if_true]
  cases hs : m.serdes.active_slave with
  | none => simp [store_pins, reset_serdes]
  | some sl =>
    obtain ⟨h1, h2⟩ := hreg (by simp [hs])
    cases sl <;>
      simp [Machine.devops, Machine.slave, h1, h2, I2C_SlaveOps.stop, pcf8583_stop, spd_stop,
        store_pins, reset_serdes, SlaveRef.ops]

/-- Witness for C3: a Stop condition in the middle of an RTC write
transaction (the data pin last sampled low). -/
theorem stop_condition_resets_witness :
    (sample_busy.serdes.active_slave ≠ none → Registered sample_busy) ∧
    sample_busy.serdes.oldpinstate &&& I2C_SDA = 0 ∧
    ∃ m', cmosi2cchange sample_headers epoch 1 1 sample_busy = .ok m' ∧
      m'.effects = sample_busy.effects ++
        (match sample_busy.serdes.active_slave with
         | some slave => [Effect.stop slave.ops]
         | none => []) ∧
      (sample_busy.serdes.active_slave = some .pcf8583 → m'.pcf.state = PCF_STATE_ADDR) ∧
      m'.serdes.state = I2C_STATE_IDLE ∧ m'.serdes.active_slave = none ∧
      m'.serdes.bitcount = 0 ∧ m'.i2cclock = 1 ∧ m'.i2cdata = 1 ∧
      m'.pcf.reg_address = sample_busy.pcf.reg_address ∧ m'.spd = sample_busy.spd ∧
      m'.cmosram = sample_busy.cmosram :=
  ⟨by decide, by decide,
    stop_condition_resets sample_headers epoch sample_busy (by decide) (by decide)⟩

/-- C4: Unknown-address rejection.  In the Addressing state with seven bits
received, on the rising clock edge that samples the eighth bit (data pin as
previously sampled), when the 7-bit address `inbuf >> 1` is neither 0x50 with
the RTC on the bus nor 0x54 with the SPD on the bus, the machine returns to
Idle with both output pins high and no active responder; no responder
operation is entered and the RTC state, the SPD register address and the store
are unchanged. -/
theorem unknown_address_rejected (hd : Headers) (t : Tm) (m : Machine) (sda : Nat)
    (hreg : Registered m)
    (hstate : m.serdes.state = I2C_STATE_ADDR) (hcount : m.serdes.bitcount = 7)
    (hclk : m.serdes.oldpinstate &&& I2C_SCL = 0)
    (hdata : m.serdes.oldpinstate &&& I2C_SDA = sda)
    (hrtc : ¬ ((shift_in sda m).serdes.inbuf >>> 1 = 0x50 ∧
                m.i2c_devices &&& hd.I2C_PCF8583 ≠ 0))
    (hspd : ¬ ((shift_in sda m).serdes.inbuf >>> 1 = 0x54 ∧
                m.i2c_devices &&& hd.I2C_SPD_DIMM0 ≠ 0)) :
    ∃ m', cmosi2cchange hd t 1 sda m = .ok m' ∧
      m'.serdes.state = I2C_STATE_IDLE ∧ m'.i2cclock = 1 ∧ m'.i2cdata = 1 ∧
      m'.serdes.active_slave = none ∧ m'.effects = m.effects ∧
      m'.pcf = m.pcf ∧ m'.spd = m.spd ∧ m'.cmosram = m.cmosram := by
  obtain ⟨h1, h2⟩ := hreg
  have hno1 : ¬ ((1 : Nat) ≠ 0 ∧ m.serdes.oldpinstate &&& I2C_SDA ≠ 0 ∧ sda = 0) := by
    rw [hdata]; tauto
  have hno2 : ¬ ((1 : Nat) ≠ 0 ∧ m.serdes.oldpinstate &&& I2C_SDA = 0 ∧ sda ≠ 0) := by
    rw [hdata]; tauto
  have hb : (shift_in sda m).serdes.bitcount = 8 := by simp [shift_in, hcount]
  have ha1 : (shift_in sda m).pcf8583.address = 0x50 := by simp [shift_in, h1]
  have ha2 : (shift_in sda m).spd_i2c.address = 0x54 := by simp [shift_in, h2]
  have hd1 : (shift_in sda m).i2c_devices = m.i2c_devices := by simp [shift_in]
  unfold cmosi2cchange
  simp only [if_neg hno1, if_neg hno2]
  simp only [dispatch, hstate, case_ADDR, hclk]
  simp only [hb, ha1, ha2, hd1, if_neg hrtc, if_neg hspd]
  simp [store_pins, reset_serdes, shift_in]

/-- Witness for C4: the address byte 0x23 (address 0x11, read) with both
devices on the bus. -/
theorem unknown_address_rejected_witness :
    Registered sample_addressing ∧
    sample_addressing.serdes.state = I2C_STATE_ADDR ∧
    sample_addressing.serdes.bitcount = 7 ∧
    sample_addressing.serdes.oldpinstate &&& I2C_SCL = 0 ∧
    sample_addressing.serdes.oldpinstate &&& I2C_SDA = 1 ∧
    (shift_in 1 sample_addressing).serdes.inbuf >>> 1 = 0x11 ∧
    ∃ m', cmosi2cchange sample_headers epoch 1 1 sample_addressing = .ok m' ∧
      m'.serdes.state = I2C_STATE_IDLE ∧ m'.i2cclock = 1 ∧ m'.i2cdata = 1 ∧
      m'.serdes.active_slave = none ∧ m'.effects = sample_addressing.effects ∧
      m'.pcf = sample_addressing.pcf ∧ m'.spd = sample_addressing.spd ∧
      m'.cmosram = sample_addressing.cmosram :=
  ⟨by decide, by decide, by decide, by decide, by decide, by decide,
    unknown_address_rejected sample_headers epoch sample_addressing 1
      (by decide) (by decide) (by decide) (by decide) (by decide) (by decide) (by decide)⟩

/-- C5: End-to-end RTC read.  After `reseti2c` with the RTC on the bus, the RTC
register address 0 and the data pin last sampled high: a Start condition, the
eight bits of 0xA1 most significant first and a call with the clock low return
with `i2cdata = 0` (acknowledge); after the following call with the clock
high, the values of `i2cdata` after each of the next eight calls with the
clock low (data pin held high by the controller, each followed by a call with
the clock high) are, most significant bit first, the binary digits of the store
byte at address 0, which the read leaves unchanged. -/
theorem rtc_read_end_to_end (hd : Headers) (clk : Nat → Tm) (t : Tm) (clk2 : Nat → Tm)
    (m : Machine) (mask x : Nat)
    (hmask : mask < 4294967296) (hen : mask &&& hd.I2C_PCF8583 ≠ 0)
    (hpins : m.serdes.oldpinstate &&& I2C_SDA ≠ 0)
    (hreg0 : m.pcf.reg_address = 0) (hx : x ≤ 1) (hbyte : m.cmosram 0 < 256) :
    ∃ m1 m2 bits m3,
      run hd clk ((1, 0) :: send_byte 0xA1 ++ [(0, x)]) (reseti2c mask m) = .ok m1 ∧
      m1.i2cdata = 0 ∧
      cmosi2cchange hd t 1 x m1 = .ok m2 ∧
      read_bits hd clk2 8 m2 = .ok (bits, m3) ∧
      bits.length = 8 ∧ byte_of_bits bits = m.cmosram 0 ∧ m3.cmosram 0 = m.cmosram 0 := by
  obtain ⟨hreg, hdev, hold, hpcf, hram, _⟩ := reseti2c_registered mask m
  have hen0 : (reseti2c mask m).i2c_devices &&& hd.I2C_PCF8583 ≠ 0 := by
    rw [hdev, Nat.mod_eq_of_lt hmask]; exact hen
  have hpins0 : (reseti2c mask m).serdes.oldpinstate &&& I2C_SDA ≠ 0 := by
    rw [hold]; exact hpins
  obtain ⟨c, hc⟩ := run_select_rtc hd clk 0xA1 [(0, x)] _ (by decide) (by decide)
    hreg hen0 hpins0
  have hb0 : bit_of 0xA1 0 = 1 := by decide
  rw [hb0] at hc
  have hfall := fall_ack hd (c 0) (addressed_rtc 0xA1 1 (started (reseti2c mask m))) x
    (Or.inr (by simp [addressed_rtc])) (by simp [addressed_rtc])
  have hrise := rise_ack_read_addr hd t
    (ack_driven x (addressed_rtc 0xA1 1 (started (reseti2c mask m)))) x hx
    (by simp [ack_driven, addressed_rtc]) (by simp [ack_driven, (pin_low x hx).1])
  have hregA : Registered (store_pins 1 x
      { ack_driven x (addressed_rtc 0xA1 1 (started (reseti2c mask m))) with
        serdes := { (ack_driven x (addressed_rtc 0xA1 1 (started (reseti2c mask m)))).serdes with
          state := I2C_STATE_READ, bitcount := 8, slave_was_accessed := 1 } }) := hreg
  have hread := read_bits_byte_rtc hd clk2 _ hregA rfl rfl rfl
    (by simp only [store_pins]; rw [(pin_high x hx).1]; decide)
  have hr0 : (store_pins 1 x
      { ack_driven x (addressed_rtc 0xA1 1 (started (reseti2c mask m))) with
        serdes := { (ack_driven x (addressed_rtc 0xA1 1 (started (reseti2c mask m)))).serdes with
          state := I2C_STATE_READ, bitcount := 8, slave_was_accessed := 1 } }).pcf.reg_address
      = 0 := by
    show (reseti2c mask m).pcf.reg_address = 0
    rw [hpcf]; exact hreg0
  obtain ⟨hv, hkeep⟩ := pcf8583_read_reg0 (clk2 0) _ hr0
  have hv' : (pcf8583_read (clk2 0) (store_pins 1 x
      { ack_driven x (addressed_rtc 0xA1 1 (started (reseti2c mask m))) with
        serdes := { (ack_driven x (addressed_rtc 0xA1 1 (started (reseti2c mask m)))).serdes with
          state := I2C_STATE_READ, bitcount := 8, slave_was_accessed := 1 } })).2.1 % 256
      = m.cmosram 0 := by
    rw [hv]
    show (reseti2c mask m).cmosram 0 % 256 = m.cmosram 0
    rw [hram]; exact Nat.mod_eq_of_lt hbyte
  rw [hv'] at hread
  refine ⟨_, _, _, _, ?_, ?_, hrise, hread, rfl, byte_of_out_bits _ hbyte, ?_⟩
  · rw [List.cons_append, hc]
    exact run_single hd c 0 x _ _ hfall
  · rfl
  · show (pcf8583_read (clk2 0) _).2.2.cmosram 0 = m.cmosram 0
    rw [hkeep]
    show (reseti2c mask m).cmosram 0 = m.cmosram 0
    rw [hram]

/-- Witness for C5: the RTC alone on the bus, the store byte at address 0 equal
to 0xA5, the data pin high during the acknowledge clock. -/
theorem rtc_read_end_to_end_witness :
    ((1 : Nat) < 4294967296 ∧ 1 &&& sample_headers.I2C_PCF8583 ≠ 0 ∧
      sample_idle.serdes.oldpinstate &&& I2C_SDA ≠ 0 ∧ sample_idle.pcf.reg_address = 0 ∧
      sample_idle.cmosram 0 = 0xa5) ∧
    ∃ m1 m2 bits m3,
      run sample_headers (fun _ => epoch) ((1, 0) :: send_byte 0xA1 ++ [(0, 1)])
        (reseti2c 1 sample_idle) = .ok m1 ∧
      m1.i2cdata = 0 ∧
      cmosi2cchange sample_headers epoch 1 1 m1 = .ok m2 ∧
      read_bits sample_headers (fun _ => epoch) 8 m2 = .ok (bits, m3) ∧
      bits.length = 8 ∧ byte_of_bits bits = sample_idle.cmosram 0 ∧
      m3.cmosram 0 = sample_idle.cmosram 0 :=
  ⟨⟨by decide, by decide, by decide, by decide, by decide⟩,
    rtc_read_end_to_end sample_headers (fun _ => epoch) epoch (fun _ => epoch) sample_idle 1 1
      (by decide) (by decide) (by decide) (by decide) (by decide) (by decide)⟩

/-- C6: Checksum-triggered save.  For every state and byte, `pcf8583_write`
calls `savecmos` exactly once when the RTC is in its data phase with register
address 0x3F, and not at all otherwise: the record of effects grows by the
entry into the write and, in that case only, by one `savecmos`.  The file is
left as it was by every write that is not such a checksum write, and by a
checksum write whose `fopen` the host refuses; the host's answers are not
changed by the write. -/
theorem pcf8583_write_save_count (m : Machine) (data : Nat) :
    (pcf8583_write m data).2.effects
      = m.effects ++ [Effect.write .pcf8583_ops (data % 256)] ++
          (if m.pcf.state = PCF_STATE_DATA ∧ m.pcf.reg_address = 0x3f
            then [Effect.savecmos] else []) ∧
    (pcf8583_write m data).2.effects.count Effect.savecmos
      = m.effects.count Effect.savecmos +
          (if m.pcf.state = PCF_STATE_DATA ∧ m.pcf.reg_address = 0x3f then 1 else 0) ∧
    (¬ (m.pcf.state = PCF_STATE_DATA ∧ m.pcf.reg_address = 0x3f ∧
          m.host_fopen_w (m.effects.count Effect.savecmos) = true) →
      (pcf8583_write m data).2.cmos_file = m.cmos_file) ∧
    (pcf8583_write m data).2.host_fopen_w = m.host_fopen_w := by
  unfold pcf8583_write
  by_cases h0 : m.pcf.state = PCF_STATE_ADDR
  · have : ¬ m.pcf.state = PCF_STATE_DATA := by rw [h0]; decide
    simp [h0, this]
  · by_cases h2 : m.pcf.state = PCF_STATE_DATA
    · by_cases hr : m.pcf.reg_address = 0x3f
      · by_cases hf : m.host_fopen_w (m.effects.count Effect.savecmos) = true
        · simp [h2, hr, hf, savecmos, List.count_append, ram_set]
        · simp [h2, hr, hf, savecmos, List.count_append, ram_set]
      · simp [h2, hr, savecmos, List.count_append]
    · simp [h0, h2]

/-- C7: Memory responder static data.  `spd_write(b)` acknowledges, and the
`(k + 1)`-th consecutive `spd_read` after it returns
`spd_data[((b & 0x7F) + k) mod 128]`; after `spd_write(5)` that is
`spd_data[(5 + k) mod 128]`, so with the table as initialised the 124th read
returns `spd_data[0] = 128`.  Neither operation changes the table. -/
theorem spd_read_sequence (m : Machine) (b k : Nat) :
    (spd_write m b).1 = I2C_ACK ∧
    (spd_read (spd_read_n k (spd_write m b).2)).2.1
      = m.spd_data.getD (((b &&& 0x7f) + k) % 128) 0 ∧
    (spd_read (spd_read_n k (spd_write m 5).2)).2.1 = m.spd_data.getD ((5 + k) % 128) 0 ∧
    (m.spd_data = spd_data_init →
      (spd_read (spd_read_n 123 (spd_write m 5).2)).2.1 = 128 ∧ spd_data_init.getD 0 0 = 128) ∧
    (spd_write m b).2.spd_data = m.spd_data ∧
    (spd_read m).2.2.spd_data = m.spd_data ∧
    (spd_read (spd_read_n k (spd_write m b).2)).2.2.spd_data = m.spd_data := by
  have hw : ∀ c, (spd_write m c).2.spd.reg_address = c % 128 := by
    intro c; simp only [spd_write, and_7f]; omega
  have hwd : ∀ c, (spd_write m c).2.spd_data = m.spd_data := fun _ => rfl
  have key : ∀ c j, (spd_read (spd_read_n j (spd_write m c).2)).2.1
      = m.spd_data.getD ((c % 128 + j) % 128) 0 := by
    intro c j
    obtain ⟨h1, h2⟩ := spd_read_n_reg j (spd_write m c).2 (by rw [hw]; omega)
    simp only [spd_read, h1, h2, hw, hwd]
  refine ⟨rfl, ?_, ?_, ?_, rfl, rfl, ?_⟩
  · rw [key, and_7f]
  · rw [key]
  · intro ht
    rw [key, ht]
    decide
  · obtain ⟨_, h2⟩ := spd_read_n_reg k (spd_write m b).2 (by rw [hw]; omega)
    show (spd_read_n k (spd_write m b).2).spd_data = m.spd_data
    rw [h2]; rfl

/-- Witness for C7: with the table as initialised at program start, the 124th
read after `spd_write(5)` returns 128. -/
theorem spd_read_sequence_witness :
    power_on.spd_data = spd_data_init ∧
    (spd_read (spd_read_n 123 (spd_write power_on 5).2)).2.1 = 128 :=
  ⟨rfl, ((spd_read_sequence power_on 5 0).2.2.2.1 rfl).1⟩

/-- C8: Register wraparound.  For every RTC register address below 256, a data
access (`pcf8583_read`, or `pcf8583_write` in the data phase) leaves the
register address `(r + 1) mod 256`; from 0xFF that is 0x00, not 0x100; and
after every RTC operation (read, write in any phase, start, stop) the register
address is below 256. -/
theorem pcf8583_register_wraps (t : Tm) (m : Machine) (data : Nat)
    (hr : m.pcf.reg_address < 256) :
    (pcf8583_read t m).2.2.pcf.reg_address = (m.pcf.reg_address + 1) % 256 ∧
    (m.pcf.state = PCF_STATE_DATA →
      (pcf8583_write m data).2.pcf.reg_address = (m.pcf.reg_address + 1) % 256) ∧
    (m.pcf.reg_address = 0xff →
      (pcf8583_read t m).2.2.pcf.reg_address = 0 ∧
      (m.pcf.state = PCF_STATE_DATA → (pcf8583_write m data).2.pcf.reg_address = 0)) ∧
    (pcf8583_read t m).2.2.pcf.reg_address < 256 ∧
    (pcf8583_write m data).2.pcf.reg_address < 256 ∧
    (pcf8583_start m 0x50 I2C_WRITE).2.pcf.reg_address < 256 ∧
    (pcf8583_start m 0x50 I2C_READ).2.pcf.reg_address < 256 ∧
    (pcf8583_stop m).pcf.reg_address < 256 := by
  have hread := pcf8583_read_reg t m
  refine ⟨hread, fun h => (pcf8583_write_data m data h).2.1, ?_, ?_, ?_, hr, hr, hr⟩
  · intro hff
    refine ⟨by rw [hread, hff], fun h => ?_⟩
    rw [(pcf8583_write_data m data h).2.1, hff]
  · rw [hread]; omega
  · by_cases h0 : m.pcf.state = PCF_STATE_ADDR
    · simp only [pcf8583_write, h0, if_true]; omega
    · by_cases h2 : m.pcf.state = PCF_STATE_DATA
      · rw [(pcf8583_write_data m data h2).2.1]; omega
      · simp only [pcf8583_write, h0, h2, if_false]; exact hr

/-- Witness for C8: the RTC at register address 0xFF in its data phase. -/
theorem pcf8583_register_wraps_witness :
    sample_last_register.pcf.reg_address < 256 ∧
    (pcf8583_read epoch sample_last_register).2.2.pcf.reg_address = 0 ∧
    (pcf8583_write sample_last_register 0x12).2.pcf.reg_address = 0 :=
  ⟨by decide,
    ((pcf8583_register_wraps epoch sample_last_register 0x12 (by decide)).2.2.1 rfl).1,
    ((pcf8583_register_wraps epoch sample_last_register 0x12 (by decide)).2.2.1 rfl).2 rfl⟩

/-- C9: End-to-end RTC write.  After `reseti2c` with the RTC on the bus and the
data pin last sampled high, for every register address `a` and data byte `d`:
a Start condition, the byte 0xA0, an acknowledge clock, the byte `a`, an
acknowledge clock, the byte `d` and an acknowledge clock (bytes most
significant bit first, the data pin changing only while the clock is low, the
data pin during each acknowledge clock arbitrary) all return, leave
`cmosram[a] = d`, every other store byte unchanged and the RTC register
address `(a + 1) mod 256`, and `i2cdata` is 0 after the falling clock edge of
each of the three acknowledge clocks. -/
theorem rtc_write_end_to_end (hd : Headers) (clk : Nat → Tm) (m : Machine)
    (mask a d x1 x2 x3 : Nat)
    (hmask : mask < 4294967296) (hen : mask &&& hd.I2C_PCF8583 ≠ 0)
    (hpins : m.serdes.oldpinstate &&& I2C_SDA ≠ 0)
    (ha : a < 256) (hd256 : d < 256) (hx1 : x1 ≤ 1) (hx2 : x2 ≤ 1) (hx3 : x3 ≤ 1) :
    (∃ m1, run hd clk ((1, 0) :: send_byte 0xA0 ++ [(0, x1)]) (reseti2c mask m) = .ok m1 ∧
      m1.i2cdata = 0) ∧
    (∃ m2, run hd clk ((1, 0) :: send_byte 0xA0 ++ clock_pulse x1 ++ send_byte a ++ [(0, x2)])
        (reseti2c mask m) = .ok m2 ∧
      m2.i2cdata = 0) ∧
    (∃ m3, run hd clk ((1, 0) :: send_byte 0xA0 ++ clock_pulse x1 ++ send_byte a ++
          clock_pulse x2 ++ send_byte d ++ [(0, x3)]) (reseti2c mask m) = .ok m3 ∧
      m3.i2cdata = 0) ∧
    (∃ m', run hd clk ((1, 0) :: send_byte 0xA0 ++ clock_pulse x1 ++ send_byte a ++
          clock_pulse x2 ++ send_byte d ++ clock_pulse x3) (reseti2c mask m) = .ok m' ∧
      m'.cmosram a = d ∧ (∀ b, b ≠ a → m'.cmosram b = m.cmosram b) ∧
      m'.pcf.reg_address = (a + 1) % 256) := by
  obtain ⟨hreg, hdev, hold, hpcf, hram, _⟩ := reseti2c_registered mask m
  have hen0 : (reseti2c mask m).i2c_devices &&& hd.I2C_PCF8583 ≠ 0 := by
    rw [hdev, Nat.mod_eq_of_lt hmask]; exact hen
  have hpins0 : (reseti2c mask m).serdes.oldpinstate &&& I2C_SDA ≠ 0 := by
    rw [hold]; exact hpins
  simp only [List.append_assoc, List.cons_append]
  refine ⟨?_, ?_, ?_, ?_⟩
  · obtain ⟨c, hc⟩ := run_select_rtc hd clk 0xA0 [(0, x1)] _ (by decide) (by decide)
      hreg hen0 hpins0
    rw [hc]
    exact ⟨_, run_single hd c 0 x1 _ _
      (fall_ack hd _ _ x1 (Or.inl (by simp [addressed_rtc]))
        (by simp only [addressed_rtc]; rw [(pin_high _ (bit_of_le 0xA0 0)).1]; decide)), rfl⟩
  · obtain ⟨c, hc⟩ := run_rtc_write_1 hd clk a x1 [(0, x2)] _ ha hx1 hreg hen0 hpins0
    rw [hc]
    exact ⟨_, run_single hd c 0 x2 _ _
      (fall_ack hd _ _ x2 (Or.inl rfl)
        (by simp only [written_rtc]; rw [(pin_high _ (bit_of_le a 0)).1]; decide)), rfl⟩
  · obtain ⟨c, hc⟩ := run_rtc_write_2 hd clk a d x1 x2 [(0, x3)] _ ha hd256 hx1 hx2
      hreg hen0 hpins0
    rw [hc]
    exact ⟨_, run_single hd c 0 x3 _ _
      (fall_ack hd _ _ x3 (Or.inl rfl)
        (by simp only [written_rtc]; rw [(pin_high _ (bit_of_le d 0)).1]; decide)), rfl⟩
  · obtain ⟨c, hc⟩ := run_rtc_write_2 hd clk a d x1 x2 (clock_pulse x3 ++ []) _ ha hd256 hx1 hx2
      hreg hen0 hpins0
    rw [List.append_nil] at hc
    rw [hc]
    have hrun := run_ack_write hd c x3 []
      (written_rtc d (bit_of d 0) (acked_write x2
        (written_rtc a (bit_of a 0) (acked_write x1
          (addressed_rtc 0xA0 0 (started (reseti2c mask m)))))))
      hx3 rfl (by simp only [written_rtc]; rw [(pin_high _ (bit_of_le d 0)).1]; decide)
    rw [List.append_nil] at hrun
    rw [hrun]
    refine ⟨_, rfl, ?_⟩
    obtain ⟨_, w1pcf, w1ram⟩ := pcf8583_write_addr
      (acked_write x1 (addressed_rtc 0xA0 0 (started (reseti2c mask m)))) a rfl
    have w1state : (acked_write x2 (written_rtc a (bit_of a 0) (acked_write x1
        (addressed_rtc 0xA0 0 (started (reseti2c mask m)))))).pcf.state = PCF_STATE_DATA := by
      show (pcf8583_write _ a).2.pcf.state = _
      rw [w1pcf]
    have w1reg : (acked_write x2 (written_rtc a (bit_of a 0) (acked_write x1
        (addressed_rtc 0xA0 0 (started (reseti2c mask m)))))).pcf.reg_address = a := by
      show (pcf8583_write _ a).2.pcf.reg_address = _
      rw [w1pcf]
      exact Nat.mod_eq_of_lt ha
    have w1ram' : (acked_write x2 (written_rtc a (bit_of a 0) (acked_write x1
        (addressed_rtc 0xA0 0 (started (reseti2c mask m)))))).cmosram = m.cmosram := by
      show (pcf8583_write _ a).2.cmosram = _
      rw [w1ram]
      exact hram
    obtain ⟨_, w2reg, _, w2ram⟩ := pcf8583_write_data _ d w1state
    rw [w1reg] at w2reg
    rw [w1reg, w1ram'] at w2ram
    refine ⟨?_, ?_, (acked_written_rtc x3 d (bit_of d 0) _).2 ▸ w2reg⟩
    · rw [(acked_written_rtc x3 d (bit_of d 0) _).1, w2ram]
      simp [ram_set, Nat.mod_eq_of_lt hd256]
    · intro b hb
      rw [(acked_written_rtc x3 d (bit_of d 0) _).1, w2ram]
      simp [ram_set, hb]

/-- Witness for C9: the byte 0x77 written to the checksum address 0x3F, the
data pin high during the acknowledge clocks. -/
theorem rtc_write_end_to_end_witness :
    ((1 : Nat) < 4294967296 ∧ 1 &&& sample_headers.I2C_PCF8583 ≠ 0 ∧
      sample_idle.serdes.oldpinstate &&& I2C_SDA ≠ 0) ∧
    ∃ m', run sample_headers (fun _ => epoch)
        ((1, 0) :: send_byte 0xA0 ++ clock_pulse 1 ++ send_byte 0x3f ++
          clock_pulse 1 ++ send_byte 0x77 ++ clock_pulse 1) (reseti2c 1 sample_idle) = .ok m' ∧
      m'.cmosram 0x3f = 0x77 ∧ (∀ b, b ≠ 0x3f → m'.cmosram b = sample_idle.cmosram b) ∧
      m'.pcf.reg_address = (0x3f + 1) % 256 :=
  ⟨⟨by decide, by decide, by decide⟩,
    (rtc_write_end_to_end sample_headers (fun _ => epoch) sample_idle 1 0x3f 0x77 1 1 1
      (by decide) (by decide) (by decide) (by decide) (by decide) (by decide) (by decide)
      (by decide)).2.2.2⟩

/-- C10: RTC sequential data write.  Starting in the data phase with register
address `a`, writing the bytes `ds` (at most 256 of them) with `pcf8583_write`
leaves `cmosram[(a + i) mod 256] = ds[i]` for every `i`, every other store
byte unchanged (so the checksum byte is not recomputed), the register address
`(a + n) mod 256`, and every write returns acknowledge. -/
theorem pcf8583_sequential_write (m : Machine) (a : Nat) (ds : List Nat)
    (hphase : m.pcf.state = PCF_STATE_DATA) (hreg : m.pcf.reg_address = a) (ha : a < 256)
    (hlen : ds.length ≤ 256) (hbytes : ∀ d ∈ ds, d < 256) :
    (∀ i (h : i < ds.length), (pcf8583_write_seq ds m).2.cmosram ((a + i) % 256) = ds[i]) ∧
    (∀ x, (∀ i, i < ds.length → x ≠ (a + i) % 256) →
      (pcf8583_write_seq ds m).2.cmosram x = m.cmosram x) ∧
    (pcf8583_write_seq ds m).2.pcf.reg_address = (a + ds.length) % 256 ∧
    (pcf8583_write_seq ds m).1 = List.replicate ds.length I2C_ACK := by
  subst hreg
  obtain ⟨h1, h2, h3, _, h5⟩ := pcf8583_write_seq_spec ds m hphase ha hlen hbytes
  exact ⟨h1, h2, h3, h5⟩

/-- Witness for C10: three bytes written from register address 0xFE, so that
the sequence wraps to address 0. -/
theorem pcf8583_sequential_write_witness :
    (sample_near_wrap.pcf.state = PCF_STATE_DATA ∧ sample_near_wrap.pcf.reg_address = 0xfe ∧
      [0x11, 0x22, 0x33].length ≤ 256 ∧ ∀ d ∈ [0x11, 0x22, 0x33], d < 256) ∧
    (∀ i (h : i < [0x11, 0x22, 0x33].length),
      (pcf8583_write_seq [0x11, 0x22, 0x33] sample_near_wrap).2.cmosram ((0xfe + i) % 256)
        = [0x11, 0x22, 0x33][i]) ∧
    (∀ x, (∀ i, i < [0x11, 0x22, 0x33].length → x ≠ (0xfe + i) % 256) →
      (pcf8583_write_seq [0x11, 0x22, 0x33] sample_near_wrap).2.cmosram x
        = sample_near_wrap.cmosram x) ∧
    (pcf8583_write_seq [0x11, 0x22, 0x33] sample_near_wrap).2.pcf.reg_address
      = (0xfe + [0x11, 0x22, 0x33].length) % 256 ∧
    (pcf8583_write_seq [0x11, 0x22, 0x33] sample_near_wrap).1
      = List.replicate [0x11, 0x22, 0x33].length I2C_ACK :=
  ⟨⟨by decide, by decide, by decide, by decide⟩,
    pcf8583_sequential_write sample_near_wrap 0xfe [0x11, 0x22, 0x33]
      (by decide) (by decide) (by decide) (by decide) (by decide)⟩

/-- C11: RTC address-phase write.  For every byte `b`, `pcf8583_write` in the
address phase sets the register address to `b`, moves the RTC to its data
phase, leaves the store unchanged and returns acknowledge; so the first byte
written after `pcf8583_start` (any bus address and direction) is taken as the
register address and is not stored. -/
theorem pcf8583_write_address_phase (m : Machine) (b i2c_addr operation : Nat)
    (hb : b < 256) :
    (m.pcf.state = PCF_STATE_ADDR →
      (pcf8583_write m b).1 = I2C_ACK ∧
      (pcf8583_write m b).2.pcf.reg_address = b ∧
      (pcf8583_write m b).2.pcf.state = PCF_STATE_DATA ∧
      (pcf8583_write m b).2.cmosram = m.cmosram ∧
      (pcf8583_write m b).2.effects.count Effect.savecmos
        = m.effects.count Effect.savecmos) ∧
    (pcf8583_write (pcf8583_start m i2c_addr operation).2 b).1 = I2C_ACK ∧
    (pcf8583_write (pcf8583_start m i2c_addr operation).2 b).2.pcf.reg_address = b ∧
    (pcf8583_write (pcf8583_start m i2c_addr operation).2 b).2.pcf.state = PCF_STATE_DATA ∧
    (pcf8583_write (pcf8583_start m i2c_addr operation).2 b).2.cmosram = m.cmosram := by
  refine ⟨?_, ?_⟩
  · intro h
    obtain ⟨h1, h2, h3⟩ := pcf8583_write_addr m b h
    refine ⟨h1, ?_, ?_, h3, ?_⟩
    · rw [h2]; exact Nat.mod_eq_of_lt hb
    · rw [h2]
    · simp [pcf8583_write, h, List.count_append]
  · obtain ⟨h1, h2, h3⟩ := pcf8583_write_addr (pcf8583_start m i2c_addr operation).2 b rfl
    refine ⟨h1, ?_, ?_, h3⟩
    · rw [h2]; exact Nat.mod_eq_of_lt hb
    · rw [h2]

/-- Witness for C11: the byte 0x3F written to an RTC in its address phase. -/
theorem pcf8583_write_address_phase_witness :
    (0x3f : Nat) < 256 ∧
    (pcf8583_write (pcf8583_start sample_busy 0x50 I2C_WRITE).2 0x3f).2.pcf.reg_address = 0x3f ∧
    (pcf8583_write (pcf8583_start sample_busy 0x50 I2C_WRITE).2 0x3f).2.cmosram
      = sample_busy.cmosram :=
  ⟨by decide,
    (pcf8583_write_address_phase sample_busy 0x3f 0x50 I2C_WRITE (by decide)).2.2.1,
    (pcf8583_write_address_phase sample_busy 0x3f 0x50 I2C_WRITE (by decide)).2.2.2.2⟩

/-- C12: RTC read.  For every store, register address `r < 256` and
broken-down UTC time, `pcf8583_read` with `r < 16` first sets store bytes 1..6
to 0, BCD(sec), BCD(min), BCD(hour), `((year & 3) << 6) | BCD(mday)` and
`(wday << 5) | BCD(mon + 1)` (year = `tm_year + 1900`) and changes no other
byte, and with `r >= 16` leaves the store unchanged; in both cases it returns
the resulting store byte at `r`, sets the register address to `(r + 1) mod 256`
and leaves the RTC phase unchanged. -/
theorem pcf8583_read_time (t : Tm) (m : Machine)
    (hr : m.pcf.reg_address < 256)
    (hsec : t.tm_sec ≤ 61) (hmin : t.tm_min ≤ 59) (hhour : t.tm_hour ≤ 23)
    (hmday : t.tm_mday ≤ 31) (hmon : t.tm_mon ≤ 11) (hwday : t.tm_wday ≤ 6) :
    (m.pcf.reg_address < 16 →
      (pcf8583_read t m).2.2.cmosram 1 = 0 ∧
      (pcf8583_read t m).2.2.cmosram 2 = BIN2BCD t.tm_sec ∧
      (pcf8583_read t m).2.2.cmosram 3 = BIN2BCD t.tm_min ∧
      (pcf8583_read t m).2.2.cmosram 4 = BIN2BCD t.tm_hour ∧
      (pcf8583_read t m).2.2.cmosram 5
        = (Int.toNat ((t.tm_year + 1900) % 4) <<< 6) ||| BIN2BCD t.tm_mday ∧
      (pcf8583_read t m).2.2.cmosram 6 = (t.tm_wday <<< 5) ||| BIN2BCD (t.tm_mon + 1) ∧
      ∀ a, (a < 1 ∨ 6 < a) → (pcf8583_read t m).2.2.cmosram a = m.cmosram a) ∧
    (16 ≤ m.pcf.reg_address → (pcf8583_read t m).2.2.cmosram = m.cmosram) ∧
    (∀ y : Nat, t.tm_year + 1900 = y → Int.toNat ((t.tm_year + 1900) % 4) = y &&& 3) ∧
    (pcf8583_read t m).2.1 = (pcf8583_read t m).2.2.cmosram m.pcf.reg_address ∧
    (pcf8583_read t m).2.2.pcf.reg_address = (m.pcf.reg_address + 1) % 256 ∧
    (pcf8583_read t m).2.2.pcf.state = m.pcf.state := by
  have hy := year_low_bits (t.tm_year + 1900)
  refine ⟨?_, ?_, hy.2, ?_, pcf8583_read_reg t m, ?_⟩
  · intro h16
    have e1 := Nat.mod_eq_of_lt (bcd_fits t.tm_sec (by omega))
    have e2 := Nat.mod_eq_of_lt (bcd_fits t.tm_min (by omega))
    have e3 := Nat.mod_eq_of_lt (bcd_fits t.tm_hour (by omega))
    have e4 := Nat.mod_eq_of_lt (day_byte_fits _ hy.1 t.tm_mday (by omega))
    have e5 := Nat.mod_eq_of_lt (month_byte_fits t.tm_wday (by omega) (t.tm_mon + 1) (by omega))
    have h16' : m.pcf.reg_address < 0x10 := h16
    simp only [pcf8583_read, h16', if_true, cmosgettime, ram_set]
    refine ⟨by simp, by simp [e1], by simp [e2], by simp [e3], by simp [e4], by simp [e5], ?_⟩
    intro a ha
    have h1 : a ≠ 1 := by omega
    have h2 : a ≠ 2 := by omega
    have h3 : a ≠ 3 := by omega
    have h4 : a ≠ 4 := by omega
    have h5 : a ≠ 5 := by omega
    have h6 : a ≠ 6 := by omega
    simp [h1, h2, h3, h4, h5, h6]
  · intro h16
    have h16' : ¬ m.pcf.reg_address < 0x10 := by omega
    simp only [pcf8583_read, h16', if_false]
  · unfold pcf8583_read
    by_cases h : m.pcf.reg_address < 0x10 <;> simp [h, cmosgettime]
  · unfold pcf8583_read
    by_cases h : m.pcf.reg_address < 0x10 <;> simp [h, cmosgettime]

/-- Witness for C12: a read at register address 2 (seconds) at 12:34:56 on
Thursday 29 February 2024. -/
theorem pcf8583_read_time_witness :
    (sample_clock_read.pcf.reg_address = 2 ∧ sample_time.tm_sec = 56) ∧
    (pcf8583_read sample_time sample_clock_read).2.1 = 0x56 ∧
    (pcf8583_read sample_time sample_clock_read).2.2.cmosram 5 = 0x29 ∧
    (pcf8583_read sample_time sample_clock_read).2.2.cmosram 6 = 0x82 ∧
    (pcf8583_read sample_time sample_clock_read).2.2.pcf.reg_address = 3 :=
  ⟨by decide,
    ((pcf8583_read_time sample_time sample_clock_read (by decide) (by decide) (by decide)
      (by decide) (by decide) (by decide) (by decide)).2.2.2.1).trans
      ((pcf8583_read_time sample_time sample_clock_read (by decide) (by decide) (by decide)
        (by decide) (by decide) (by decide) (by decide)).1 (by decide)).2.1,
    ((pcf8583_read_time sample_time sample_clock_read (by decide) (by decide) (by decide)
      (by decide) (by decide) (by decide) (by decide)).1 (by decide)).2.2.2.2.1,
    ((pcf8583_read_time sample_time sample_clock_read (by decide) (by decide) (by decide)
      (by decide) (by decide) (by decide) (by decide)).1 (by decide)).2.2.2.2.2.1,
    (pcf8583_read_time sample_time sample_clock_read (by decide) (by decide) (by decide)
      (by decide) (by decide) (by decide) (by decide)).2.2.2.2.1⟩

/-- C16: Acknowledge drive.  On a falling clock edge the machine sets
`i2cdata` to 0 in AckReadAddr and in AckWrite and to 1 in NackWrite, with
`i2cclock = 1` in all three; on a rising clock edge (data pin as previously
sampled) AckReadAddr moves to Reading with bit counter 8, and AckWrite and
NackWrite move to Writing with bit counter 0 and inbound buffer 0. -/
theorem acknowledge_drive (hd : Headers) (t : Tm) (m : Machine) (x : Nat) :
    (m.serdes.oldpinstate &&& I2C_SCL ≠ 0 →
      ((m.serdes.state = I2C_STATE_ACK_READ_ADDR ∨ m.serdes.state = I2C_STATE_ACK_WRITE) →
        ∃ m', cmosi2cchange hd t 0 x m = .ok m' ∧ m'.i2cdata = 0 ∧ m'.i2cclock = 1 ∧
          m'.serdes.state = m.serdes.state) ∧
      (m.serdes.state = I2C_STATE_NACK_WRITE →
        ∃ m', cmosi2cchange hd t 0 x m = .ok m' ∧ m'.i2cdata = 1 ∧ m'.i2cclock = 1 ∧
          m'.serdes.state = m.serdes.state)) ∧
    (m.serdes.oldpinstate &&& I2C_SCL = 0 → m.serdes.oldpinstate &&& I2C_SDA = x →
      (m.serdes.state = I2C_STATE_ACK_READ_ADDR →
        ∃ m', cmosi2cchange hd t 1 x m = .ok m' ∧ m'.serdes.state = I2C_STATE_READ ∧
          m'.serdes.bitcount = 8 ∧ m'.serdes.slave_was_accessed = 1) ∧
      ((m.serdes.state = I2C_STATE_ACK_WRITE ∨ m.serdes.state = I2C_STATE_NACK_WRITE) →
        ∃ m', cmosi2cchange hd t 1 x m = .ok m' ∧ m'.serdes.state = I2C_STATE_WRITE ∧
          m'.serdes.bitcount = 0 ∧ m'.serdes.inbuf = 0)) := by
  refine ⟨?_, ?_⟩
  · intro hclk
    refine ⟨?_, ?_⟩
    · intro hst
      unfold cmosi2cchange
      rcases hst with hst | hst <;>
        simp [dispatch, hst, case_ACK_WRITE, case_ACK_READ_ADDR, hclk, store_pins]
    · intro hst
      unfold cmosi2cchange
      simp [dispatch, hst, case_ACK_WRITE, hclk, store_pins]
  · intro hclk hdata
    have hno1 : ¬ ((1 : Nat) ≠ 0 ∧ m.serdes.oldpinstate &&& I2C_SDA ≠ 0 ∧ x = 0) := by
      rw [hdata]; tauto
    have hno2 : ¬ ((1 : Nat) ≠ 0 ∧ m.serdes.oldpinstate &&& I2C_SDA = 0 ∧ x ≠ 0) := by
      rw [hdata]; tauto
    refine ⟨?_, ?_⟩
    · intro hst
      unfold cmosi2cchange
      simp only [if_neg hno1, if_neg hno2]
      simp [dispatch, hst, case_ACK_READ_ADDR, hclk, store_pins]
    · intro hst
      unfold cmosi2cchange
      simp only [if_neg hno1, if_neg hno2]
      rcases hst with hst | hst <;>
        simp [dispatch, hst, case_ACK_WRITE, hclk, store_pins]

/-- Witness for C16: the falling clock edge in NackWrite leaves the data line
high. -/
theorem acknowledge_drive_witness :
    (sample_nack.serdes.oldpinstate &&& I2C_SCL ≠ 0 ∧
      sample_nack.serdes.state = I2C_STATE_NACK_WRITE) ∧
    ∃ m', cmosi2cchange sample_headers epoch 0 1 sample_nack = .ok m' ∧ m'.i2cdata = 1 ∧
      m'.i2cclock = 1 ∧ m'.serdes.state = sample_nack.serdes.state :=
  ⟨by decide, ((acknowledge_drive sample_headers epoch sample_nack 1).1 (by decide)).2 rfl⟩

/-- C18: Machine reset of the store.  For every prior store, host time and
machine model, after `cmos_reset` the bytes 0..15 are zero and the byte at 0x3F
is ((sum of the resulting store's bytes at 0x10 .. 0xFF other than 0x3F) + 1)
mod 256; those bytes are the ones `cmos_update_settings` left, so the checksum
covers the regenerated year, DST and mouse-type bytes and the clearing of
bytes 0..15 does not invalidate it. -/
theorem cmos_reset_store (hd : Headers) (t tloc : Tm) (model : Nat) (m : Machine) :
    (∀ a, a < 16 → (cmos_reset hd t tloc model m).cmosram a = 0) ∧
    (cmos_reset hd t tloc model m).cmosram 0x3f
      = ((persistent_addresses.map (cmos_reset hd t tloc model m).cmosram).sum + 1) % 256 ∧
    (∀ a, 16 ≤ a → a ≠ 0x3f →
      (cmos_reset hd t tloc model m).cmosram a
        = (cmos_update_settings hd t tloc model m).cmosram a) ∧
    (0xc0 ∈ persistent_addresses ∧ 0xc1 ∈ persistent_addresses ∧
      0x2c ∈ persistent_addresses ∧ 0x5d ∈ persistent_addresses) := by
  have hrest : ∀ a, 16 ≤ a → a ≠ 0x3f →
      (cmos_reset hd t tloc model m).cmosram a
        = (cmos_update_settings hd t tloc model m).cmosram a := by
    intro a h16 h3f
    have hn : ¬ a < 16 := by omega
    simp only [cmos_reset, hn, if_false]
    exact cmos_update_checksum_other _ a h3f
  have hmap : persistent_addresses.map (cmos_reset hd t tloc model m).cmosram
      = persistent_addresses.map (cmos_update_settings hd t tloc model m).cmosram := by
    apply List.map_congr_left
    intro a ha
    simp only [persistent_addresses, List.mem_filter, List.mem_range, decide_eq_true_eq] at ha
    exact hrest a ha.2.1 ha.2.2
  refine ⟨?_, ?_, hrest, ?_⟩
  · intro a ha
    simp [cmos_reset, ha]
  · rw [hmap, ← checksum_stored]
    simp [cmos_reset]
  · simp [persistent_addresses]

/-- C19: Bus reset.  For every prior state and every mask (a `uint32_t`),
after `reseti2c(mask)` the machine is in Idle with no active responder, bit
counter, address, inbound and outbound buffers all 0, both output pins high,
the SPD register address 0, the stored population mask equal to `mask`, and
the RTC and the SPD registered with their operation tables at addresses 0x50
and 0x54. -/
theorem reseti2c_state (mask : Nat) (m : Machine) (hmask : mask < 4294967296) :
    (reseti2c mask m).serdes.state = I2C_STATE_IDLE ∧
    (reseti2c mask m).serdes.active_slave = none ∧
    (reseti2c mask m).serdes.bitcount = 0 ∧
    (reseti2c mask m).serdes.address = 0 ∧
    (reseti2c mask m).serdes.inbuf = 0 ∧
    (reseti2c mask m).serdes.outbuf = 0 ∧
    (reseti2c mask m).serdes.slave_was_accessed = 0 ∧
    (reseti2c mask m).i2cclock = 1 ∧
    (reseti2c mask m).i2cdata = 1 ∧
    (reseti2c mask m).spd.reg_address = 0 ∧
    (reseti2c mask m).i2c_devices = mask ∧
    (reseti2c mask m).pcf8583 = { devops := some .pcf8583_ops, address := 0x50 } ∧
    (reseti2c mask m).spd_i2c = { devops := some .spd_ops, address := 0x54 } := by
  simp [reseti2c, reset_serdes, Nat.mod_eq_of_lt hmask]

/-- Witness for C19: a reset with both devices on the bus in the middle of a
transaction. -/
theorem reseti2c_state_witness :
    (3 : Nat) < 4294967296 ∧
    (reseti2c 3 sample_busy).serdes.state = I2C_STATE_IDLE ∧
    (reseti2c 3 sample_busy).serdes.active_slave = none ∧
    (reseti2c 3 sample_busy).i2c_devices = 3 :=
  ⟨by decide,
    (reseti2c_state 3 sample_busy (by decide)).1,
    (reseti2c_state 3 sample_busy (by decide)).2.1,
    (reseti2c_state 3 sample_busy (by decide)).2.2.2.2.2.2.2.2.2.2.1⟩

/-- C20: Store load.  With the file cmos.ram as an optional byte sequence: if
it cannot be opened, `cmos_init` returns and the 256 store bytes are zero; if
it holds at least 256 bytes, `cmos_init` returns and the store holds its first
256 bytes; if it holds fewer than 256 bytes, `cmos_init` ends the process with
a fatal error. -/
theorem cmos_init_load (m : Machine) :
    (m.cmos_file = none →
      ∃ m', cmos_init m = .ok m' ∧ ∀ a, a < 256 → m'.cmosram a = 0) ∧
    (∀ bytes : List Nat, m.cmos_file = some bytes → 256 ≤ bytes.length →
      (∀ b ∈ bytes, b < 256) →
      ∃ m', cmos_init m = .ok m' ∧ ∀ a, a < 256 → bytes[a]? = some (m'.cmosram a)) ∧
    (∀ bytes : List Nat, m.cmos_file = some bytes → bytes.length < 256 →
      cmos_init m = .error .fatal) := by
  refine ⟨?_, ?_, ?_⟩
  · intro h
    refine ⟨_, by simp only [cmos_init, h]; rfl, ?_⟩
    intro a ha
    simp [ha]
  · intro bytes h hlen hb
    have hn : ¬ bytes.length < 256 := by omega
    refine ⟨_, by simp only [cmos_init, h, hn, if_false]; rfl, ?_⟩
    intro a ha
    have hlt : a < bytes.length := by omega
    have hget : bytes.getD a 0 = bytes[a] := by
      simp [List.getD, List.getElem?_eq_getElem hlt]
    simp only [ha, if_true, hget, List.getElem?_eq_getElem hlt]
    rw [Nat.mod_eq_of_lt (hb _ (List.getElem_mem hlt))]
  · intro bytes h hlen
    simp [cmos_init, h, hlen]

set_option maxRecDepth 100000 in
/-- Witness for C20: a missing file, a file of 300 bytes and a file of 100
bytes. -/
theorem cmos_init_load_witness :
    (power_on.cmos_file = none ∧ sample_long_file.cmos_file.map List.length = some 300 ∧
      sample_short_file.cmos_file.map List.length = some 100) ∧
    (∃ m', cmos_init power_on = .ok m' ∧ ∀ a, a < 256 → m'.cmosram a = 0) ∧
    (∃ m', cmos_init sample_long_file = .ok m' ∧
      ∀ a, a < 256 → ((List.range 300).map (fun i => i % 256))[a]? = some (m'.cmosram a)) ∧
    cmos_init sample_short_file = .error .fatal :=
  ⟨by decide,
    (cmos_init_load power_on).1 rfl,
    (cmos_init_load sample_long_file).2.1 _ rfl (by decide) (by decide),
    (cmos_init_load sample_short_file).2.2 _ rfl (by decide)⟩

/-- C13: Reading is most significant bit first.  From the Reading state with
bit counter 8 and an active responder (registry installed, clock last sampled
high), over eight clock pulses with any data pin values: the responder's read
is entered exactly once, on the first falling edge; the falling edges set
`i2cdata` to bits 7, 6, .. , 0 of the byte that read returned, and `i2cclock`
to 1; the first seven rising edges leave the machine in Reading and the eighth
moves it to AckRead; no rising edge changes the output pins. -/
theorem reading_msb_first (hd : Headers) (clk : Nat → Tm) (m : Machine) (sl : SlaveRef)
    (xs : List Nat) (hlen : xs.length = 8) (hxs : ∀ x ∈ xs, x ≤ 1)
    (hreg : Registered m)
    (hst : m.serdes.state = I2C_STATE_READ) (hcount : m.serdes.bitcount = 8)
    (hact : m.serdes.active_slave = some sl)
    (hclk : m.serdes.oldpinstate &&& I2C_SCL ≠ 0) :
    ∃ ps, read_pulses hd clk xs m = .ok ps ∧
      ps.map (fun p => p.1.i2cdata)
        = [bit_of (sl.ops.read (clk 0) m).2.1 7, bit_of (sl.ops.read (clk 0) m).2.1 6,
           bit_of (sl.ops.read (clk 0) m).2.1 5, bit_of (sl.ops.read (clk 0) m).2.1 4,
           bit_of (sl.ops.read (clk 0) m).2.1 3, bit_of (sl.ops.read (clk 0) m).2.1 2,
           bit_of (sl.ops.read (clk 0) m).2.1 1, bit_of (sl.ops.read (clk 0) m).2.1 0] ∧
      ps.map (fun p => p.2.serdes.state)
        = List.replicate 7 I2C_STATE_READ ++ [I2C_STATE_ACK_READ] ∧
      ∀ p ∈ ps, p.1.i2cclock = 1 ∧ p.2.i2cclock = 1 ∧ p.2.i2cdata = p.1.i2cdata ∧
        p.1.serdes.state = I2C_STATE_READ ∧
        p.1.effects = m.effects ++ [Effect.read sl.ops] ∧
        p.2.effects = m.effects ++ [Effect.read sl.ops] := by
  match xs, hlen with
  | x :: xs', hlen' =>
    obtain ⟨ps, h1, h2, h3, h4⟩ := read_pulses_byte hd clk m sl x xs'
      (by simpa using hlen') (hxs x (by simp)) (fun y hy => hxs y (by simp [hy]))
      hreg hst hcount hact hclk
    exact ⟨ps, h1, h2.trans (out_bits_byte _), h3, h4⟩

/-- Witness for C13: a byte read from the SPD at register 2, where the table
holds 4, with the data pin held high. -/
theorem reading_msb_first_witness :
    (Registered sample_reading ∧ sample_reading.serdes.state = I2C_STATE_READ ∧
      sample_reading.serdes.bitcount = 8 ∧
      sample_reading.serdes.active_slave = some .spd_i2c ∧
      (spd_read sample_reading).2.1 = 4) ∧
    ∃ ps, read_pulses sample_headers (fun _ => epoch) [1, 1, 1, 1, 1, 1, 1, 1] sample_reading
        = .ok ps ∧
      ps.map (fun p => p.1.i2cdata) = [0, 0, 0, 0, 0, 1, 0, 0] ∧
      ps.map (fun p => p.2.serdes.state)
        = List.replicate 7 I2C_STATE_READ ++ [I2C_STATE_ACK_READ] :=
  ⟨by decide,
    (reading_msb_first sample_headers (fun _ => epoch) sample_reading .spd_i2c
      [1, 1, 1, 1, 1, 1, 1, 1] (by decide) (by decide) (by decide) (by decide) (by decide)
      (by decide) (by decide)).imp (fun _ h => ⟨h.1, h.2.1, h.2.2.1⟩)⟩

/-- Counterexample for C14 as stated: with both devices on the bus, after a
Start condition and the address byte 0x22 (address 0x11, which no responder
has) the inbound buffer and the recorded address are 0, not 0x22 and 0x11. -/
theorem addressing_byte_counterexample :
    ∃ m', run sample_headers (fun _ => epoch) ((1, 0) :: send_byte 0x22)
        (reseti2c 3 sample_idle) = .ok m' ∧
      m'.serdes.inbuf = 0 ∧ m'.serdes.address = 0 ∧
      m'.serdes.inbuf ≠ 0x22 ∧ m'.serdes.address ≠ 0x22 >>> 1 :=
  ⟨_, (address_byte_outcome sample_headers (fun _ => epoch) (reseti2c 3 sample_idle) 0x22
      (by decide) (by decide) (by decide)).2.2 (by decide) (by decide),
    rfl, rfl, by decide, by decide⟩

/-- C14 (amended): Addressing.  From a Start condition (registry installed,
data pin last sampled high), after the eight clock pulses of a byte `b`, most
significant bit first: if the address `b >> 1` is 0x50 with the RTC on the bus,
or 0x54 with the SPD on the bus, the inbound buffer is `b`, the recorded
address is `b >> 1`, that responder's start is entered once, it is the active
responder, and the state is AckReadAddr when bit 0 of `b` is 1 and AckWrite
when it is 0; otherwise the machine is reset: Idle, no active responder,
inbound buffer and recorded address 0, and no responder operation entered. -/
theorem addressing_byte (hd : Headers) (clk : Nat → Tm) (m : Machine) (b : Nat)
    (hb : b < 256) (hreg : Registered m)
    (hpins : m.serdes.oldpinstate &&& I2C_SDA ≠ 0) :
    ∃ m', run hd clk ((1, 0) :: send_byte b) m = .ok m' ∧
      ((b >>> 1 = 0x50 ∧ m.i2c_devices &&& hd.I2C_PCF8583 ≠ 0) →
        m'.serdes.inbuf = b ∧ m'.serdes.address = b >>> 1 ∧
        m'.effects = m.effects ++
          [Effect.start .pcf8583_ops (b >>> 1) (if bit_of b 0 = 1 then I2C_READ else I2C_WRITE)] ∧
        m'.serdes.active_slave = some .pcf8583 ∧
        m'.serdes.state
          = (if bit_of b 0 = 1 then I2C_STATE_ACK_READ_ADDR else I2C_STATE_ACK_WRITE)) ∧
      ((b >>> 1 = 0x54 ∧ m.i2c_devices &&& hd.I2C_SPD_DIMM0 ≠ 0) →
        m'.serdes.inbuf = b ∧ m'.serdes.address = b >>> 1 ∧
        m'.effects = m.effects ++
          [Effect.start .spd_ops (b >>> 1) (if bit_of b 0 = 1 then I2C_READ else I2C_WRITE)] ∧
        m'.serdes.active_slave = some .spd_i2c ∧
        m'.serdes.state
          = (if bit_of b 0 = 1 then I2C_STATE_ACK_READ_ADDR else I2C_STATE_ACK_WRITE)) ∧
      (¬ (b >>> 1 = 0x50 ∧ m.i2c_devices &&& hd.I2C_PCF8583 ≠ 0) →
        ¬ (b >>> 1 = 0x54 ∧ m.i2c_devices &&& hd.I2C_SPD_DIMM0 ≠ 0) →
        m'.serdes.state = I2C_STATE_IDLE ∧ m'.serdes.active_slave = none ∧
        m'.serdes.inbuf = 0 ∧ m'.serdes.address = 0 ∧ m'.effects = m.effects ∧
        m'.i2cclock = 1 ∧ m'.i2cdata = 1) := by
  obtain ⟨o1, o2, o3⟩ := address_byte_outcome hd clk m b hb hreg hpins
  have hdir : ∀ (α : Type) (p q : α), (if b &&& 1 ≠ 0 then p else q)
      = (if bit_of b 0 = 1 then p else q) := by
    intro α p q
    have hle := bit_of_le b 0
    have hbit : bit_of b 0 = b &&& 1 := by simp [bit_of]
    rw [hbit] at hle ⊢
    by_cases h : b &&& 1 = 1
    · rw [if_pos (by omega), if_pos h]
    · rw [if_neg (by omega), if_neg h]
  by_cases hrtc : b >>> 1 = 0x50 ∧ m.i2c_devices &&& hd.I2C_PCF8583 ≠ 0
  · have hns : ¬ (b >>> 1 = 0x54 ∧ m.i2c_devices &&& hd.I2C_SPD_DIMM0 ≠ 0) := by
      rw [hrtc.1]; simp
    refine ⟨_, o1 hrtc, fun _ => ?_, fun h => absurd h hns, fun h => absurd hrtc h⟩
    simp only [addressed_rtc, started, hrtc.1, hdir]
    exact ⟨trivial, trivial, trivial, trivial, trivial⟩
  · by_cases hspd : b >>> 1 = 0x54 ∧ m.i2c_devices &&& hd.I2C_SPD_DIMM0 ≠ 0
    · refine ⟨_, o2 hspd, fun h => absurd h hrtc, fun _ => ?_, fun _ h => absurd hspd h⟩
      simp only [addressed_spd, started, hspd.1, hdir]
      exact ⟨trivial, trivial, trivial, trivial, trivial⟩
    · refine ⟨_, o3 hrtc hspd, fun h => absurd h hrtc, fun h => absurd h hspd, fun _ _ => ?_⟩
      simp [unaddressed, started]

/-- Witness for C14: the address byte 0xA9 (address 0x54, read) with both
devices on the bus selects the SPD. -/
theorem addressing_byte_witness :
    ((0xa9 : Nat) < 256 ∧ Registered (reseti2c 3 sample_idle) ∧
      (reseti2c 3 sample_idle).serdes.oldpinstate &&& I2C_SDA ≠ 0 ∧
      (0xa9 >>> 1 = 0x54 ∧
        (reseti2c 3 sample_idle).i2c_devices &&& sample_headers.I2C_SPD_DIMM0 ≠ 0)) ∧
    ∃ m', run sample_headers (fun _ => epoch) ((1, 0) :: send_byte 0xa9)
        (reseti2c 3 sample_idle) = .ok m' ∧
      m'.serdes.inbuf = 0xa9 ∧ m'.serdes.address = 0x54 ∧
      m'.serdes.active_slave = some .spd_i2c ∧
      m'.serdes.state = I2C_STATE_ACK_READ_ADDR :=
  ⟨by decide,
    (addressing_byte sample_headers (fun _ => epoch) (reseti2c 3 sample_idle) 0xa9
      (by decide) (by decide) (by decide)).imp
      (fun _ h => ⟨h.1, (h.2.2.1 (by decide)).1, (h.2.2.1 (by decide)).2.1,
        (h.2.2.1 (by decide)).2.2.2.1, (h.2.2.1 (by decide)).2.2.2.2⟩)⟩

/-- C15: Population mask.  After `reseti2c(mask)`, a Start condition and an
address byte `b`: address 0x50 makes the RTC the active responder if and only
if `mask & I2C_PCF8583` is non-zero, address 0x54 makes the SPD the active
responder if and only if `mask & I2C_SPD_DIMM0` is non-zero, and no other
address selects either; with `mask = 0` every address byte returns the machine
to Idle with no active responder and both output pins high. -/
theorem population_mask (hd : Headers) (clk : Nat → Tm) (m : Machine) (mask b : Nat)
    (hmask : mask < 4294967296) (hb : b < 256)
    (hpins : m.serdes.oldpinstate &&& I2C_SDA ≠ 0) :
    ∃ m', run hd clk ((1, 0) :: send_byte b) (reseti2c mask m) = .ok m' ∧
      (b >>> 1 = 0x50 →
        (m'.serdes.active_slave = some .pcf8583 ↔ mask &&& hd.I2C_PCF8583 ≠ 0)) ∧
      (b >>> 1 = 0x54 →
        (m'.serdes.active_slave = some .spd_i2c ↔ mask &&& hd.I2C_SPD_DIMM0 ≠ 0)) ∧
      (m'.serdes.active_slave = some .pcf8583 → b >>> 1 = 0x50) ∧
      (m'.serdes.active_slave = some .spd_i2c → b >>> 1 = 0x54) ∧
      (mask = 0 →
        m'.serdes.state = I2C_STATE_IDLE ∧ m'.serdes.active_slave = none ∧
        m'.i2cclock = 1 ∧ m'.i2cdata = 1) := by
  obtain ⟨hreg, hdev, hold, _, _, _⟩ := reseti2c_registered mask m
  have hpins0 : (reseti2c mask m).serdes.oldpinstate &&& I2C_SDA ≠ 0 := by
    rw [hold]; exact hpins
  obtain ⟨o1, o2, o3⟩ := address_byte_outcome hd clk (reseti2c mask m) b hb hreg hpins0
  rw [hdev, Nat.mod_eq_of_lt hmask] at o1 o2 o3
  by_cases hrtc : b >>> 1 = 0x50 ∧ mask &&& hd.I2C_PCF8583 ≠ 0
  · refine ⟨_, o1 hrtc, fun _ => ⟨fun _ => hrtc.2, fun _ => rfl⟩, fun h => ?_,
      fun _ => hrtc.1, fun h => ?_, fun h0 => ?_⟩
    · rw [hrtc.1] at h; exact absurd h (by decide)
    · exact absurd h (by simp [addressed_rtc])
    · exact absurd hrtc.2 (by simp [h0])
  · by_cases hspd : b >>> 1 = 0x54 ∧ mask &&& hd.I2C_SPD_DIMM0 ≠ 0
    · refine ⟨_, o2 hspd, fun h => ?_, fun _ => ⟨fun _ => hspd.2, fun _ => rfl⟩,
        fun h => ?_, fun _ => hspd.1, fun h0 => ?_⟩
      · rw [hspd.1] at h; exact absurd h (by decide)
      · exact absurd h (by simp [addressed_spd])
      · exact absurd hspd.2 (by simp [h0])
    · refine ⟨_, o3 hrtc hspd, fun h => ⟨fun ha => ?_, fun hm => absurd ⟨h, hm⟩ hrtc⟩,
        fun h => ⟨fun ha => ?_, fun hm => absurd ⟨h, hm⟩ hspd⟩, fun ha => ?_, fun ha => ?_,
        fun _ => ⟨rfl, rfl, rfl, rfl⟩⟩
      · exact absurd ha (by simp [unaddressed])
      · exact absurd ha (by simp [unaddressed])
      · exact absurd ha (by simp [unaddressed])
      · exact absurd ha (by simp [unaddressed])

/-- Witness for C15: with only the SPD bit in the mask, the address byte 0xA0
(address 0x50) selects nothing. -/
theorem population_mask_witness :
    ((2 : Nat) < 4294967296 ∧ (0xa0 : Nat) < 256 ∧
      sample_idle.serdes.oldpinstate &&& I2C_SDA ≠ 0 ∧
      2 &&& sample_headers.I2C_PCF8583 = 0) ∧
    ∃ m', run sample_headers (fun _ => epoch) ((1, 0) :: send_byte 0xa0)
        (reseti2c 2 sample_idle) = .ok m' ∧
      (m'.serdes.active_slave = some .pcf8583 ↔ 2 &&& sample_headers.I2C_PCF8583 ≠ 0) :=
  ⟨by decide,
    (population_mask sample_headers (fun _ => epoch) sample_idle 2 0xa0
      (by decide) (by decide) (by decide)).imp (fun _ h => ⟨h.1, h.2.1 (by decide)⟩)⟩

/-- C17: starting from `reseti2c` with any mask, every finite sequence of
`cmosi2cchange` calls (with any pin values, boolean ones included) returns
normally, so neither fatal "no slave" exit is taken and the Reading branch
never follows a missing responder; and whenever the state reached is
AckReadAddr, AckRead, AckWrite, NackWrite, Reading or Writing, an active
responder is recorded. -/
theorem responder_recorded (hd : Headers) (clk : Nat → Tm) (mask : Nat) (m : Machine)
    (evs : List (Nat × Nat)) :
    ∃ m', run hd clk evs (reseti2c mask m) = .ok m' ∧
      (∀ e, run hd clk evs (reseti2c mask m) ≠ .error e) ∧
      ((m'.serdes.state = I2C_STATE_ACK_READ_ADDR ∨ m'.serdes.state = I2C_STATE_ACK_READ ∨
        m'.serdes.state = I2C_STATE_ACK_WRITE ∨ m'.serdes.state = I2C_STATE_NACK_WRITE ∨
        m'.serdes.state = I2C_STATE_READ ∨ m'.serdes.state = I2C_STATE_WRITE) →
        ∃ sl, m'.serdes.active_slave = some sl) := by
  obtain ⟨m', hrun, hb⟩ := businv_run hd evs clk _ (businv_reseti2c mask m)
  refine ⟨m', hrun, ?_, ?_⟩
  · intro e he
    rw [hrun] at he
    cases he
  · intro hs
    cases hx : m'.serdes.active_slave with
    | none => exact absurd hx (hb.2 hs)
    | some sl => exact ⟨sl, rfl⟩

/-- C25: RTC start and stop.  `pcf8583_start` returns `I2C_ACK` for every bus
address and direction and leaves the RTC in its address phase; `pcf8583_stop`
leaves the RTC in its address phase; neither changes the register address or
the store. -/
theorem pcf8583_start_stop (m : Machine) (i2c_addr operation : Nat) :
    (pcf8583_start m i2c_addr operation).1 = I2C_ACK ∧
    (pcf8583_start m i2c_addr operation).2.pcf.state = PCF_STATE_ADDR ∧
    (pcf8583_start m i2c_addr operation).2.pcf.reg_address = m.pcf.reg_address ∧
    (pcf8583_start m i2c_addr operation).2.cmosram = m.cmosram ∧
    (pcf8583_stop m).pcf.state = PCF_STATE_ADDR ∧
    (pcf8583_stop m).pcf.reg_address = m.pcf.reg_address ∧
    (pcf8583_stop m).cmosram = m.cmosram :=
  ⟨rfl, rfl, rfl, rfl, rfl, rfl, rfl⟩

/-- C27: BCD encoding.  For every `v` from 0 to 99, `BIN2BCD(v)` is a byte
whose high nibble is `v / 10` and whose low nibble is `v % 10`, both at most 9,
so that `10 * (BIN2BCD(v) >> 4) + (BIN2BCD(v) & 15) = v`. -/
theorem bin2bcd_digits (v : Nat) (hv : v ≤ 99) :
    BIN2BCD v < 256 ∧
    BIN2BCD v >>> 4 = v / 10 ∧ BIN2BCD v &&& 15 = v % 10 ∧
    BIN2BCD v >>> 4 ≤ 9 ∧ BIN2BCD v &&& 15 ≤ 9 ∧
    10 * (BIN2BCD v >>> 4) + (BIN2BCD v &&& 15) = v := by
  obtain ⟨h1, h2, h3⟩ := bcd_nibbles v (by omega)
  refine ⟨bcd_fits v (by omega), h1, h2, ?_, ?_, h3⟩
  · rw [h1]; omega
  · rw [h2]; omega

/-- Witness for C27: 59 is encoded as 0x59. -/
theorem bin2bcd_digits_witness :
    (59 : Nat) ≤ 99 ∧ BIN2BCD 59 = 0x59 ∧ BIN2BCD 59 >>> 4 = 5 ∧ BIN2BCD 59 &&& 15 = 9 :=
  ⟨by decide, by decide, (bin2bcd_digits 59 (by decide)).2.1, (bin2bcd_digits 59 (by decide)).2.2.1⟩

/-- C28: Daylight-saving flag.  `cmos_update_settings` sets bit 7 of store byte
0x2C when the local time has `tm_isdst > 0`, clears it when `tm_isdst = 0`, and
leaves the byte as it was when `tm_isdst < 0`; bits 0..6 of the byte are the
same before and after in all three cases. -/
theorem daylight_saving_flag (hd : Headers) (t tloc : Tm) (model : Nat) (m : Machine) :
    (tloc.tm_isdst > 0 →
      (cmos_update_settings hd t tloc model m).cmosram 0x2c &&& 0x80 = 0x80) ∧
    (tloc.tm_isdst = 0 →
      (cmos_update_settings hd t tloc model m).cmosram 0x2c &&& 0x80 = 0) ∧
    (tloc.tm_isdst < 0 →
      (cmos_update_settings hd t tloc model m).cmosram 0x2c = m.cmosram 0x2c) ∧
    (cmos_update_settings hd t tloc model m).cmosram 0x2c &&& 0x7f = m.cmosram 0x2c &&& 0x7f := by
  obtain ⟨_, _, h2c, _, _⟩ := cmos_update_settings_ram hd t tloc model m
  obtain ⟨d1, d2, d3, d4⟩ := dst_bit (m.cmosram 0x2c)
  rw [h2c]
  refine ⟨fun h => ?_, fun h => ?_, fun h => ?_, ?_⟩
  · rw [if_pos (by omega), if_pos h]; exact d1
  · rw [if_pos (by omega), if_neg (by omega)]; exact d3
  · rw [if_neg (by omega)]
  · by_cases h0 : tloc.tm_isdst ≥ 0
    · by_cases h1 : tloc.tm_isdst > 0
      · rw [if_pos h0, if_pos h1]; exact d2
      · rw [if_pos h0, if_neg h1]; exact d4
    · rw [if_neg h0]

/-- Counterexample for C29 as stated: in the year 25600 byte 0xC1 holds 0, not
25600 div 100 = 256; in the year -1 byte 0xC0 holds 255, which is neither
remainder of -1 by 100 (99, or -1 as C computes it); and for
`tm_year = 2147481748` the C `int` sum `tm_year + 1900` wraps, so that the year
2147483648 is stored as 208 and 236, not as 48 and 20. -/
theorem year_fields_counterexample :
    sample_year_25600.tm_year + 1900 = 25600 ∧
    (cmos_update_settings sample_headers sample_year_25600 sample_year_25600 0
      sample_idle).cmosram 0xc1 = 0 ∧
    (25600 : Int) / 100 = 256 ∧
    sample_year_minus_1.tm_year + 1900 = -1 ∧
    (cmos_update_settings sample_headers sample_year_minus_1 sample_year_minus_1 0
      sample_idle).cmosram 0xc0 = 255 ∧
    (-1 : Int) % 100 = 99 ∧ Int.tmod (-1) 100 = -1 ∧
    sample_year_wrapped.tm_year + 1900 = 2147483648 ∧
    (cmos_update_settings sample_headers sample_year_wrapped sample_year_wrapped 0
      sample_idle).cmosram 0xc0 = 208 ∧
    (cmos_update_settings sample_headers sample_year_wrapped sample_year_wrapped 0
      sample_idle).cmosram 0xc1 = 236 ∧
    (2147483648 : Int) % 100 = 48 ∧ (2147483648 : Int) / 100 % 256 = 20 := by
  refine ⟨by decide, ?_, by decide, by decide, ?_, by decide, by decide, by decide, ?_, ?_,
    by decide, by decide⟩
  · rw [(cmos_update_settings_ram sample_headers sample_year_25600 sample_year_25600 0
      sample_idle).2.1]
    decide
  · rw [(cmos_update_settings_ram sample_headers sample_year_minus_1 sample_year_minus_1 0
      sample_idle).1]
    decide
  · rw [(cmos_update_settings_ram sample_headers sample_year_wrapped sample_year_wrapped 0
      sample_idle).1]
    decide
  · rw [(cmos_update_settings_ram sample_headers sample_year_wrapped sample_year_wrapped 0
      sample_idle).2.1]
    decide

/-- C29, amended: Year fields.  For every calendar year `y = tm_year + 1900`
with `0 <= y <= 2147483647`, `cmos_update_settings` stores `y mod 100` in byte
0xC0 and `(y div 100) mod 256` in byte 0xC1, as plain binary values, so that
for `y < 25600` byte 0xC1 is `y div 100` and
`100 * store[0xC1] + store[0xC0] = y`.  No store byte other than 0x2C, 0x5D,
0xC0 and 0xC1 is changed. -/
theorem year_fields (hd : Headers) (t tloc : Tm) (model : Nat) (m : Machine) (y : Nat)
    (hy : t.tm_year + 1900 = (y : Int)) (hle : y ≤ 2147483647) :
    (cmos_update_settings hd t tloc model m).cmosram 0xc0 = y % 100 ∧
    (cmos_update_settings hd t tloc model m).cmosram 0xc1 = (y / 100) % 256 ∧
    (y < 25600 →
      (cmos_update_settings hd t tloc model m).cmosram 0xc1 = y / 100 ∧
      100 * (cmos_update_settings hd t tloc model m).cmosram 0xc1
        + (cmos_update_settings hd t tloc model m).cmosram 0xc0 = y) ∧
    ∀ a, a ≠ 0x2c → a ≠ 0x5d → a ≠ 0xc0 → a ≠ 0xc1 →
      (cmos_update_settings hd t tloc model m).cmosram a = m.cmosram a := by
  have hw : int_wrap (y : Int) = (y : Int) := by
    unfold int_wrap; omega
  have hm : Int.tmod (y : Int) 100 = ((y % 100 : Nat) : Int) := by
    rw [Int.tmod_eq_emod (by omega) (by omega)]; omega
  have hq : Int.tdiv (y : Int) 100 = ((y / 100 : Nat) : Int) := by
    rw [Int.tdiv_eq_ediv (by omega) (by omega)]; omega
  obtain ⟨h0, h1, _, _, hframe⟩ := cmos_update_settings_ram hd t tloc model m
  rw [hy, hw, hm] at h0
  rw [hy, hw, hq] at h1
  clear hw hm hq
  have e0 : (cmos_update_settings hd t tloc model m).cmosram 0xc0 = y % 100 := by
    rw [h0]; omega
  have e1 : (cmos_update_settings hd t tloc model m).cmosram 0xc1 = (y / 100) % 256 := by
    rw [h1]; omega
  refine ⟨e0, e1, fun hlt => ?_, hframe⟩
  rw [e0, e1]
  omega

/-- Witness for C29: in 2026 the bytes are 26 and 20. -/
theorem year_fields_witness :
    (sample_summer.tm_year + 1900 = ((2026 : Nat) : Int) ∧ 2026 ≤ 2147483647) ∧
    (cmos_update_settings sample_headers sample_summer sample_summer 0 sample_idle).cmosram 0xc0
      = 26 ∧
    (cmos_update_settings sample_headers sample_summer sample_summer 0 sample_idle).cmosram 0xc1
      = 20 :=
  ⟨⟨by decide, by decide⟩,
    (year_fields sample_headers sample_summer sample_summer 0 sample_idle 2026 (by decide)
      (by decide)).1,
    (year_fields sample_headers sample_summer sample_summer 0 sample_idle 2026 (by decide)
      (by decide)).2.2.1 (by decide) |>.1⟩

/-- C30: Mouse type.  `cmos_update_settings` sets store byte 0x5D to 3 when
`machine.model` is `Model_A7000`, `Model_A7000plus` or `Model_Phoebe`, and to 0
for every other model, whatever the byte held before. -/
theorem mouse_type (hd : Headers) (t tloc : Tm) (model : Nat) (m : Machine) :
    ((model = hd.Model_A7000 ∨ model = hd.Model_A7000plus ∨ model = hd.Model_Phoebe) →
      (cmos_update_settings hd t tloc model m).cmosram 0x5d = 3) ∧
    (¬ (model = hd.Model_A7000 ∨ model = hd.Model_A7000plus ∨ model = hd.Model_Phoebe) →
      (cmos_update_settings hd t tloc model m).cmosram 0x5d = 0) := by
  obtain ⟨_, _, _, h5d, _⟩ := cmos_update_settings_ram hd t tloc model m
  rw [h5d]
  exact ⟨fun h => if_pos h, fun h => if_neg h⟩

/-- C21: Combined write-then-read.  After `reseti2c` with the RTC on the bus
and the data pin last sampled high, for every register address `a` from 16 to
255 whose store byte is a byte: a Start condition, the byte 0xA0, an
acknowledge clock, the byte `a`, an acknowledge clock with the data pin
released, a repeated Start condition, the byte 0xA1 and an acknowledge clock
return with the RTC register address still `a` and the machine in Reading;
the eight read clocks that follow return, and the values of `i2cdata` after
their calls with the clock low are, most significant bit first, the binary
digits of `store[a]`; the store is unchanged throughout. -/
theorem rtc_random_read (hd : Headers) (clk clk2 : Nat → Tm) (m : Machine)
    (mask a x1 x3 : Nat)
    (hmask : mask < 4294967296) (hen : mask &&& hd.I2C_PCF8583 ≠ 0)
    (hpins : m.serdes.oldpinstate &&& I2C_SDA ≠ 0)
    (ha16 : 16 ≤ a) (ha : a < 256) (hx1 : x1 ≤ 1) (hx3 : x3 ≤ 1)
    (hbyte : m.cmosram a < 256) :
    ∃ m2 bits m3,
      run hd clk
        ((1, 0) :: (send_byte 0xA0 ++ (clock_pulse x1 ++ (send_byte a ++ (clock_pulse 1 ++
          ((1, 0) :: (send_byte 0xA1 ++ (clock_pulse x3 ++ []))))))))
        (reseti2c mask m) = .ok m2 ∧
      m2.pcf.reg_address = a ∧ m2.serdes.state = I2C_STATE_READ ∧ m2.cmosram = m.cmosram ∧
      read_bits hd clk2 8 m2 = .ok (bits, m3) ∧
      bits.length = 8 ∧ byte_of_bits bits = m.cmosram a ∧ m3.cmosram = m.cmosram := by
  obtain ⟨hreg, hdev, hold, hpcf, hram, _⟩ := reseti2c_registered mask m
  have hen0 : (reseti2c mask m).i2c_devices &&& hd.I2C_PCF8583 ≠ 0 := by
    rw [hdev, Nat.mod_eq_of_lt hmask]; exact hen
  have hpins0 : (reseti2c mask m).serdes.oldpinstate &&& I2C_SDA ≠ 0 := by
    rw [hold]; exact hpins
  obtain ⟨c, hc⟩ := run_rtc_write_1 hd clk a x1
    (clock_pulse 1 ++ ((1, 0) :: (send_byte 0xA1 ++ (clock_pulse x3 ++ []))))
    (reseti2c mask m) ha hx1 hreg hen0 hpins0
  obtain ⟨w1, w2, w3⟩ := pcf8583_write_addr
    (acked_write x1 (addressed_rtc 0xA0 0 (started (reseti2c mask m)))) a rfl
  rw [Nat.mod_eq_of_lt ha] at w2
  have hW : ∃ W, W = written_rtc a (bit_of a 0)
      (acked_write x1 (addressed_rtc 0xA0 0 (started (reseti2c mask m)))) := ⟨_, rfl⟩
  obtain ⟨W, hWdef⟩ := hW
  rw [← hWdef] at hc
  have hWreg : Registered W := by
    rw [hWdef]
    simpa [written_rtc, acked_write, addressed_rtc, started, pcf8583_write, Registered]
      using hreg
  have hWst : W.serdes.state = I2C_STATE_ACK_WRITE := by rw [hWdef]; rfl
  have hWclk : W.serdes.oldpinstate &&& I2C_SCL ≠ 0 := by
    rw [hWdef]; simp only [written_rtc]; rw [(pin_high _ (bit_of_le a 0)).1]; decide
  have hWpcf : W.pcf.reg_address = a := by
    rw [hWdef]
    show (pcf8583_write _ a).2.pcf.reg_address = a
    rw [w2]
  have hWram : W.cmosram = m.cmosram := by
    rw [hWdef]
    show (pcf8583_write _ a).2.cmosram = m.cmosram
    rw [w3]
    exact hram
  have hWdev : W.i2c_devices &&& hd.I2C_PCF8583 ≠ 0 := by
    have e : W.i2c_devices = (reseti2c mask m).i2c_devices := by
      rw [hWdef]
      simp only [written_rtc]
      exact (write_frame_devices _ _).trans rfl
    rw [e]; exact hen0
  obtain ⟨c2, hc2⟩ := run_select_rtc hd (fun i => c (i + 2)) 0xA1 (clock_pulse x3 ++ [])
    (acked_write 1 W) (by decide) (by decide) hWreg hWdev
    (show ((1 <<< 1) ||| 1) &&& I2C_SDA ≠ 0 by decide)
  have hb1 : bit_of 0xA1 0 = 1 := by decide
  rw [hb1] at hc2
  have hM : ∃ M, M = acked_read_addr x3 (addressed_rtc 0xA1 1 (started (acked_write 1 W))) :=
    ⟨_, rfl⟩
  obtain ⟨M, hMdef⟩ := hM
  have hrun : run hd clk
      ((1, 0) :: (send_byte 0xA0 ++ (clock_pulse x1 ++ (send_byte a ++ (clock_pulse 1 ++
        ((1, 0) :: (send_byte 0xA1 ++ (clock_pulse x3 ++ []))))))))
      (reseti2c mask m) = .ok M := by
    rw [hc, run_ack_write hd c 1 _ W (by decide) hWst hWclk, hc2,
      run_ack_read_addr hd c2 x3 [] (addressed_rtc 0xA1 1 (started (acked_write 1 W))) hx3
        (by simp [addressed_rtc]) (by simp [addressed_rtc]), hMdef]
    rfl
  have hMreg : Registered M := by rw [hMdef]; exact hWreg
  have hMpcf : M.pcf.reg_address = a := by rw [hMdef]; exact hWpcf
  have hMram : M.cmosram = m.cmosram := by rw [hMdef]; exact hWram
  have hread := read_bits_byte_rtc hd clk2 M hMreg (by rw [hMdef]; rfl) (by rw [hMdef]; rfl)
    (by rw [hMdef]; rfl)
    (by rw [hMdef]; simp only [acked_read_addr]; rw [(pin_high x3 hx3).1]; decide)
  obtain ⟨hv, hkeep⟩ := pcf8583_read_plain (clk2 0) M (by rw [hMpcf]; omega)
  rw [hMpcf, hMram] at hv
  rw [hv, Nat.mod_eq_of_lt hbyte] at hread
  refine ⟨M, _, _, hrun, hMpcf, by rw [hMdef]; rfl, hMram, hread, rfl,
    byte_of_out_bits _ hbyte, ?_⟩
  show (pcf8583_read (clk2 0) M).2.2.cmosram = m.cmosram
  rw [hkeep, hMram]

/-- Witness for C21: register 0x20 of the sample store, which holds
`(7 * 0x20 + 0xA5) % 256 = 0x85`. -/
theorem rtc_random_read_witness :
    ((1 : Nat) < 4294967296 ∧ 1 &&& sample_headers.I2C_PCF8583 ≠ 0 ∧
      sample_idle.serdes.oldpinstate &&& I2C_SDA ≠ 0 ∧ (16 : Nat) ≤ 0x20 ∧ (0x20 : Nat) < 256 ∧
      sample_idle.cmosram 0x20 = 0x85) ∧
    ∃ m2 bits m3,
      run sample_headers (fun _ => epoch)
        ((1, 0) :: (send_byte 0xA0 ++ (clock_pulse 1 ++ (send_byte 0x20 ++ (clock_pulse 1 ++
          ((1, 0) :: (send_byte 0xA1 ++ (clock_pulse 1 ++ []))))))))
        (reseti2c 1 sample_idle) = .ok m2 ∧
      m2.pcf.reg_address = 0x20 ∧
      read_bits sample_headers (fun _ => epoch) 8 m2 = .ok (bits, m3) ∧
      byte_of_bits bits = sample_idle.cmosram 0x20 ∧ m3.cmosram = sample_idle.cmosram :=
  ⟨⟨by decide, by decide, by decide, by decide, by decide, by decide⟩,
    (rtc_random_read sample_headers (fun _ => epoch) (fun _ => epoch) sample_idle 1 0x20 1 1
      (by decide) (by decide) (by decide) (by decide) (by decide) (by decide) (by decide)
      (by decide)).imp
      (fun _ h => h.imp (fun _ g => g.imp (fun _ k =>
        ⟨k.1, k.2.1, k.2.2.2.2.1, k.2.2.2.2.2.2.1, k.2.2.2.2.2.2.2⟩)))⟩

/-- C24: Waiting is absorbing except for Start and Stop.  In the Waiting state
a call of `cmosi2cchange` that meets neither the Start test
(`scl && oldsda && !sda`) nor the Stop test (`scl && !oldsda && sda`) returns
the same state with only `oldpinstate` replaced by `(scl << 1) | sda`: the
state, bit counter, buffers, active responder, both output pins and the
responders, store and file are as before. -/
theorem waiting_absorbs (hd : Headers) (t : Tm) (scl sda : Nat) (m : Machine)
    (hst : m.serdes.state = I2C_STATE_WAIT)
    (hstart : ¬ (scl ≠ 0 ∧ m.serdes.oldpinstate &&& I2C_SDA ≠ 0 ∧ sda = 0))
    (hstop : ¬ (scl ≠ 0 ∧ m.serdes.oldpinstate &&& I2C_SDA = 0 ∧ sda ≠ 0)) :
    ∃ m', cmosi2cchange hd t scl sda m = .ok m' ∧
      m' = { m with serdes := { m.serdes with oldpinstate := (scl <<< 1) ||| sda } } ∧
      m'.serdes.state = I2C_STATE_WAIT ∧ m'.serdes.bitcount = m.serdes.bitcount ∧
      m'.serdes.inbuf = m.serdes.inbuf ∧ m'.serdes.outbuf = m.serdes.outbuf ∧
      m'.serdes.active_slave = m.serdes.active_slave ∧
      m'.i2cclock = m.i2cclock ∧ m'.i2cdata = m.i2cdata ∧
      m'.pcf = m.pcf ∧ m'.spd = m.spd ∧ m'.cmosram = m.cmosram ∧
      m'.cmos_file = m.cmos_file ∧ m'.effects = m.effects ∧
      m'.serdes.oldpinstate = (scl <<< 1) ||| sda := by
  refine ⟨_, ?_, rfl, hst, rfl, rfl, rfl, rfl, rfl, rfl, rfl, rfl, rfl, rfl, rfl, rfl⟩
  rw [cmosi2cchange_plain hd t scl sda m hstart hstop, dispatch_WAIT hd t _ scl sda m hst]
  rfl

/-- Witness for C24: a rising clock edge with the data pin high in the Waiting
state. -/
theorem waiting_absorbs_witness :
    (sample_waiting.serdes.state = I2C_STATE_WAIT ∧
      ¬ ((1 : Nat) ≠ 0 ∧ sample_waiting.serdes.oldpinstate &&& I2C_SDA ≠ 0 ∧ (1 : Nat) = 0) ∧
      ¬ ((1 : Nat) ≠ 0 ∧ sample_waiting.serdes.oldpinstate &&& I2C_SDA = 0 ∧ (1 : Nat) ≠ 0)) ∧
    ∃ m', cmosi2cchange sample_headers epoch 1 1 sample_waiting = .ok m' ∧
      m'.serdes.state = I2C_STATE_WAIT ∧ m'.serdes.outbuf = 0x8c ∧
      m'.serdes.active_slave = some .pcf8583 ∧ m'.serdes.oldpinstate = 3 :=
  ⟨⟨by decide, by decide, by decide⟩,
    (waiting_absorbs sample_headers epoch 1 1 sample_waiting (by decide) (by decide)
      (by decide)).imp
      (fun _ h => ⟨h.1, h.2.2.1, h.2.2.2.2.2.1, h.2.2.2.2.2.2.1,
        h.2.2.2.2.2.2.2.2.2.2.2.2.2.2⟩)⟩

/-- C22: AckRead.  In `I2C_STATE_ACK_READ` with an active responder (registry
installed): on a rising clock edge (clock last sampled low, data pin unchanged,
so neither Start nor Stop) with the data pin high the machine goes to Waiting
and the responders and store are untouched; with the data pin low it goes to
Reading with the bit counter reloaded to 8, and the call with the clock low
that follows fetches the next byte from the responder: exactly one entry into
its read operation, and the byte in the outbound buffer; on a falling clock
edge both output pins are set to 1 and the state stays AckRead. -/
theorem ack_read_edges (hd : Headers) (t t2 : Tm) (m : Machine) (sl : SlaveRef) (x x2 : Nat)
    (hreg : Registered m) (hst : m.serdes.state = I2C_STATE_ACK_READ)
    (hact : m.serdes.active_slave = some sl) :
    (m.serdes.oldpinstate &&& I2C_SCL = 0 → m.serdes.oldpinstate &&& I2C_SDA ≠ 0 → x ≠ 0 →
      ∃ m', cmosi2cchange hd t 1 x m = .ok m' ∧
        m'.serdes.state = I2C_STATE_WAIT ∧ m'.serdes.active_slave = some sl ∧
        m'.pcf = m.pcf ∧ m'.spd = m.spd ∧ m'.cmosram = m.cmosram ∧
        m'.i2cclock = m.i2cclock ∧ m'.i2cdata = m.i2cdata) ∧
    (m.serdes.oldpinstate &&& I2C_SCL = 0 → m.serdes.oldpinstate &&& I2C_SDA = 0 →
      ∃ m' m'', cmosi2cchange hd t 1 0 m = .ok m' ∧
        m'.serdes.state = I2C_STATE_READ ∧ m'.serdes.bitcount = 8 ∧
        m'.serdes.active_slave = some sl ∧ m'.effects = m.effects ∧
        m'.pcf = m.pcf ∧ m'.spd = m.spd ∧ m'.cmosram = m.cmosram ∧
        cmosi2cchange hd t2 0 x2 m' = .ok m'' ∧
        m''.effects = m.effects ++ [Effect.read sl.ops] ∧
        m''.serdes.outbuf = (sl.ops.read t2 m).2.1 % 256 ∧
        m''.serdes.bitcount = 7 ∧ m''.serdes.state = I2C_STATE_READ) ∧
    (m.serdes.oldpinstate &&& I2C_SCL ≠ 0 →
      ∃ m', cmosi2cchange hd t 0 x m = .ok m' ∧
        m'.i2cclock = 1 ∧ m'.i2cdata = 1 ∧ m'.serdes.state = I2C_STATE_ACK_READ ∧
        m'.serdes.active_slave = some sl ∧ m'.effects = m.effects) := by
  refine ⟨fun hclk hsda hx => ?_, fun hclk hsda => ?_, fun hclk => ?_⟩
  · exact ⟨_, rise_ack_read_nack hd t m sl x hreg hst hact hclk hsda hx,
      rfl, hact, rfl, rfl, rfl, rfl, rfl⟩
  · have hfetch := fall_read_fetch hd t2
      (store_pins 1 0 { m with serdes := { m.serdes with
        state := I2C_STATE_READ, bitcount := 8, slave_was_accessed := 1 } })
      x2 sl hreg rfl rfl hact (show ((1 <<< 1) ||| 0) &&& I2C_SCL ≠ 0 by decide)
    obtain ⟨_, heff⟩ := slave_read_frame sl t2
      (store_pins 1 0 { m with serdes := { m.serdes with
        state := I2C_STATE_READ, bitcount := 8, slave_was_accessed := 1 } })
    refine ⟨_, _, rise_ack_read_ack hd t m sl hreg hst hact hclk hsda,
      rfl, rfl, hact, rfl, rfl, rfl, rfl, hfetch, heff, ?_, rfl, rfl⟩
    show (sl.ops.read t2 _).2.1 % 256 = (sl.ops.read t2 m).2.1 % 256
    cases sl
    · simp only [SlaveRef.ops, I2C_SlaveOps.read, pcf8583_read, store_pins]
      split_ifs <;> rfl
    · rfl
  · exact ⟨_, fall_ack_read hd t m x hst hclk, rfl, rfl, hst, hact, rfl⟩

/-- Witness for C22: the RTC's byte acknowledged by the controller. -/
theorem ack_read_edges_witness :
    (Registered sample_ack_read ∧ sample_ack_read.serdes.state = I2C_STATE_ACK_READ ∧
      sample_ack_read.serdes.active_slave = some .pcf8583 ∧
      sample_ack_read.serdes.oldpinstate &&& I2C_SCL = 0 ∧
      sample_ack_read.serdes.oldpinstate &&& I2C_SDA = 0) ∧
    ∃ m' m'', cmosi2cchange sample_headers epoch 1 0 sample_ack_read = .ok m' ∧
      m'.serdes.state = I2C_STATE_READ ∧ m'.serdes.bitcount = 8 ∧
      cmosi2cchange sample_headers epoch 0 1 m' = .ok m'' ∧
      m''.serdes.outbuf = sample_ack_read.cmosram 0x21 % 256 :=
  ⟨⟨by decide, by decide, by decide, by decide, by decide⟩,
    ((ack_read_edges sample_headers epoch epoch sample_ack_read .pcf8583 0 1
      (by decide) (by decide) (by decide)).2.1 (by decide) (by decide)).imp
      (fun _ h => h.imp (fun _ g => ⟨g.1, g.2.1, g.2.2.1, g.2.2.2.2.2.2.2.2.1,
        g.2.2.2.2.2.2.2.2.2.2.1⟩))⟩

/-- C23: Writing.  From `I2C_STATE_WRITE` with bit counter 0 and inbound buffer
0 (registry installed, an active responder, the clock last sampled high), the
eight clock pulses of a byte `b`, most significant bit first, enter the active
responder's write operation exactly once, with the byte `b`: the record of
effects grows by that entry (and by one `savecmos` when the RTC stores the
checksum byte), and the responders and store are as that write leaves them.
The eighth rising edge hands the code returned by that write to the three-way
test `case_WRITE_result`, which for every code and state records the access and
moves to AckWrite on `I2C_ACK`, to NackWrite on `I2C_NACK`, and on any other
code keeps the state and reports the code; both write operations of the
program return `I2C_ACK`, so the byte ends in AckWrite.  A falling clock edge
in the Writing state sets both output pins to 1 and changes nothing in the bit
counter or the inbound buffer. -/
theorem writing_byte (hd : Headers) (clk : Nat → Tm) (m : Machine) (sl : SlaveRef) (b : Nat)
    (hb : b < 256) (hreg : Registered m) (hact : m.serdes.active_slave = some sl)
    (hst : m.serdes.state = I2C_STATE_WRITE) (hcount : m.serdes.bitcount = 0)
    (hin : m.serdes.inbuf = 0) (hclk : m.serdes.oldpinstate &&& I2C_SCL ≠ 0) :
    (∃ m', run hd clk (send_byte b) m = .ok m' ∧
      m'.effects = m.effects ++ [Effect.write sl.ops b] ++
        (if sl = .pcf8583 ∧ m.pcf.state = PCF_STATE_DATA ∧ m.pcf.reg_address = 0x3f
          then [Effect.savecmos] else []) ∧
      m'.pcf = (sl.ops.write m b).2.pcf ∧ m'.spd = (sl.ops.write m b).2.spd ∧
      m'.cmosram = (sl.ops.write m b).2.cmosram ∧
      m'.serdes.inbuf = b ∧ m'.serdes.active_slave = some sl ∧
      m'.serdes.state
        = (if (sl.ops.write m b).1 = I2C_ACK then I2C_STATE_ACK_WRITE
           else if (sl.ops.write m b).1 = I2C_NACK then I2C_STATE_NACK_WRITE
           else I2C_STATE_WRITE) ∧
      (sl.ops.write m b).1 = I2C_ACK ∧ m'.serdes.state = I2C_STATE_ACK_WRITE) ∧
    (∀ (t : Tm) (x : Nat) (m7 : Machine) (s7 : SlaveRef), x ≤ 1 → Registered m7 →
      m7.serdes.state = I2C_STATE_WRITE → m7.serdes.bitcount = 7 →
      m7.serdes.oldpinstate = x → m7.serdes.active_slave = some s7 →
      cmosi2cchange hd t 1 x m7
        = (match case_WRITE_result
              (s7.ops.write (shift_in x m7) (shift_in x m7).serdes.inbuf).1
              (s7.ops.write (shift_in x m7) (shift_in x m7).serdes.inbuf).2 with
           | .error e => .error e
           | .ok m1 => .ok (store_pins 1 x m1))) ∧
    (∀ (r : Nat) (m0 : Machine), ∃ m1, case_WRITE_result r m0 = .ok m1 ∧
      m1.serdes.slave_was_accessed = 1 ∧
      (r = I2C_ACK → m1.serdes.state = I2C_STATE_ACK_WRITE ∧ m1.i2cclock = 1 ∧
        m1.effects = m0.effects) ∧
      (r = I2C_NACK → m1.serdes.state = I2C_STATE_NACK_WRITE ∧ m1.i2cclock = 1 ∧
        m1.effects = m0.effects) ∧
      (r ≠ I2C_ACK → r ≠ I2C_NACK → m1.serdes.state = m0.serdes.state ∧
        m1.i2cclock = m0.i2cclock ∧
        m1.effects = m0.effects ++ [Effect.bug (.unknown_result r)]) ∧
      m1.i2cdata = m0.i2cdata ∧ m1.pcf = m0.pcf ∧ m1.spd = m0.spd ∧
      m1.cmosram = m0.cmosram ∧ m1.cmos_file = m0.cmos_file ∧
      m1.serdes.inbuf = m0.serdes.inbuf ∧ m1.serdes.bitcount = m0.serdes.bitcount ∧
      m1.serdes.active_slave = m0.serdes.active_slave ∧
      m1.serdes.oldpinstate = m0.serdes.oldpinstate) ∧
    (∀ (t : Tm) (x : Nat) (m0 : Machine), m0.serdes.state = I2C_STATE_WRITE →
      m0.serdes.oldpinstate &&& I2C_SCL ≠ 0 →
      ∃ m1, cmosi2cchange hd t 0 x m0 = .ok m1 ∧ m1.i2cclock = 1 ∧ m1.i2cdata = 1 ∧
        m1.serdes.state = I2C_STATE_WRITE ∧ m1.serdes.bitcount = m0.serdes.bitcount ∧
        m1.serdes.inbuf = m0.serdes.inbuf ∧ m1.effects = m0.effects) := by
  have hrun := run_write_byte hd clk b [] m sl hb hreg hact hst hcount hin hclk
  rw [List.append_nil] at hrun
  have heff := slave_write_effects sl m b
  rw [Nat.mod_eq_of_lt hb] at heff
  have hack := slave_write_ack sl m b
  refine ⟨⟨written sl b (bit_of b 0) m, ?_, heff, rfl, rfl, rfl, rfl, hact, ?_, hack, rfl⟩,
    ?_, case_WRITE_result_spec, ?_⟩
  · rw [hrun]; rfl
  · rw [if_pos hack]; rfl
  · intro t x m7 s7 hx h7reg h7st h7count h7pins h7act
    exact rise_write_result hd t m7 s7 x hx h7reg h7st h7count h7pins h7act
  · intro t x m0 h0 hc0
    exact ⟨_, fall_shift hd t m0 x (Or.inr h0) hc0, rfl, rfl, h0, rfl, rfl, rfl⟩

/-- Witness for C23: the byte 0x93 written to the SPD sets its register address
to 0x13. -/
theorem writing_byte_witness :
    ((0x93 : Nat) < 256 ∧ Registered sample_writing ∧
      sample_writing.serdes.active_slave = some .spd_i2c ∧
      sample_writing.serdes.state = I2C_STATE_WRITE ∧ sample_writing.serdes.bitcount = 0 ∧
      sample_writing.serdes.inbuf = 0 ∧ sample_writing.serdes.oldpinstate &&& I2C_SCL ≠ 0) ∧
    ∃ m', run sample_headers (fun _ => epoch) (send_byte 0x93) sample_writing = .ok m' ∧
      m'.effects = sample_writing.effects ++ [Effect.write .spd_ops 0x93] ∧
      m'.spd.reg_address = 0x13 ∧ m'.serdes.state = I2C_STATE_ACK_WRITE :=
  ⟨⟨by decide, by decide, by decide, by decide, by decide, by decide, by decide⟩,
    (writing_byte sample_headers (fun _ => epoch) sample_writing .spd_i2c 0x93
      (by decide) (by decide) (by decide) (by decide) (by decide) (by decide) (by decide)).1.imp
      (fun m' h => ⟨h.1, h.2.1, by rw [h.2.2.2.1]; decide, h.2.2.2.2.2.2.2.2.2⟩)⟩

/-- C26: Memory responder address register.  For every byte `b`, `spd_write`
returns `I2C_ACK` and sets the register address to `b & 0x7F`, whatever the
register held and without touching the descriptor table; the register address
is below 128 after every `spd_write` and every `spd_read`, is 0 after
`reseti2c`, and after `reseti2c` and any finite sequence of `cmosi2cchange`
calls the calls have returned, the register address is below 128 and the table
is the one `reseti2c` found, so with the 128-entry table `spd_data` the index
`spd_data[reg_address]` is in bounds. -/
theorem spd_register_in_bounds (hd : Headers) (clk : Nat → Tm) (mask b : Nat) (m : Machine)
    (evs : List (Nat × Nat)) :
    (spd_write m b).1 = I2C_ACK ∧
    (spd_write m b).2.spd.reg_address = b &&& 0x7f ∧
    (spd_write m b).2.spd_data = m.spd_data ∧
    (spd_write m b).2.spd.reg_address < 128 ∧
    (spd_read m).2.2.spd.reg_address < 128 ∧
    (reseti2c mask m).spd.reg_address = 0 ∧
    ∃ m', run hd clk evs (reseti2c mask m) = .ok m' ∧
      m'.spd.reg_address < 128 ∧ m'.spd_data = m.spd_data ∧
      (m.spd_data.length = 128 → ∃ v, m'.spd_data[m'.spd.reg_address]? = some v) := by
  obtain ⟨w1, w2⟩ := spd_write_reg m b
  refine ⟨rfl, w1, rfl, w2, spd_read_reg m, rfl, ?_⟩
  obtain ⟨m', hrun, _⟩ := businv_run hd evs clk _ (businv_reseti2c mask m)
  have h0 : SpdInBounds m.spd_data (reseti2c mask m) := ⟨show (0 : Nat) < 128 by decide, rfl⟩
  obtain ⟨k1, k2⟩ := keep_run (SpdInBounds m.spd_data) (spd_in_bounds_frame _)
    (spd_in_bounds_ops _) hd evs clk _ m' hrun h0
  refine ⟨m', hrun, k1, k2, fun hlen => ?_⟩
  have hlt : m'.spd.reg_address < m'.spd_data.length := by rw [k2, hlen]; exact k1
  exact ⟨m'.spd_data[m'.spd.reg_address], List.getElem?_eq_getElem hlt⟩

/-- C31: Time fields do not overlap.  For every year, day of month up to 31,
month index up to 11 and weekday up to 6, the byte that `cmosgettime` writes to
store[5] has `byte >> 6` equal to the year modulo 4 and `byte & 0x3F` equal to
BCD(day of month), and the byte written to store[6] has `byte >> 5` equal to
the weekday and `byte & 0x1F` equal to BCD(month index + 1); both values are
below 256 before they are stored, so nothing is truncated. -/
theorem time_fields_disjoint (t : Tm) (m : Machine)
    (hmday : t.tm_mday ≤ 31) (hmon : t.tm_mon ≤ 11) (hwday : t.tm_wday ≤ 6) :
    ((Int.toNat ((t.tm_year + 1900) % 4) <<< 6) ||| BIN2BCD t.tm_mday) < 256 ∧
    ((t.tm_wday <<< 5) ||| BIN2BCD (t.tm_mon + 1)) < 256 ∧
    (cmosgettime t m).cmosram 5
      = (Int.toNat ((t.tm_year + 1900) % 4) <<< 6) ||| BIN2BCD t.tm_mday ∧
    (cmosgettime t m).cmosram 6 = (t.tm_wday <<< 5) ||| BIN2BCD (t.tm_mon + 1) ∧
    (cmosgettime t m).cmosram 5 >>> 6 = Int.toNat ((t.tm_year + 1900) % 4) ∧
    (cmosgettime t m).cmosram 5 &&& 0x3f = BIN2BCD t.tm_mday ∧
    (cmosgettime t m).cmosram 6 >>> 5 = t.tm_wday ∧
    (cmosgettime t m).cmosram 6 &&& 0x1f = BIN2BCD (t.tm_mon + 1) ∧
    (∀ y : Nat, t.tm_year + 1900 = y → Int.toNat ((t.tm_year + 1900) % 4) = y % 4) := by
  have hy := year_low_bits (t.tm_year + 1900)
  have f5 := day_byte_fits _ hy.1 t.tm_mday (by omega)
  have f6 := month_byte_fits t.tm_wday (by omega) (t.tm_mon + 1) (by omega)
  obtain ⟨d1, d2⟩ := day_byte_fields _ hy.1 t.tm_mday (by omega)
  obtain ⟨m1, m2⟩ := month_byte_fields t.tm_wday (by omega) (t.tm_mon + 1) (by omega)
  obtain ⟨b5, b6⟩ := cmosgettime_bytes t m
  rw [Nat.mod_eq_of_lt f5] at b5
  rw [Nat.mod_eq_of_lt f6] at b6
  refine ⟨f5, f6, b5, b6, ?_, ?_, ?_, ?_, ?_⟩
  · rw [b5]; exact d1
  · rw [b5]; exact d2
  · rw [b6]; exact m1
  · rw [b6]; exact m2
  · intro y hyy
    omega

/-- Witness for C31: Thursday 29 February 2024 gives the bytes 0x29 and
0x82. -/
theorem time_fields_disjoint_witness :
    (sample_time.tm_mday ≤ 31 ∧ sample_time.tm_mon ≤ 11 ∧ sample_time.tm_wday ≤ 6) ∧
    (cmosgettime sample_time sample_idle).cmosram 5 = 0x29 ∧
    (cmosgettime sample_time sample_idle).cmosram 6 = 0x82 :=
  ⟨⟨by decide, by decide, by decide⟩,
    (time_fields_disjoint sample_time sample_idle (by decide) (by decide) (by decide)).2.2.1,
    (time_fields_disjoint sample_time sample_idle (by decide) (by decide) (by decide)).2.2.2.1⟩

/-- C38: `cmos_update_checksum` changes only the byte at 0x3F and is
idempotent.  For every store, every byte other than 0x3F is unchanged, the
checksum loop never reads address 0x3F, and applying the function twice gives
the same store as applying it once. -/
theorem cmos_update_checksum_idempotent (m : Machine) :
    (∀ a, a ≠ 0x3f → (cmos_update_checksum m).cmosram a = m.cmosram a) ∧
    (∀ i, i < 239 → checksum_offset i ≠ 0x3f) ∧
    (cmos_update_checksum (cmos_update_checksum m)).cmosram = (cmos_update_checksum m).cmosram ∧
    cmos_update_checksum (cmos_update_checksum m) = cmos_update_checksum m := by
  have hloop : checksum_loop (cmos_update_checksum m).cmosram 239 0 0
      = checksum_loop m.cmosram 239 0 0 :=
    checksum_loop_congr m.cmosram (cmos_update_checksum m).cmosram
      (fun i hi => cmos_update_checksum_other m _ (checksum_offset_ne i hi)) 239 0 0
  have hram : (cmos_update_checksum (cmos_update_checksum m)).cmosram
      = (cmos_update_checksum m).cmosram := by
    funext a
    by_cases ha : a = 0x3f
    · subst ha
      show ram_set (cmos_update_checksum m).cmosram 0x3f
          (((checksum_loop (cmos_update_checksum m).cmosram 239 0 0 + 1) % 4294967296) &&& 0xff)
          0x3f
        = ram_set m.cmosram 0x3f
          (((checksum_loop m.cmosram 239 0 0 + 1) % 4294967296) &&& 0xff) 0x3f
      rw [hloop]
      simp [ram_set]
    · exact cmos_update_checksum_other _ a ha
  refine ⟨fun a ha => cmos_update_checksum_other m a ha, checksum_offset_ne, hram, ?_⟩
  show ({ cmos_update_checksum m with
      cmosram := (cmos_update_checksum (cmos_update_checksum m)).cmosram } : Machine)
    = cmos_update_checksum m
  rw [hram]

/-- C39: The edge-detection memory survives resets.  `reseti2c` leaves
`oldpinstate` as it was; every call of `cmosi2cchange` that returns, the early
returns for Start and Stop conditions included, leaves it equal to
`(scl << 1) | sda` of that call, and after `reseti2c` and any finite sequence
of calls every further call does return; and the first call
`cmosi2cchange(1, 0)` after `reseti2c` returns, in the Addressing state when
the data bit of the pin state sampled before the reset is set and in Idle when
it is clear. -/
theorem edge_memory_kept (hd : Headers) (clk : Nat → Tm) (t : Tm) (mask : Nat) (m : Machine)
    (evs : List (Nat × Nat)) :
    (reseti2c mask m).serdes.oldpinstate = m.serdes.oldpinstate ∧
    (∀ (scl sda : Nat) (m0 m' : Machine), cmosi2cchange hd t scl sda m0 = .ok m' →
      m'.serdes.oldpinstate = (scl <<< 1) ||| sda) ∧
    (∃ m1, run hd clk evs (reseti2c mask m) = .ok m1 ∧
      ∀ (scl sda : Nat), ∃ m2, cmosi2cchange hd t scl sda m1 = .ok m2 ∧
        m2.serdes.oldpinstate = (scl <<< 1) ||| sda) ∧
    (∃ m', cmosi2cchange hd t 1 0 (reseti2c mask m) = .ok m' ∧
      (m.serdes.oldpinstate &&& I2C_SDA ≠ 0 → m'.serdes.state = I2C_STATE_ADDR) ∧
      (m.serdes.oldpinstate &&& I2C_SDA = 0 → m'.serdes.state = I2C_STATE_IDLE) ∧
      (m'.serdes.state = I2C_STATE_ADDR ↔ m.serdes.oldpinstate &&& I2C_SDA ≠ 0) ∧
      m'.serdes.oldpinstate = (1 <<< 1) ||| 0) := by
  refine ⟨rfl, fun scl sda m0 m' h => cmosi2cchange_oldpinstate hd t scl sda m0 m' h, ?_, ?_⟩
  · obtain ⟨m1, hrun, hinv⟩ := businv_run hd evs clk _ (businv_reseti2c mask m)
    refine ⟨m1, hrun, fun scl sda => ?_⟩
    obtain ⟨m2, h2, _⟩ := businv_step hd t scl sda m1 hinv
    exact ⟨m2, h2, cmosi2cchange_oldpinstate hd t scl sda m1 m2 h2⟩
  by_cases hsda : m.serdes.oldpinstate &&& I2C_SDA ≠ 0
  · have hstart : (1 : Nat) ≠ 0 ∧ (reseti2c mask m).serdes.oldpinstate &&& I2C_SDA ≠ 0 ∧
        (0 : Nat) = 0 := ⟨by decide, hsda, rfl⟩
    refine ⟨store_pins 1 0 { reset_serdes (reseti2c mask m) with
        serdes := { (reset_serdes (reseti2c mask m)).serdes with state := I2C_STATE_ADDR } },
      cmosi2cchange_start hd t 1 0 (reseti2c mask m) hstart,
      fun _ => rfl, fun h => absurd h hsda, ⟨fun _ => hsda, fun _ => rfl⟩, rfl⟩
  · have hsda0 : m.serdes.oldpinstate &&& I2C_SDA = 0 := by
      by_contra hne; exact hsda hne
    refine ⟨store_pins 1 0 (release_lines (reseti2c mask m)), ?_, fun h => absurd h hsda,
      fun _ => rfl, ⟨fun h => ?_, fun h => absurd h hsda⟩, rfl⟩
    · rw [cmosi2cchange_plain hd t 1 0 (reseti2c mask m) (fun h => h.2.1 hsda0)
        (fun h => h.2.2 rfl)]
      have hdis : dispatch hd t ((reseti2c mask m).serdes.oldpinstate &&& I2C_SCL) 1 0
          (reseti2c mask m) = .ok (release_lines (reseti2c mask m)) := by
        unfold dispatch
        rw [if_pos (show (reseti2c mask m).serdes.state = I2C_STATE_IDLE from rfl)]
      rw [hdis]
    · exact absurd h (show ¬ ((0 : Nat) = 1) by decide)

/-- C32: The subsystem never holds the clock line.  `i2cclock` is 1 after
`reseti2c`, and for every population mask and every finite sequence of
`cmosi2cchange` calls after it, with any pin values, the calls return and
`i2cclock` is 1. -/
theorem clock_line_released (hd : Headers) (clk : Nat → Tm) (mask : Nat) (m : Machine)
    (evs : List (Nat × Nat)) :
    (reseti2c mask m).i2cclock = 1 ∧
    ∃ m', run hd clk evs (reseti2c mask m) = .ok m' ∧ m'.i2cclock = 1 := by
  obtain ⟨m', hrun, hwf⟩ := wf_reachable hd clk mask m evs
  exact ⟨rfl, m', hrun, hwf.2.1⟩

/-- C33: Idle means released.  After `reseti2c` and any finite sequence of
`cmosi2cchange` calls (with any pin values, boolean ones included), if the
machine is in Idle then `i2cclock` and `i2cdata` are both 1, no active
responder is recorded and the bit counter is 0. -/
theorem idle_released (hd : Headers) (clk : Nat → Tm) (mask : Nat) (m : Machine)
    (evs : List (Nat × Nat)) :
    ∃ m', run hd clk evs (reseti2c mask m) = .ok m' ∧
      (m'.serdes.state = I2C_STATE_IDLE →
        m'.i2cclock = 1 ∧ m'.i2cdata = 1 ∧ m'.serdes.active_slave = none ∧
        m'.serdes.bitcount = 0) := by
  obtain ⟨m', hrun, hwf⟩ := wf_reachable hd clk mask m evs
  refine ⟨m', hrun, fun hst => ?_⟩
  obtain ⟨i1, i2, i3⟩ := at_IDLE false m' hwf.2.2.2 hst
  exact ⟨hwf.2.1, i1, i2, i3⟩

/-- C34: Calls without a clock edge are no-ops.  In every state reached from
`reseti2c` by a finite sequence of `cmosi2cchange` calls, a further call whose
clock value is set exactly when the previously sampled clock bit is set, and
which meets neither the Start test nor the Stop test, returns the same state
with only `oldpinstate` replaced by `(scl << 1) | sda`; this covers every call
with the clock low after a call with the clock low, whatever the data pin
does. -/
theorem no_edge_noop (hd : Headers) (clk : Nat → Tm) (mask : Nat) (m : Machine)
    (evs : List (Nat × Nat)) :
    ∃ m1, run hd clk evs (reseti2c mask m) = .ok m1 ∧
      (∀ (t : Tm) (scl sda : Nat),
        (m1.serdes.oldpinstate &&& I2C_SCL ≠ 0 ↔ scl ≠ 0) →
        ¬ (scl ≠ 0 ∧ m1.serdes.oldpinstate &&& I2C_SDA ≠ 0 ∧ sda = 0) →
        ¬ (scl ≠ 0 ∧ m1.serdes.oldpinstate &&& I2C_SDA = 0 ∧ sda ≠ 0) →
        cmosi2cchange hd t scl sda m1
          = .ok { m1 with serdes := { m1.serdes with oldpinstate := (scl <<< 1) ||| sda } }) ∧
      (∀ (t : Tm) (sda : Nat), m1.serdes.oldpinstate &&& I2C_SCL = 0 →
        cmosi2cchange hd t 0 sda m1
          = .ok { m1 with serdes := { m1.serdes with oldpinstate := (0 <<< 1) ||| sda } }) := by
  obtain ⟨m1, hrun, hwf⟩ := wf_reachable hd clk mask m evs
  have hgen : ∀ (t : Tm) (scl sda : Nat),
      (m1.serdes.oldpinstate &&& I2C_SCL ≠ 0 ↔ scl ≠ 0) →
      ¬ (scl ≠ 0 ∧ m1.serdes.oldpinstate &&& I2C_SDA ≠ 0 ∧ sda = 0) →
      ¬ (scl ≠ 0 ∧ m1.serdes.oldpinstate &&& I2C_SDA = 0 ∧ sda ≠ 0) →
      cmosi2cchange hd t scl sda m1
        = .ok { m1 with serdes := { m1.serdes with oldpinstate := (scl <<< 1) ||| sda } } := by
    intro t scl sda hne hstart hstop
    rw [cmosi2cchange_plain hd t scl sda m1 hstart hstop,
      dispatch_no_edge false m.effects hd t scl sda m1 hwf hne]
    rfl
  refine ⟨m1, hrun, hgen, fun t sda hlow => ?_⟩
  exact hgen t 0 sda ⟨fun h => absurd hlow h, fun h => absurd rfl h⟩
    (fun h => h.1 rfl) (fun h => h.1 rfl)

/-- C35: Bit-counter assertion.  After `reseti2c` and any finite sequence of
`cmosi2cchange` calls with pin values 0 and 1, the bit counter is at most 8;
in the Reading state with the clock last sampled high, which is where a
falling clock edge can occur, the bit counter is greater than 0; and the
record of effects holds no "bitcount<=0 should not happen" report that was not
there before the reset. -/
theorem bitcount_in_range (hd : Headers) (clk : Nat → Tm) (mask : Nat) (m : Machine)
    (evs : List (Nat × Nat)) (hb : boolean_pins evs) :
    ∃ m', run hd clk evs (reseti2c mask m) = .ok m' ∧
      m'.serdes.bitcount ≤ 8 ∧
      (m'.serdes.state = I2C_STATE_READ → m'.serdes.oldpinstate &&& I2C_SCL ≠ 0 →
        0 < m'.serdes.bitcount) ∧
      (Effect.bug Bug.bitcount_le_0 ∈ m'.effects → Effect.bug Bug.bitcount_le_0 ∈ m.effects) := by
  obtain ⟨m', hrun, hwf⟩ := wf_reachable_strict hd clk mask m evs hb
  refine ⟨m', hrun, state_ok_bitcount true m' hwf.2.2.2, fun hst hclk => ?_,
    watched_mem true _ _ hwf.2.2.1 _ rfl⟩
  exact (at_READ true m' hwf.2.2.2 hst).2.2 rfl hclk

/-- Witness for C35: a complete one-byte read from the RTC. -/
theorem bitcount_in_range_witness :
    boolean_pins sample_read_transaction ∧
    ∃ m', run sample_headers (fun _ => epoch) sample_read_transaction
        (reseti2c 3 sample_idle) = .ok m' ∧ m'.serdes.bitcount ≤ 8 :=
  ⟨by decide,
    (bitcount_in_range sample_headers (fun _ => epoch) 3 sample_idle sample_read_transaction
      (by decide)).imp (fun _ h => ⟨h.1, h.2.1⟩)⟩

/-- C36: Released data line at the controller's acknowledge.  After `reseti2c`
and any finite sequence of `cmosi2cchange` calls with pin values 0 and 1, in
the AckRead state with the clock last sampled low, which is where a rising
clock edge can occur, the output `i2cdata` is 1; and the record of effects
holds no "Emulator Bug" report that was not there before the reset. -/
theorem ack_read_data_released (hd : Headers) (clk : Nat → Tm) (mask : Nat) (m : Machine)
    (evs : List (Nat × Nat)) (hb : boolean_pins evs) :
    ∃ m', run hd clk evs (reseti2c mask m) = .ok m' ∧
      (m'.serdes.state = I2C_STATE_ACK_READ → m'.serdes.oldpinstate &&& I2C_SCL = 0 →
        m'.i2cdata = 1) ∧
      (Effect.bug Bug.emulator_bug ∈ m'.effects → Effect.bug Bug.emulator_bug ∈ m.effects) := by
  obtain ⟨m', hrun, hwf⟩ := wf_reachable_strict hd clk mask m evs hb
  refine ⟨m', hrun, fun hst hclk => ?_, watched_mem true _ _ hwf.2.2.1 _ rfl⟩
  exact (at_ACK_READ true m' hwf.2.2.2 hst).2.2 rfl hclk

/-- Witness for C36: a complete one-byte read from the RTC, in which the
controller refuses the byte. -/
theorem ack_read_data_released_witness :
    boolean_pins sample_read_transaction ∧
    ∃ m', run sample_headers (fun _ => epoch) sample_read_transaction
        (reseti2c 3 sample_idle) = .ok m' ∧
      (Effect.bug Bug.emulator_bug ∈ m'.effects →
        Effect.bug Bug.emulator_bug ∈ sample_idle.effects) :=
  ⟨by decide,
    (ack_read_data_released sample_headers (fun _ => epoch) 3 sample_idle
      sample_read_transaction (by decide)).imp (fun _ h => ⟨h.1, h.2.2⟩)⟩

/-- C37: With the two built-in responders, whose start and write operations
return `I2C_ACK` in every state, after `reseti2c` and any finite sequence of
`cmosi2cchange` calls the state is never NackWrite and the record of effects
holds no "Unknown I2C-Result" report that was not there before the reset; and
a further call ends in Waiting only if the machine already was in Waiting or
was in AckRead and the call had the data pin high. -/
theorem nack_write_unreachable (hd : Headers) (clk : Nat → Tm) (mask : Nat) (m : Machine)
    (evs : List (Nat × Nat)) :
    (∀ (ops : I2C_SlaveOps) (m0 : Machine) (a o : Nat), (ops.start m0 a o).1 = I2C_ACK) ∧
    (∀ (ops : I2C_SlaveOps) (m0 : Machine) (d : Nat), (ops.write m0 d).1 = I2C_ACK) ∧
    ∃ m1, run hd clk evs (reseti2c mask m) = .ok m1 ∧
      m1.serdes.state ≠ I2C_STATE_NACK_WRITE ∧
      (∀ r, Effect.bug (Bug.unknown_result r) ∈ m1.effects →
        Effect.bug (Bug.unknown_result r) ∈ m.effects) ∧
      (∀ (t : Tm) (scl sda : Nat), ∃ m2, cmosi2cchange hd t scl sda m1 = .ok m2 ∧
        m2.serdes.state ≠ I2C_STATE_NACK_WRITE ∧
        (m2.serdes.state = I2C_STATE_WAIT →
          m1.serdes.state = I2C_STATE_WAIT ∨
          (m1.serdes.state = I2C_STATE_ACK_READ ∧ sda ≠ 0))) := by
  have hnot : ∀ m0 : Machine, BusWF false m.effects m0 →
      m0.serdes.state ≠ I2C_STATE_NACK_WRITE := by
    intro m0 hwf hn
    rcases state_ok_states false m0 hwf.2.2.2 with k | k | k | k | k | k | k | k <;>
      (rw [hn] at k; exact absurd k (by decide))
  refine ⟨fun ops m0 a o => ?_, fun ops m0 d => ?_, ?_⟩
  · obtain ⟨m2, hs, _⟩ := start_bus false ops m0 a o
    rw [hs]
  · obtain ⟨m2, hs, _⟩ := write_bus false ops m0 d
    rw [hs]
  · obtain ⟨m1, hrun, hwf⟩ := wf_reachable hd clk mask m evs
    refine ⟨m1, hrun, hnot m1 hwf, fun r => watched_mem false _ _ hwf.2.2.1 _ rfl,
      fun t scl sda => ?_⟩
    obtain ⟨m2, h2, hwf2, hw⟩ := wf_step false m.effects hd t scl sda m1 hwf
      (fun hs => Bool.noConfusion hs)
    exact ⟨m2, h2, hnot m2 hwf2, hw⟩

end RPCEmu
